import Mathlib

/-!
Verification of the onnxruntime allocation planner
(`core/framework/allocation_planner.cc`) and parallel executor
(`core/framework/parallel_executor.cc`) against their natural-language
specification.

The planner is shallowly embedded: the mutable `PlannerImpl` state becomes an
explicit `PlannerState` record threaded through pure functions, one per C++
member function, keeping the source's names and control structure.  Machine
integers that can go negative (`int usecount`) are `Int`; indices are `Nat`.
Fallible code (`Status`) returns `Except String`.
-/

namespace OnnxPlan

/-- OrtValueIndex: a stable integer index for every value in the graph. -/
abbrev OrtValueIndex := Nat

/-- OrtMemoryInfo is abstracted to an opaque id with decidable equality;
the planner only ever copies and compares these. -/
abbrev MemInfo := Nat

/-- OrtMemType (kernel memory-type hints); `OrtMemTypeDefault = 0`,
CPU-pinned kinds are negative in the source enum. -/
abbrev MemType := Int

/-- OrtMemTypeDefault from the OrtMemType enum. -/
def OrtMemTypeDefault : MemType := 0

/-- One dimension of a TensorShapeProto: an optional concrete value
(`dim_value`) and an optional symbolic name (`dim_param`). -/
structure TensorDim where
  dimValue : Option Int
  dimParam : Option String
deriving DecidableEq, Repr

/-- TensorShapeProto: an ordered list of dimensions. -/
abbrev TensorShapeProto := List TensorDim

/-- The slice of a value's static type the planner consults: whether the
type is a tensor type, and the byte size of a tensor element. -/
structure DataTypeInfo where
  isTensor : Bool
  eltSize : Nat
deriving DecidableEq, Repr

/-- NodeArg: a (possibly absent) argument of a node.  `argExists` models
`NodeArg::Exists()`; `id` is the result of `Index(arg.Name())` through the
`OrtValueNameIdxMap`; `ty` models `NodeArg::Type()`. -/
structure NodeArg where
  argExists : Bool
  id : OrtValueIndex
  ty : DataTypeInfo
deriving DecidableEq, Repr

instance : Inhabited NodeArg := ⟨⟨false, 0, ⟨false, 0⟩⟩⟩

/-- Node: an operator invocation with declared, implicit and output args. -/
structure Node where
  nodeIndex : Nat
  opType : String
  inputDefs : List NodeArg
  implicitInputDefs : List NodeArg
  outputDefs : List NodeArg
deriving DecidableEq, Repr

instance : Inhabited Node := ⟨⟨0, "", [], [], []⟩⟩

/-- KernelDef slice used by the planner: alias map, may-in-place map,
per-argument memory types, `IsInputOnCpu`, and the execution queue id. -/
structure KernelDef where
  aliasMap : List (Int × Int)
  mayInplace : List (Int × Int)
  inputMemType : Nat → MemType
  outputMemType : Nat → MemType
  inputOnCpu : Nat → Bool
  execQueueId : Nat

instance : Inhabited KernelDef := ⟨⟨[], [], fun _ => 0, fun _ => 0, fun _ => false, 0⟩⟩

/-- AllocKind from `allocation_plan.h`. -/
inductive AllocKind where
  | kAllocate
  | kAllocateStatically
  | kPreExisting
  | kReuse
  | kAllocateOutput
  | kShare
deriving DecidableEq, Repr

/-- Modelled from the spec: `AllocPlanPerValue` (its header is not in the
sources).  A value's decision defaults to allocate-fresh; `reused_buffer`
and `create_fence_if_async` default to zero/false. -/
structure AllocPlanPerValue where
  allocKind : AllocKind := AllocKind.kAllocate
  valueType : Option DataTypeInfo := none
  location : MemInfo := 0
  reusedBuffer : OrtValueIndex := 0
  createFenceIfAsync : Bool := false
deriving DecidableEq, Repr

instance : Inhabited AllocPlanPerValue := ⟨{}⟩

/-- Modelled from the spec: `SequentialExecutionPlan::NodeExecutionPlan`
(header not in the sources).  The spec states the per-step free range is
inclusive and an empty range is encoded as `free_from > free_to`, so fresh
steps carry `free_from = 1, free_to = 0`. -/
structure NodeExecutionPlan where
  nodeIndex : Nat
  freeFromIndex : Int := 1
  freeToIndex : Int := 0
deriving DecidableEq, Repr

instance : Inhabited NodeExecutionPlan := ⟨{ nodeIndex := 0 }⟩

/-- PlannerImpl::OrtValueInfo: auxiliary per-value planning state. -/
structure OrtValueInfo where
  pDefSite : Option NodeArg := none
  usecount : Int := 0
  reusedBufferIndex : OrtValueIndex := 0
deriving DecidableEq, Repr

instance : Inhabited OrtValueInfo := ⟨{}⟩

/-- PlannerImpl::FreeBufferInfo: a freelist entry. -/
structure FreeBufferInfo where
  mlValue : OrtValueIndex
  deallocatePoint : Nat
deriving DecidableEq, Repr

/-- The planner's mutable state: `ort_value_info_`, `plan_.allocation_plan`,
`freelist_`, `plan_.execution_plan`, `plan_.to_be_freed`,
`plan_.node_has_fence`.  The freelist front is the most recently freed
entry, as in the `std::list` with `push_front`. -/
structure PlannerState where
  ortValueInfo : List OrtValueInfo
  allocationPlan : List AllocPlanPerValue
  freelist : List FreeBufferInfo
  executionPlan : List NodeExecutionPlan
  toBeFreed : List OrtValueIndex
  nodeHasFence : List Bool
deriving Repr

/-- The planner's input: the graph view, the outer-scope args, the kernel
registry, the shape oracle (`ISequentialPlannerContext::GetShape`), the
allocator-location oracle (`GetAllocator(0, mem_type)->Info()` of the
node's execution provider), and the planning context. -/
structure PlanEnv where
  numValues : Nat
  graphInputs : List NodeArg
  graphInputsIncludingInitializers : List NodeArg
  outerScopeNodeArgs : List NodeArg
  initializers : List NodeArg
  graphOutputs : List NodeArg
  nodesInTopologicalOrder : List Node
  maxNodeIndex : Nat
  searchKernel : Node → Option KernelDef
  getShape : NodeArg → Option TensorShapeProto
  allocInfo : Node → MemType → MemInfo
  defaultCpuMemoryInfo : MemInfo
  isParallel : Bool
  parentNode : Option Node

/-- GraphViewer::GetNode by node index: first node in the viewer carrying
that index (node indices are unique in a well-formed graph). -/
def getNodeD (env : PlanEnv) (idx : Nat) : Node :=
  (env.nodesInTopologicalOrder.find? (fun n => n.nodeIndex == idx)).getD default

/-- GraphViewer::GetNode returning the miss as `none`. -/
def getNode? (env : PlanEnv) (idx : Nat) : Option Node :=
  env.nodesInTopologicalOrder.find? (fun n => n.nodeIndex == idx)

/-- Read of `ort_value_info_[n]` (out-of-range reads, which would trip
`ORT_ENFORCE` in the source, return the default record). -/
def getInfo (st : PlannerState) (n : OrtValueIndex) : OrtValueInfo :=
  st.ortValueInfo.getD n default

/-- Write of `ort_value_info_[n]`. -/
def setInfo (st : PlannerState) (n : OrtValueIndex) (i : OrtValueInfo) : PlannerState :=
  { st with ortValueInfo := st.ortValueInfo.set n i }

/-- PlannerImpl::UseCount. -/
def UseCount (st : PlannerState) (n : OrtValueIndex) : Int :=
  (getInfo st n).usecount

/-- PlannerImpl::Buffer: the reused-buffer (root) index recorded for `n`. -/
def Buffer (st : PlannerState) (n : OrtValueIndex) : OrtValueIndex :=
  (getInfo st n).reusedBufferIndex

/-- Read of `plan_.allocation_plan[n]` (PlannerImpl::AllocPlan). -/
def getPlan (st : PlannerState) (n : OrtValueIndex) : AllocPlanPerValue :=
  st.allocationPlan.getD n default

/-- Write of `plan_.allocation_plan[n]`. -/
def setPlan (st : PlannerState) (n : OrtValueIndex) (p : AllocPlanPerValue) : PlannerState :=
  { st with allocationPlan := st.allocationPlan.set n p }

/-- Field assignment `AllocPlan(n).value_type = t`. -/
def setValueType (st : PlannerState) (n : OrtValueIndex) (t : DataTypeInfo) : PlannerState :=
  setPlan st n { getPlan st n with valueType := some t }

/-- Field assignment `AllocPlan(n).alloc_kind = k`. -/
def setAllocKind (st : PlannerState) (n : OrtValueIndex) (k : AllocKind) : PlannerState :=
  setPlan st n { getPlan st n with allocKind := k }

/-- SequentialExecutionPlan::SetLocation: `allocation_plan[n].location = l`. -/
def setLocation (st : PlannerState) (n : OrtValueIndex) (l : MemInfo) : PlannerState :=
  setPlan st n { getPlan st n with location := l }

/-- Field assignment `AllocPlan(n).create_fence_if_async = true`. -/
def setCreateFence (st : PlannerState) (n : OrtValueIndex) : PlannerState :=
  setPlan st n { getPlan st n with createFenceIfAsync := true }

/-- Increment `UseCount(n)` (the `UseCount(...)++` idiom). -/
def incUseCount (st : PlannerState) (n : OrtValueIndex) : PlannerState :=
  setInfo st n { getInfo st n with usecount := (getInfo st n).usecount + 1 }

/-- Write of `UseCount(n)`. -/
def setUseCount (st : PlannerState) (n : OrtValueIndex) (c : Int) : PlannerState :=
  setInfo st n { getInfo st n with usecount := c }

/-- PlannerImpl::ProcessDef: initialize state for a value at its
definition site; initially the value uses its own buffer. -/
def ProcessDef (st : PlannerState) (id : OrtValueIndex) (pDefSite : NodeArg) : PlannerState :=
  setInfo st id { pDefSite := some pDefSite, usecount := 0, reusedBufferIndex := id }

/-- PlannerImpl::Reuse: record that `reusedFor` will share the buffer
rooted at `Buffer(reused)`, splice the use counts, and update the
allocation plan with the given kind. -/
def ReuseValue (st : PlannerState) (reused reusedFor : OrtValueIndex) (kind : AllocKind) :
    PlannerState :=
  let original := Buffer st reused
  let st1 := setInfo st reusedFor { getInfo st reusedFor with reusedBufferIndex := original }
  let st2 := setUseCount st1 original (UseCount st1 original + UseCount st1 reusedFor)
  setPlan st2 reusedFor
    { getPlan st2 reusedFor with allocKind := kind, reusedBuffer := original }

/-- utils::HasDimValue. -/
def HasDimValue (d : TensorDim) : Bool := d.dimValue.isSome

/-- utils::HasDimParam. -/
def HasDimParam (d : TensorDim) : Bool := d.dimParam.isSome

/-- PlannerImpl::SameShape on two TensorShapeProtos: equal rank, and each
dimension pair either carries the same known value or the same non-empty
symbolic name. -/
def SameShape (shape1 shape2 : TensorShapeProto) : Bool :=
  shape1.length == shape2.length &&
    (List.zip shape1 shape2).all fun p =>
      (HasDimValue p.1 && HasDimValue p.2 && p.1.dimValue == p.2.dimValue) ||
      (HasDimParam p.1 && HasDimParam p.2 && p.1.dimParam == p.2.dimParam &&
        !(p.1.dimParam == some ""))

/-- PlannerImpl::GetElementSize of a tensor type. -/
def GetElementSize (ty : DataTypeInfo) : Nat := ty.eltSize

/-- PlannerImpl::SameSize on shapes with their element types: equal element
size and the same shape. -/
def SameSizeShapes (shape1 : TensorShapeProto) (ptype1 : DataTypeInfo)
    (shape2 : TensorShapeProto) (ptype2 : DataTypeInfo) : Bool :=
  GetElementSize ptype1 == GetElementSize ptype2 && SameShape shape1 shape2

/-- PlannerImpl::SameSize on two NodeArgs: false if either argument is
absent or either shape is unknown to the shape oracle. -/
def SameSizeArg (env : PlanEnv) (arg1 arg2 : NodeArg) : Bool :=
  if !arg1.argExists || !arg2.argExists then false
  else
    match env.getShape arg1, env.getShape arg2 with
    | some s1, some s2 => SameSizeShapes s1 arg1.ty s2 arg2.ty
    | _, _ => false

/-- PlannerImpl::IsNonTensor. -/
def IsNonTensor (arg : NodeArg) : Bool := !arg.ty.isTensor

/-- The alias-map scan in PlannerImpl::FindReusableInput: first alias pair
for this output slot whose input index is in range and whose input exists. -/
def findAliasInput (kd : KernelDef) (inputArgs : List NodeArg) (outputArgNum : Nat) :
    Option OrtValueIndex :=
  kd.aliasMap.findSome? fun pair =>
    if pair.2 == (outputArgNum : Int) then
      if 0 ≤ pair.1 && pair.1.toNat < inputArgs.length then
        let pInputArg := inputArgs.getD pair.1.toNat default
        if pInputArg.argExists then some pInputArg.id else none
      else none
    else none

/-- The may-in-place scan in PlannerImpl::FindReusableInput: first in-place
pair for this output slot whose input exists, whose root buffer has use
count 1, and which has the same size as the output. -/
def findInplaceInput (env : PlanEnv) (st : PlannerState) (kd : KernelDef)
    (inputArgs : List NodeArg) (pOutputArg : NodeArg) (outputArgNum : Nat) :
    Option OrtValueIndex :=
  kd.mayInplace.findSome? fun pair =>
    if pair.2 == (outputArgNum : Int) then
      if 0 ≤ pair.1 && pair.1.toNat < inputArgs.length then
        let pInputArg := inputArgs.getD pair.1.toNat default
        if pInputArg.argExists then
          let inputArgIndex := pInputArg.id
          let original := Buffer st inputArgIndex
          if UseCount st original == 1 && SameSizeArg env pInputArg pOutputArg then
            some inputArgIndex
          else none
        else none
      else none
    else none

/-- PlannerImpl::FindReusableInput: kernel lookup, then the alias map scan,
then the may-in-place scan. -/
def FindReusableInput (env : PlanEnv) (st : PlannerState) (node : Node)
    (outputArgNum : Nat) : Option OrtValueIndex :=
  match env.searchKernel node with
  | none => none
  | some kd =>
    let pOutputArg := node.outputDefs.getD outputArgNum default
    match findAliasInput kd node.inputDefs outputArgNum with
    | some r => some r
    | none => findInplaceInput env st kd node.inputDefs pOutputArg outputArgNum

/-- The freelist scan of PlannerImpl::FindReusableTensor: front-to-back,
first entry whose defining value's recorded location equals the required
location and whose known shape has the same size; returns the hit and the
freelist with the hit erased. -/
def findReusableTensorScan (env : PlanEnv) (st : PlannerState)
    (requiredShape : TensorShapeProto) (requiredType : DataTypeInfo)
    (requiredMemoryInfo : MemInfo) :
    List FreeBufferInfo → Option (OrtValueIndex × List FreeBufferInfo)
  | [] => none
  | e :: rest =>
    let pNodeArg := (getInfo st e.mlValue).pDefSite.getD default
    let availableMemoryInfo := (getPlan st pNodeArg.id).location
    let keep := fun _ : Unit =>
      match findReusableTensorScan env st requiredShape requiredType requiredMemoryInfo rest with
      | some (r, rest') => some (r, e :: rest')
      | none => none
    if availableMemoryInfo == requiredMemoryInfo then
      match env.getShape pNodeArg with
      | some availableShape =>
        if SameSizeShapes availableShape pNodeArg.ty requiredShape requiredType then
          some (e.mlValue, rest)
        else keep ()
      | none => keep ()
    else keep ()

/-- PlannerImpl::FindReusableTensor: gives up when the output's shape is
unknown, otherwise scans the freelist. -/
def FindReusableTensor (env : PlanEnv) (st : PlannerState) (outputArg : NodeArg) :
    Option (OrtValueIndex × List FreeBufferInfo) :=
  match env.getShape outputArg with
  | none => none
  | some requiredShape =>
    findReusableTensorScan env st requiredShape outputArg.ty
      ((getPlan st outputArg.id).location) st.freelist

/-- Modelled from the spec: `Node::ForEachWithIndex` (graph.h is not in the
sources) applies the body to each declared argument that is present,
passing the argument's slot index; absent optional arguments are skipped
(the spec's pass B speaks only of consumed inputs). -/
def forEachWithIndex (args : List NodeArg) (st : PlannerState)
    (f : PlannerState → NodeArg → Nat → PlannerState) : PlannerState :=
  args.enum.foldl (fun s p => if p.2.argExists then f s p.2 p.1 else s) st

/-- The `process_input` lambda of ComputeUseCounts: bump the use count and,
for graph inputs (including initializers) and outer-scope args, record the
location derived from the kernel's input memory type. -/
def processInput (env : PlanEnv) (node : Node) (kd : KernelDef)
    (st : PlannerState) (input : NodeArg) (argIdx : Nat) : PlannerState :=
  let st := incUseCount st input.id
  if env.graphInputsIncludingInitializers.any (fun g => g.id == input.id) ||
      env.outerScopeNodeArgs.any (fun v => v.id == input.id) then
    setLocation st input.id (env.allocInfo node (kd.inputMemType argIdx))
  else st

/-- Per-step body of ComputeUseCounts: kernel lookup (fails planning when
absent), input/implicit-input processing, output definition registration
with locations, and fence marking for kernels on a non-default queue. -/
def computeUseCountsNode (env : PlanEnv) (st : PlannerState)
    (step : NodeExecutionPlan) : Except String PlannerState := do
  match getNode? env step.nodeIndex with
  | none => throw "Can not find the node"
  | some pnode =>
    match env.searchKernel pnode with
    | none => throw "No suitable kernel definition found"
    | some kd =>
      let st := forEachWithIndex pnode.inputDefs st (processInput env pnode kd)
      let st := forEachWithIndex pnode.implicitInputDefs st (processInput env pnode kd)
      let st := pnode.outputDefs.enum.foldl
        (fun s p =>
          if p.2.argExists then
            let s := ProcessDef s p.2.id p.2
            let s := incUseCount s p.2.id
            setLocation s p.2.id (env.allocInfo pnode (kd.outputMemType p.1))
          else s) st
      let st :=
        if kd.execQueueId != 0 then
          (pnode.inputDefs ++ pnode.implicitInputDefs ++ pnode.outputDefs).foldl
            (fun s a => if a.argExists then setCreateFence s a.id else s) st
        else st
      pure st

/-- PlannerImpl::ComputeUseCounts: sentinel definitions and uses for graph
inputs, outer-scope args and initializers, the per-node pass, and the
final graph-output sentinels. -/
def ComputeUseCounts (env : PlanEnv) (st : PlannerState) : Except String PlannerState := do
  let st := env.graphInputs.foldl
    (fun s gi => incUseCount (ProcessDef s gi.id gi) gi.id) st
  let st := env.outerScopeNodeArgs.foldl
    (fun s na => incUseCount (ProcessDef s na.id na) na.id) st
  let st := env.initializers.foldl
    (fun s w => incUseCount (ProcessDef s w.id w) w.id) st
  let st ← st.executionPlan.foldlM (computeUseCountsNode env) st
  pure (env.graphOutputs.foldl (fun s go => incUseCount s go.id) st)

/-- PlannerImpl::GetLocationForNodeInput: default CPU device for inputs the
kernel wants on CPU, the provider's default allocator location otherwise;
a missing kernel aborts (the enclosing try/catch turns it into a status). -/
def GetLocationForNodeInput (env : PlanEnv) (inputIndex : Nat) (node : Node) :
    Except String MemInfo :=
  match env.searchKernel node with
  | none => throw "search kernel failed"
  | some kd =>
    if kd.inputOnCpu inputIndex then pure env.defaultCpuMemoryInfo
    else pure (env.allocInfo node OrtMemTypeDefault)

/-- Append `loc` to `locations[i]`. -/
def pushLocation (locations : List (List MemInfo)) (i : Nat) (loc : MemInfo) :
    List (List MemInfo) :=
  locations.set i (locations.getD i [] ++ [loc])

/-- One (slot, argument) pair of the gathering loop of
GeneratePlanForWeights: a present declared input that is an initializer
records the location its consuming site wants. -/
def gatherWeightPair (env : PlanEnv) (node : Node)
    (locs : List (List MemInfo)) (p : Nat × NodeArg) :
    Except String (List (List MemInfo)) := do
  if p.2.argExists then
    if env.initializers.any (fun w => w.id == p.2.id) then
      let loc ← GetLocationForNodeInput env p.1 node
      pure (pushLocation locs p.2.id loc)
    else pure locs
  else pure locs

/-- The per-node part of the gathering loop. -/
def gatherWeightNode (env : PlanEnv) (locations : List (List MemInfo))
    (node : Node) : Except String (List (List MemInfo)) :=
  node.inputDefs.enum.foldlM (gatherWeightPair env node) locations

/-- The gathering loop of GeneratePlanForWeights. -/
def gatherWeightLocations (env : PlanEnv) (st : PlannerState) :
    Except String (List (List MemInfo)) :=
  env.nodesInTopologicalOrder.foldlM (gatherWeightNode env)
    (List.replicate st.allocationPlan.length ([] : List MemInfo))

/-- One iteration of the finalize loop of GeneratePlanForWeights. -/
def applyWeightStep (env : PlanEnv) (locations : List (List MemInfo))
    (s : PlannerState) (i : Nat) : PlannerState :=
  match locations.getD i [] with
  | [] => s
  | l0 :: _ =>
    setPlan s i { getPlan s i with
      allocKind := AllocKind.kAllocateStatically,
      location :=
        if (locations.getD i []).any (fun l => !(l == l0)) then
          env.defaultCpuMemoryInfo
        else l0 }

/-- The finalize loop of GeneratePlanForWeights: every initializer with at
least one recorded site becomes allocate-statically, placed at the first
site's location when all sites agree and on the default CPU device when
any site disagrees. -/
def applyWeightLocations (env : PlanEnv) (st : PlannerState)
    (locations : List (List MemInfo)) : PlannerState :=
  (List.range locations.length).foldl (applyWeightStep env locations) st

/-- PlannerImpl::GeneratePlanForWeights. -/
def GeneratePlanForWeights (env : PlanEnv) (st : PlannerState) :
    Except String PlannerState := do
  let locations ← gatherWeightLocations env st
  pure (applyWeightLocations env st locations)

/-- The `setup_preexisting` lambda of ComputeReusePlan. -/
def setupPreexisting (st : PlannerState) (nodeArg : NodeArg) : PlannerState :=
  setPlan st nodeArg.id { getPlan st nodeArg.id with
    allocKind := AllocKind.kPreExisting, valueType := some nodeArg.ty }

/-- The per-output body of ComputeReusePlan: record the value type, then
pick the allocation by the source's branch order — graph output (with the
Identity-under-Loop pass-through of a pre-existing input), non-tensor,
reusable input (alias/in-place), freelist reuse in sequential mode only,
and fresh allocation otherwise. -/
def planNodeOutput (env : PlanEnv) (node : Node) (outputArgNum : Nat)
    (nodeOutput : NodeArg) (st : PlannerState) : PlannerState :=
  let current := nodeOutput.id
  let st := setValueType st current nodeOutput.ty
  if env.graphOutputs.contains nodeOutput then
    let st := setAllocKind st current AllocKind.kAllocateOutput
    match env.parentNode with
    | some parent =>
      if node.opType == "Identity" && parent.opType == "Loop" then
        let inputIndex := (node.inputDefs.getD 0 default).id
        if (getPlan st inputIndex).allocKind == AllocKind.kPreExisting then
          ReuseValue st inputIndex current AllocKind.kShare
        else st
      else st
    | none => st
  else if IsNonTensor nodeOutput then
    setAllocKind st current AllocKind.kAllocate
  else
    match FindReusableInput env st node outputArgNum with
    | some reused => ReuseValue st reused current AllocKind.kReuse
    | none =>
      if !env.isParallel then
        match FindReusableTensor env st nodeOutput with
        | some (reused, newFreelist) =>
          ReuseValue { st with freelist := newFreelist } reused current AllocKind.kReuse
        | none => setAllocKind st current AllocKind.kAllocate
      else setAllocKind st current AllocKind.kAllocate

/-- The output loop of a ComputeReusePlan step: absent outputs are skipped
and do not advance `output_arg_num`. -/
def planNodeOutputsAux (env : PlanEnv) (node : Node) :
    List NodeArg → Nat → PlannerState → PlannerState
  | [], _, st => st
  | o :: rest, argNum, st =>
    if o.argExists then
      planNodeOutputsAux env node rest (argNum + 1) (planNodeOutput env node argNum o st)
    else planNodeOutputsAux env node rest argNum st

/-- The release check of ComputeReusePlan: decrement the use count of the
argument's root buffer; on reaching zero, push the root onto the freelist
front with the current step as its deallocation point. -/
def decrementUse (st : PlannerState) (programCounter : Nat) (arg : NodeArg) :
    PlannerState :=
  if arg.argExists then
    let original := Buffer st arg.id
    let newCount := UseCount st original - 1
    let st := setUseCount st original newCount
    if newCount == 0 then
      { st with freelist := ⟨original, programCounter⟩ :: st.freelist }
    else st
  else st

/-- One step of ComputeReusePlan's main loop: plan the node's outputs in
declaration order, then release the node's inputs, implicit inputs and
outputs whose use counts drop to zero. -/
def planStep (env : PlanEnv) (programCounter : Nat) (node : Node)
    (st : PlannerState) : PlannerState :=
  let st := planNodeOutputsAux env node node.outputDefs 0 st
  let st := node.inputDefs.foldl (fun s a => decrementUse s programCounter a) st
  let st := node.implicitInputDefs.foldl (fun s a => decrementUse s programCounter a) st
  node.outputDefs.foldl (fun s a => decrementUse s programCounter a) st

/-- The main loop of ComputeReusePlan over the execution plan. -/
def computeReusePlanSteps (env : PlanEnv) :
    List NodeExecutionPlan → Nat → PlannerState → PlannerState
  | [], _, st => st
  | step :: rest, pc, st =>
    computeReusePlanSteps env rest (pc + 1)
      (planStep env pc (getNodeD env step.nodeIndex) st)

/-- PlannerImpl::ComputeReusePlan: pre-existing setup for graph inputs and
outer-scope args, weight planning, then the per-step reuse loop. -/
def ComputeReusePlan (env : PlanEnv) (st : PlannerState) :
    Except String PlannerState := do
  let st := env.graphInputs.foldl setupPreexisting st
  let st := env.outerScopeNodeArgs.foldl setupPreexisting st
  let st ← GeneratePlanForWeights env st
  pure (computeReusePlanSteps env st.executionPlan 0 st)

/-- PlannerImpl::HasFence: an argument has a fence when its plan carries
`create_fence_if_async`, or it reuses a buffer whose plan carries it. -/
def HasFence (st : PlannerState) (arg : NodeArg) : Bool :=
  if arg.argExists then
    let valuePlan := getPlan st arg.id
    let hasFence := valuePlan.createFenceIfAsync
    if valuePlan.allocKind == AllocKind.kReuse then
      hasFence || (getPlan st valuePlan.reusedBuffer).createFenceIfAsync
    else hasFence
  else false

/-- Per-step body of ComputeFenceCheck. -/
def computeFenceCheckNode (env : PlanEnv) (st : PlannerState)
    (step : NodeExecutionPlan) : Except String PlannerState := do
  match getNode? env step.nodeIndex with
  | none => throw "Can not find the node"
  | some pnode =>
    let hasFence := pnode.inputDefs.foldl (fun b a => b || HasFence st a) false
    let hasFence := pnode.implicitInputDefs.foldl (fun b a => b || HasFence st a) hasFence
    let hasFence := pnode.outputDefs.foldl (fun b a => b || HasFence st a) hasFence
    pure { st with nodeHasFence := st.nodeHasFence.set step.nodeIndex hasFence }

/-- PlannerImpl::ComputeFenceCheck. -/
def ComputeFenceCheck (env : PlanEnv) (st : PlannerState) :
    Except String PlannerState :=
  st.executionPlan.foldlM (computeFenceCheckNode env) st

/-- Write of `execution_plan[idx].free_from_index`. -/
def setFreeFrom (st : PlannerState) (idx : Nat) (v : Int) : PlannerState :=
  let entry := st.executionPlan.getD idx default
  { st with executionPlan := st.executionPlan.set idx { entry with freeFromIndex := v } }

/-- Write of `execution_plan[idx].free_to_index`. -/
def setFreeTo (st : PlannerState) (idx : Nat) (v : Int) : PlannerState :=
  let entry := st.executionPlan.getD idx default
  { st with executionPlan := st.executionPlan.set idx { entry with freeToIndex := v } }

/-- Loop body of GenerateDeallocationPlan; the accumulator carries
`has_prev_dealloc_point`, `prev_dealloc_point`, `current` and the state. -/
def gdpStep (acc : Bool × Nat × Int × PlannerState) (e : FreeBufferInfo) :
    Bool × Nat × Int × PlannerState :=
  let hasPrev := acc.1
  let prevPoint := acc.2.1
  let current := acc.2.2.1
  let st := acc.2.2.2
  let st := { st with toBeFreed := st.toBeFreed ++ [e.mlValue] }
  if e.deallocatePoint != prevPoint then
    let st := if hasPrev then setFreeTo st prevPoint (current - 1) else st
    let st := setFreeFrom st e.deallocatePoint current
    (true, e.deallocatePoint, current + 1, st)
  else (hasPrev, prevPoint, current + 1, st)

/-- PlannerImpl::GenerateDeallocationPlan: copy the freelist in reverse
order into `to_be_freed`, opening and closing per-step free ranges when
the deallocation point changes. -/
def GenerateDeallocationPlan (st : PlannerState) : PlannerState :=
  let res := st.freelist.reverse.foldl gdpStep (false, 0, (0 : Int), st)
  if res.1 then setFreeTo res.2.2.2 res.2.1 (res.2.2.1 - 1) else res.2.2.2

/-- PlannerImpl::Initialize: size the per-value tables and the
node-has-fence table. -/
def initializeState (env : PlanEnv) : PlannerState :=
  { ortValueInfo := List.replicate env.numValues default,
    allocationPlan := List.replicate env.numValues default,
    freelist := [],
    executionPlan := [],
    toBeFreed := [],
    nodeHasFence := List.replicate env.maxNodeIndex false }

/-- PlannerImpl::CreatePlan: initialize, build the execution order from the
topological sort, then the four passes. -/
def CreatePlan (env : PlanEnv) : Except String PlannerState := do
  let st := initializeState env
  let st := { st with executionPlan :=
      env.nodesInTopologicalOrder.map (fun n => { nodeIndex := n.nodeIndex }) }
  let st ← ComputeUseCounts env st
  let st ← ComputeReusePlan env st
  let st ← ComputeFenceCheck env st
  pure (GenerateDeallocationPlan st)

/-- The `root_of` traversal of the spec: follow `reused_buffer_index` to a
fixed point (fuelled by the table size, which bounds any chain). -/
def rootOfAux (st : PlannerState) : Nat → OrtValueIndex → OrtValueIndex
  | 0, v => v
  | fuel + 1, v =>
    let b := Buffer st v
    if b == v then v else rootOfAux st fuel b

/-- The root of a value's reuse chain. -/
def rootOf (st : PlannerState) (v : OrtValueIndex) : OrtValueIndex :=
  rootOfAux st st.ortValueInfo.length v

/-!
The parallel executor (`parallel_executor.cc`).  The mutex-protected
sections of `EnqueueNode` / `FinishNodeRun` are modelled as atomic
transitions on an explicit executor state; `scheduled` records the tasks
handed to the thread pool, in order.
-/

/-- Shared executor state: `out_standings_`, `errors_`, and the tasks given
to `executor_pool_->Schedule`. -/
structure ExecutorState where
  outStandings : Int
  errors : List String
  scheduled : List Nat
deriving DecidableEq, Repr

/-- The initial executor state of a run. -/
def initialExecutorState : ExecutorState := ⟨0, [], []⟩

/-- ParallelExecutor::EnqueueNode: under the completion lock, return
without doing anything when an error has been recorded; otherwise bump the
outstanding count and schedule the task. -/
def EnqueueNode (st : ExecutorState) (pNodeIndex : Nat) : ExecutorState :=
  if st.errors.isEmpty then
    { st with outStandings := st.outStandings + 1,
              scheduled := st.scheduled ++ [pNodeIndex] }
  else st

/-- The root-node loop at the start of ParallelExecutor::Execute: every
root node is looked up in the session state and silently skipped when no
kernel is bound (`if (!p_op_kernel) continue`), otherwise enqueued. -/
def enqueueRootNodes (hasKernel : Nat → Bool) (rootNodes : List Nat)
    (st : ExecutorState) : ExecutorState :=
  rootNodes.foldl (fun s idx => if hasKernel idx then EnqueueNode s idx else s) st

/-- Modelled from the spec: ParallelExecutor::FinishNodeRun (declared in
the missing header) decrements the outstanding count under the completion
lock and appends a failure status to the error list. -/
def FinishNodeRun (st : ExecutorState) (ok : Bool) (msg : String) : ExecutorState :=
  { st with outStandings := st.outStandings - 1,
            errors := if ok then st.errors else st.errors ++ [msg] }

/-- The executor's result status. -/
inductive ExecStatus where
  | ok
  | fail (msg : String)
deriving DecidableEq, Repr

/-- The stringstream accumulation of ParallelExecutor::Execute's
multiple-error branch: start from the header line and append each recorded
status on its own line. -/
def multipleErrorsMessage (errors : List String) : String :=
  errors.foldl (fun ss s => ss ++ "\n" ++ s) "Multiple errors were found."

/-- The error-aggregation epilogue of ParallelExecutor::Execute: success
when no error was recorded, the recorded error itself when exactly one
was, and a single concatenated failure otherwise. -/
def aggregateErrors (errors : List String) : ExecStatus :=
  if errors.isEmpty then ExecStatus.ok
  else if errors.length == 1 then ExecStatus.fail (errors.headD "")
  else ExecStatus.fail (multipleErrorsMessage errors)

/-!
Concrete test environments, used to separate the claims from their
negations and to witness the general theorems.
-/

/-- A present tensor argument with element size 4. -/
def tArg (id : Nat) : NodeArg := ⟨true, id, ⟨true, 4⟩⟩

/-- The concrete shape `float32[4]`-style: one known dimension. -/
def shape4 : TensorShapeProto := [⟨some 4, none⟩]

/-- A kernel with no alias/in-place pairs on the default queue. -/
def plainKernel : KernelDef := default

/-- A kernel that may run output 0 in place of input 0. -/
def inplace00Kernel : KernelDef :=
  { plainKernel with mayInplace := [(0, 0)] }

/-- A kernel that forces output 0 to alias input 0 (reshape-style). -/
def alias00Kernel : KernelDef :=
  { plainKernel with aliasMap := [(0, 0)] }

/-- Subgraph of a `Loop` whose only node is an `Identity` from the
outer-scope value 0 to the graph output 1 (spec scenario 4). -/
def envLoop : PlanEnv :=
  { numValues := 2,
    graphInputs := [],
    graphInputsIncludingInitializers := [],
    outerScopeNodeArgs := [tArg 0],
    initializers := [],
    graphOutputs := [tArg 1],
    nodesInTopologicalOrder := [⟨0, "Identity", [tArg 0], [], [tArg 1]⟩],
    maxNodeIndex := 1,
    searchKernel := fun _ => some plainKernel,
    getShape := fun a => if a.argExists then some shape4 else none,
    allocInfo := fun _ _ => 0,
    defaultCpuMemoryInfo := 0,
    isParallel := false,
    parentNode := some ⟨9, "Loop", [], [], []⟩ }

/-- Single node `Relu(x) → y` where `y` is dead (no consumer, not a graph
output): `y` is released at step 0. -/
def envDead : PlanEnv :=
  { numValues := 2,
    graphInputs := [tArg 0],
    graphInputsIncludingInitializers := [tArg 0],
    outerScopeNodeArgs := [],
    initializers := [],
    graphOutputs := [],
    nodesInTopologicalOrder := [⟨0, "Relu", [tArg 0], [], [tArg 1]⟩],
    maxNodeIndex := 1,
    searchKernel := fun _ => some plainKernel,
    getShape := fun a => if a.argExists then some shape4 else none,
    allocInfo := fun _ _ => 0,
    defaultCpuMemoryInfo := 0,
    isParallel := false,
    parentNode := none }

/-- Four-node chain `x →B b →C c →D d →E e` with `e` the graph output;
`C` and `D` may run in place, and `D` runs on execution queue 1.  The
in-place chain makes `d` reuse the root `b`, while the fence flags land
on `c` and `d` (the async node's own arguments) and not on `b`. -/
def envFence : PlanEnv :=
  { numValues := 5,
    graphInputs := [tArg 0],
    graphInputsIncludingInitializers := [tArg 0],
    outerScopeNodeArgs := [],
    initializers := [],
    graphOutputs := [tArg 4],
    nodesInTopologicalOrder :=
      [⟨0, "B", [tArg 0], [], [tArg 1]⟩,
       ⟨1, "C", [tArg 1], [], [tArg 2]⟩,
       ⟨2, "D", [tArg 2], [], [tArg 3]⟩,
       ⟨3, "E", [tArg 3], [], [tArg 4]⟩],
    maxNodeIndex := 4,
    searchKernel := fun n =>
      if n.nodeIndex == 1 then some inplace00Kernel
      else if n.nodeIndex == 2 then
        some { inplace00Kernel with execQueueId := 1 }
      else some plainKernel,
    getShape := fun a => if a.argExists then some shape4 else none,
    allocInfo := fun _ _ => 0,
    defaultCpuMemoryInfo := 0,
    isParallel := false,
    parentNode := none }

/-- Single `Reshape(x) → y` whose kernel forces `y` to alias `x`, with the
kernel keeping its input on a different device (location 7) than its
output (location 3). -/
def envAlias : PlanEnv :=
  { numValues := 2,
    graphInputs := [tArg 0],
    graphInputsIncludingInitializers := [tArg 0],
    outerScopeNodeArgs := [],
    initializers := [],
    graphOutputs := [],
    nodesInTopologicalOrder := [⟨0, "Reshape", [tArg 0], [], [tArg 1]⟩],
    maxNodeIndex := 1,
    searchKernel := fun _ =>
      some { alias00Kernel with inputMemType := fun _ => -2 },
    getShape := fun a => if a.argExists then some shape4 else none,
    allocInfo := fun _ t => if t == (-2 : Int) then 7 else 3,
    defaultCpuMemoryInfo := 0,
    isParallel := false,
    parentNode := none }

/-- An initializer (value 0) consumed only as an implicit input of the one
node; value 1 is the graph output. -/
def envWeight : PlanEnv :=
  { numValues := 2,
    graphInputs := [],
    graphInputsIncludingInitializers := [tArg 0],
    outerScopeNodeArgs := [],
    initializers := [tArg 0],
    graphOutputs := [tArg 1],
    nodesInTopologicalOrder := [⟨0, "Foo", [], [tArg 0], [tArg 1]⟩],
    maxNodeIndex := 1,
    searchKernel := fun _ => some plainKernel,
    getShape := fun a => if a.argExists then some shape4 else none,
    allocInfo := fun _ _ => 0,
    defaultCpuMemoryInfo := 0,
    isParallel := false,
    parentNode := none }

/-- Two-node chain `x →A a →B b` with `b` the graph output; `a` is
released after step 1. -/
def envChain : PlanEnv :=
  { numValues := 3,
    graphInputs := [tArg 0],
    graphInputsIncludingInitializers := [tArg 0],
    outerScopeNodeArgs := [],
    initializers := [],
    graphOutputs := [tArg 2],
    nodesInTopologicalOrder :=
      [⟨0, "A", [tArg 0], [], [tArg 1]⟩,
       ⟨1, "B", [tArg 1], [], [tArg 2]⟩],
    maxNodeIndex := 2,
    searchKernel := fun _ => some plainKernel,
    getShape := fun a => if a.argExists then some shape4 else none,
    allocInfo := fun _ _ => 0,
    defaultCpuMemoryInfo := 0,
    isParallel := false,
    parentNode := none }

/-- The planner's result state, defaulting to the initial state on a
planning error (used only to state facts about successful runs, always
together with a success fact). -/
def planOf (env : PlanEnv) : PlannerState :=
  (CreatePlan env).toOption.getD (initializeState env)

/-- Whether planning succeeded. -/
def planOk (env : PlanEnv) : Bool :=
  match CreatePlan env with
  | Except.ok _ => true
  | Except.error _ => false

/-! Basic list-access lemmas for the state tables. -/

theorem getD_set_self {α : Type} (l : List α) (i : Nat) (a d : α) (h : i < l.length) :
    (l.set i a).getD i d = a := by
  induction l generalizing i with
  | nil => simp at h
  | cons x xs ih =>
    cases i with
    | zero => rfl
    | succ j => exact ih j (by simpa using h)

theorem getD_set_ne {α : Type} (l : List α) (i j : Nat) (a d : α) (h : i ≠ j) :
    (l.set i a).getD j d = l.getD j d := by
  induction l generalizing i j with
  | nil => rfl
  | cons x xs ih =>
    cases i with
    | zero => cases j with
      | zero => exact absurd rfl h
      | succ k => rfl
    | succ i' => cases j with
      | zero => rfl
      | succ k => exact ih i' k (fun hh => h (by rw [hh]))

theorem getD_set_oob {α : Type} (l : List α) (i j : Nat) (a d : α)
    (h : l.length ≤ i) : (l.set i a).getD j d = l.getD j d := by
  rw [List.set_eq_of_length_le h]

/-! Frame lemmas: each state operation touches exactly one table. -/

theorem getInfo_setPlan (st : PlannerState) (n : OrtValueIndex)
    (p : AllocPlanPerValue) (m : OrtValueIndex) :
    getInfo (setPlan st n p) m = getInfo st m := rfl

theorem Buffer_setPlan (st : PlannerState) (n : OrtValueIndex)
    (p : AllocPlanPerValue) (m : OrtValueIndex) :
    Buffer (setPlan st n p) m = Buffer st m := rfl

theorem UseCount_setPlan (st : PlannerState) (n : OrtValueIndex)
    (p : AllocPlanPerValue) (m : OrtValueIndex) :
    UseCount (setPlan st n p) m = UseCount st m := rfl

theorem freelist_setPlan (st : PlannerState) (n : OrtValueIndex)
    (p : AllocPlanPerValue) : (setPlan st n p).freelist = st.freelist := rfl

theorem getPlan_setInfo (st : PlannerState) (n : OrtValueIndex)
    (i : OrtValueInfo) (m : OrtValueIndex) :
    getPlan (setInfo st n i) m = getPlan st m := rfl

theorem freelist_setInfo (st : PlannerState) (n : OrtValueIndex)
    (i : OrtValueInfo) : (setInfo st n i).freelist = st.freelist := rfl

theorem getInfo_setInfo_self (st : PlannerState) (n : OrtValueIndex)
    (i : OrtValueInfo) (h : n < st.ortValueInfo.length) :
    getInfo (setInfo st n i) n = i := by
  simp only [getInfo, setInfo]
  exact getD_set_self _ _ _ _ h

theorem getInfo_setInfo_ne (st : PlannerState) (n : OrtValueIndex)
    (i : OrtValueInfo) (m : OrtValueIndex) (h : n ≠ m) :
    getInfo (setInfo st n i) m = getInfo st m := by
  simp only [getInfo, setInfo]
  exact getD_set_ne _ _ _ _ _ h

theorem getPlan_setPlan_self (st : PlannerState) (n : OrtValueIndex)
    (p : AllocPlanPerValue) (h : n < st.allocationPlan.length) :
    getPlan (setPlan st n p) n = p := by
  simp only [getPlan, setPlan]
  exact getD_set_self _ _ _ _ h

theorem getPlan_setPlan_ne (st : PlannerState) (n : OrtValueIndex)
    (p : AllocPlanPerValue) (m : OrtValueIndex) (h : n ≠ m) :
    getPlan (setPlan st n p) m = getPlan st m := by
  simp only [getPlan, setPlan]
  exact getD_set_ne _ _ _ _ _ h

theorem ortValueInfo_length_setInfo (st : PlannerState) (n : OrtValueIndex)
    (i : OrtValueInfo) : (setInfo st n i).ortValueInfo.length = st.ortValueInfo.length := by
  simp [setInfo]

theorem allocationPlan_length_setPlan (st : PlannerState) (n : OrtValueIndex)
    (p : AllocPlanPerValue) :
    (setPlan st n p).allocationPlan.length = st.allocationPlan.length := by
  simp [setPlan]

theorem getPlan_oob (st : PlannerState) (n : OrtValueIndex)
    (h : st.allocationPlan.length ≤ n) : getPlan st n = default := by
  simp only [getPlan]
  rw [List.getD_eq_getElem?_getD, List.getElem?_eq_none (by simpa using h)]
  rfl

theorem getInfo_oob (st : PlannerState) (n : OrtValueIndex)
    (h : st.ortValueInfo.length ≤ n) : getInfo st n = default := by
  simp only [getInfo]
  rw [List.getD_eq_getElem?_getD, List.getElem?_eq_none (by simpa using h)]
  rfl

/-- C3: on the graph with a single node whose output `1` is dead, the
value is released at step 0 and emitted into `to_be_freed`, yet step 0's
free range stays empty (`free_from = 1 > 0 = free_to`): the loop's
sentinel `prev_dealloc_point = 0` swallows the step-0 group, so the
released value lies outside every step's slice, contrary to the claimed
per-step contiguous-slice property. -/
theorem claimC3_step0_release_not_in_any_range :
    planOk envDead = true ∧
    (planOf envDead).toBeFreed = [1] ∧
    (planOf envDead).freelist = [⟨1, 0⟩] ∧
    (planOf envDead).executionPlan = [⟨0, 1, 0⟩] := by decide

/-- C1 counterexample: in a Loop subgraph, the Identity node's declared
graph output `1` with a pre-existing sole input receives `Share`, not the
`GraphOutput` kind that rule (1) of the claim, as stated, dictates for
every declared graph output. -/
theorem claimC1_counterexample_loop_identity_share :
    planOk envLoop = true ∧
    tArg 1 ∈ envLoop.graphOutputs ∧
    (getPlan (planOf envLoop) 1).allocKind = AllocKind.kShare ∧
    AllocKind.kShare ≠ AllocKind.kAllocateOutput := by decide

/-- C2 counterexample: a forced alias (reshape-style kernel) reuses input
`0` for output `1` although the planner recorded different locations for
the two values, refuting the claimed placement equality for `Reuse`. -/
theorem claimC2_counterexample_alias_placement :
    planOk envAlias = true ∧
    (getPlan (planOf envAlias) 1).allocKind = AllocKind.kReuse ∧
    (getPlan (planOf envAlias) 1).reusedBuffer = 0 ∧
    (getPlan (planOf envAlias) 1).location ≠ (getPlan (planOf envAlias) 0).location := by
  decide

/-- C4 counterexample: in the in-place chain with an async middle node,
step 3's fence bit is set (its input `3` carries `create_fence_if_async`),
yet no argument of step 3 has the flag on its reuse root — so the claim's
parenthetical root-based reformulation does not agree with the code. -/
theorem claimC4_counterexample_root_fence :
    planOk envFence = true ∧
    (planOf envFence).nodeHasFence.getD 3 false = true ∧
    ((getNodeD envFence 3).inputDefs ++ (getNodeD envFence 3).implicitInputDefs ++
        (getNodeD envFence 3).outputDefs).all
      (fun w => !(getPlan (planOf envFence) (rootOf (planOf envFence) w.id)).createFenceIfAsync)
      = true := by decide

/-- C6 counterexample: an initializer consumed only as an implicit input
of a node is left with the default allocate-fresh kind — the weight pass
gathers sites from declared inputs only, so the claim's "every node-site"
and unconditional "marks the initializer Static" fail. -/
theorem claimC6_counterexample_implicit_initializer :
    planOk envWeight = true ∧
    tArg 0 ∈ envWeight.initializers ∧
    (0 : Nat) ∈ (getNodeD envWeight 0).implicitInputDefs.map NodeArg.id ∧
    (getPlan (planOf envWeight) 0).allocKind = AllocKind.kAllocate ∧
    AllocKind.kAllocate ≠ AllocKind.kAllocateStatically := by decide

/-- C9 counterexample: a root node for which the session has no kernel is
silently skipped by Execute's root loop — it is neither scheduled nor is
any error recorded, refuting "every root node is enqueued ... or its
absence is reported as an error". -/
theorem claimC9_counterexample_kernelless_root :
    (enqueueRootNodes (fun _ => false) [0] initialExecutorState).scheduled = [] ∧
    (enqueueRootNodes (fun _ => false) [0] initialExecutorState).errors = [] ∧
    (enqueueRootNodes (fun _ => false) [0] initialExecutorState).outStandings = 0 := by
  decide

/-! Executor lemmas and claims C8/C9. -/

theorem String_join_cons (s : String) (l : List String) :
    String.join (s :: l) = s ++ String.join l := by
  apply String.ext
  simp [String.join_eq, String.data_append]

theorem multipleErrorsMessage_foldl (l : List String) (a : String) :
    l.foldl (fun ss s => ss ++ "\n" ++ s) a =
      a ++ String.join (l.map (fun s => "\n" ++ s)) := by
  induction l generalizing a with
  | nil => simp [String.join]
  | cons x xs ih =>
    rw [List.foldl_cons, ih, List.map_cons, String_join_cons,
      String.append_assoc, String.append_assoc, String.append_assoc]

/-- C8: once the error list is non-empty, `EnqueueNode` leaves the executor
state untouched (no outstanding increment, nothing scheduled); the final
aggregation returns the single recorded error when exactly one chain
failed, and one failure message listing every recorded error (each on its
own line after the header) when more than one failed. -/
theorem claimC8_error_draining_and_aggregation :
    (∀ (st : ExecutorState) (i : Nat), st.errors ≠ [] → EnqueueNode st i = st) ∧
    (∀ e : String, aggregateErrors [e] = ExecStatus.fail e) ∧
    (∀ (e1 e2 : String) (rest : List String),
      aggregateErrors (e1 :: e2 :: rest) =
        ExecStatus.fail ("Multiple errors were found." ++
          String.join ((e1 :: e2 :: rest).map (fun s => "\n" ++ s)))) := by
  refine ⟨?_, ?_, ?_⟩
  · intro st i h
    have : st.errors.isEmpty = false := by
      cases hst : st.errors with
      | nil => exact absurd hst h
      | cons a l => rfl
    simp [EnqueueNode, this]
  · intro e; rfl
  · intro e1 e2 rest
    have hlen : ((e1 :: e2 :: rest).length == 1) = false := by
      simp [List.length_cons]
    simp only [aggregateErrors, List.isEmpty_cons, hlen, Bool.false_eq_true,
      if_false, multipleErrorsMessage]
    rw [List.foldl_cons, List.foldl_cons, multipleErrorsMessage_foldl]
    rw [List.map_cons, List.map_cons, String_join_cons, String_join_cons]
    simp only [String.append_assoc]

/-- Witness for C8 at concrete states. -/
theorem claimC8_witness :
    EnqueueNode ⟨2, ["boom"], [7]⟩ 5 = ⟨2, ["boom"], [7]⟩ ∧
    aggregateErrors ["e"] = ExecStatus.fail "e" ∧
    aggregateErrors ["a", "b"] =
      ExecStatus.fail ("Multiple errors were found." ++
        String.join (["a", "b"].map (fun s => "\n" ++ s))) :=
  ⟨claimC8_error_draining_and_aggregation.1 ⟨2, ["boom"], [7]⟩ 5 (by decide),
   claimC8_error_draining_and_aggregation.2.1 "e",
   claimC8_error_draining_and_aggregation.2.2 "a" "b" []⟩

theorem errors_EnqueueNode (st : ExecutorState) (i : Nat) :
    (EnqueueNode st i).errors = st.errors := by
  unfold EnqueueNode
  split <;> rfl

theorem scheduled_mono_enqueueRootNodes (hasKernel : Nat → Bool)
    (roots : List Nat) (st : ExecutorState) (x : Nat)
    (h : x ∈ st.scheduled) :
    x ∈ (enqueueRootNodes hasKernel roots st).scheduled := by
  induction roots generalizing st with
  | nil => exact h
  | cons r rs ih =>
    show x ∈ (enqueueRootNodes hasKernel rs
      (if hasKernel r then EnqueueNode st r else st)).scheduled
    apply ih
    by_cases hk : hasKernel r = true
    · rw [if_pos hk]
      unfold EnqueueNode
      split
      · exact List.mem_append_left _ h
      · exact h
    · rw [if_neg hk]; exact h

/-- C9 amended: when no error has been recorded, every root node for which
the session state has a kernel is scheduled by Execute's root loop (roots
without a kernel are silently skipped, see the counterexample). -/
theorem claimC9_amended_roots_with_kernel_enqueued
    (hasKernel : Nat → Bool) (roots : List Nat) (st : ExecutorState)
    (he : st.errors = []) (i : Nat) (hi : i ∈ roots) (hk : hasKernel i = true) :
    i ∈ (enqueueRootNodes hasKernel roots st).scheduled := by
  induction roots generalizing st with
  | nil => cases hi
  | cons r rs ih =>
    show i ∈ (enqueueRootNodes hasKernel rs
      (if hasKernel r then EnqueueNode st r else st)).scheduled
    rcases List.mem_cons.mp hi with h | h
    · subst h
      rw [if_pos hk]
      apply scheduled_mono_enqueueRootNodes
      unfold EnqueueNode
      rw [he]
      exact List.mem_append_right _ (List.mem_singleton.mpr rfl)
    · have he' : (if hasKernel r then EnqueueNode st r else st).errors = [] := by
        by_cases hk' : hasKernel r = true
        · rw [if_pos hk', errors_EnqueueNode]; exact he
        · rw [if_neg hk']; exact he
      exact ih _ he' h

/-- Witness for the amended C9 at a concrete root list. -/
theorem claimC9_amended_witness :
    initialExecutorState.errors = [] ∧
    5 ∈ (enqueueRootNodes (fun _ => true) [5] initialExecutorState).scheduled :=
  ⟨rfl, claimC9_amended_roots_with_kernel_enqueued (fun _ => true) [5]
    initialExecutorState rfl 5 (by decide) rfl⟩

/-! Characterization of the freelist scan, and the conservative SameSize. -/

/-- The spec's rule-5 match predicate on a freelist entry: the defining
value's recorded location equals the required one and its known shape has
the same element-size-weighted shape as required. -/
def freelistMatch (env : PlanEnv) (st : PlannerState) (requiredShape : TensorShapeProto)
    (requiredType : DataTypeInfo) (requiredMemoryInfo : MemInfo)
    (e : FreeBufferInfo) : Bool :=
  let d := (getInfo st e.mlValue).pDefSite.getD default
  ((getPlan st d.id).location == requiredMemoryInfo) &&
    (match env.getShape d with
     | some s => SameSizeShapes s d.ty requiredShape requiredType
     | none => false)

theorem findReusableTensorScan_eq (env : PlanEnv) (st : PlannerState)
    (reqS : TensorShapeProto) (reqT : DataTypeInfo) (reqM : MemInfo)
    (l : List FreeBufferInfo) :
    findReusableTensorScan env st reqS reqT reqM l =
      match l.find? (freelistMatch env st reqS reqT reqM) with
      | some e => some (e.mlValue, l.eraseP (freelistMatch env st reqS reqT reqM))
      | none => none := by
  induction l with
  | nil => rfl
  | cons e rest ih =>
    by_cases hm : ((getPlan st ((getInfo st e.mlValue).pDefSite.getD default).id).location
        == reqM) = true
    · cases hs : env.getShape ((getInfo st e.mlValue).pDefSite.getD default) with
      | some s =>
        by_cases hss : SameSizeShapes s ((getInfo st e.mlValue).pDefSite.getD default).ty
            reqS reqT = true
        · have hp : freelistMatch env st reqS reqT reqM e = true := by
            simp [freelistMatch, hm, hs, hss]
          simp [findReusableTensorScan, hm, hs, hss, List.find?_cons, hp,
            List.eraseP_cons]
        · have hss' : SameSizeShapes s ((getInfo st e.mlValue).pDefSite.getD default).ty
              reqS reqT = false := Bool.eq_false_iff.mpr hss
          have hp : freelistMatch env st reqS reqT reqM e = false := by
            simp [freelistMatch, hs, hss']
          simp [findReusableTensorScan, hm, hs, hss, List.find?_cons, hp,
            List.eraseP_cons, ih]
          cases hfind : rest.find? (freelistMatch env st reqS reqT reqM) <;> simp
      | none =>
        have hp : freelistMatch env st reqS reqT reqM e = false := by
          simp [freelistMatch, hs]
        simp [findReusableTensorScan, hm, hs, List.find?_cons, hp,
          List.eraseP_cons, ih]
        cases hfind : rest.find? (freelistMatch env st reqS reqT reqM) <;> simp
    · have hm' : ((getPlan st ((getInfo st e.mlValue).pDefSite.getD default).id).location
          == reqM) = false := Bool.eq_false_iff.mpr hm
      have hp : freelistMatch env st reqS reqT reqM e = false := by
        simp [freelistMatch, hm']
      simp [findReusableTensorScan, hm, List.find?_cons, hp,
        List.eraseP_cons, ih]
      cases hfind : rest.find? (freelistMatch env st reqS reqT reqM) <;> simp

theorem FindReusableTensor_eq (env : PlanEnv) (st : PlannerState) (out : NodeArg) :
    FindReusableTensor env st out =
      match env.getShape out with
      | none => none
      | some reqS =>
        match st.freelist.find?
            (freelistMatch env st reqS out.ty ((getPlan st out.id).location)) with
        | some e => some (e.mlValue,
            st.freelist.eraseP
              (freelistMatch env st reqS out.ty ((getPlan st out.id).location)))
        | none => none := by
  cases hs : env.getShape out with
  | none => simp [FindReusableTensor, hs]
  | some reqS => simp [FindReusableTensor, hs, findReusableTensorScan_eq]

theorem SameSizeArg_true_elim (env : PlanEnv) (a1 a2 : NodeArg)
    (h : SameSizeArg env a1 a2 = true) :
    a1.argExists = true ∧ a2.argExists = true ∧
    (env.getShape a1).isSome = true ∧ (env.getShape a2).isSome = true := by
  unfold SameSizeArg at h
  by_cases h1 : a1.argExists = true
  · by_cases h2 : a2.argExists = true
    · refine ⟨h1, h2, ?_, ?_⟩ <;>
      · rw [h1, h2] at h
        simp only [Bool.not_true, Bool.or_self, if_false] at h
        cases hs1 : env.getShape a1 <;> cases hs2 : env.getShape a2 <;>
          rw [hs1, hs2] at h <;> first | rfl | cases h
    · rw [Bool.not_eq_true] at h2
      rw [h2] at h
      simp at h
  · rw [Bool.not_eq_true] at h1
    rw [h1] at h
    simp at h

theorem getD_mem {α : Type} (l : List α) (n : Nat) (d : α) (h : n < l.length) :
    l.getD n d ∈ l := by
  rw [List.getD_eq_getElem?_getD, List.getElem?_eq_getElem h]
  exact List.getElem_mem h

/-- C10: SameSize is conservative — it returns false whenever either
argument is absent or either shape is unknown to the shape oracle — and as
a consequence the opportunistic in-place search only ever selects an
existing input whose shape (and the output's) the oracle knows, and the
freelist search only ever selects an entry whose defining value's shape
(and the output's) the oracle knows; when absent arguments have no shape
(the oracle's contract), the selected freelist entry's defining value also
exists. -/
theorem claimC10_same_size_conservative :
    (∀ (env : PlanEnv) (a1 a2 : NodeArg),
      (a1.argExists = false ∨ a2.argExists = false ∨
        env.getShape a1 = none ∨ env.getShape a2 = none) →
      SameSizeArg env a1 a2 = false) ∧
    (∀ (env : PlanEnv) (st : PlannerState) (kd : KernelDef) (inputs : List NodeArg)
        (out : NodeArg) (i : Nat) (u : OrtValueIndex),
      findInplaceInput env st kd inputs out i = some u →
      ∃ arg ∈ inputs, arg.id = u ∧ arg.argExists = true ∧
        SameSizeArg env arg out = true ∧
        (env.getShape arg).isSome = true ∧ (env.getShape out).isSome = true ∧
        out.argExists = true) ∧
    (∀ (env : PlanEnv) (st : PlannerState) (out : NodeArg) (u : OrtValueIndex)
        (fl : List FreeBufferInfo),
      FindReusableTensor env st out = some (u, fl) →
      (env.getShape out).isSome = true ∧
      ∃ e ∈ st.freelist, e.mlValue = u ∧
        (env.getShape ((getInfo st e.mlValue).pDefSite.getD default)).isSome = true ∧
        ((∀ a : NodeArg, a.argExists = false → env.getShape a = none) →
          ((getInfo st e.mlValue).pDefSite.getD default).argExists = true)) := by
  refine ⟨?_, ?_, ?_⟩
  · intro env a1 a2 h
    by_cases h1 : a1.argExists = false
    · simp [SameSizeArg, h1]
    · by_cases h2 : a2.argExists = false
      · simp [SameSizeArg, h2]
      · have h1' : a1.argExists = true := by
          cases hb : a1.argExists
          · exact absurd hb h1
          · rfl
        have h2' : a2.argExists = true := by
          cases hb : a2.argExists
          · exact absurd hb h2
          · rfl
        rcases h with h | h | h | h
        · exact absurd h h1
        · exact absurd h h2
        · simp [SameSizeArg, h1', h2', h]
        · cases hsa : env.getShape a1 <;> simp [SameSizeArg, h1', h2', h, hsa]
  · intro env st kd inputs out i u h
    obtain ⟨pair, hmem, hf⟩ := List.exists_of_findSome?_eq_some h
    by_cases h2 : (pair.2 == (i : Int)) = true
    · rw [if_pos h2] at hf
      by_cases hr : (decide (0 ≤ pair.1) && decide (pair.1.toNat < inputs.length)) = true
      · rw [if_pos hr] at hf
        by_cases he : (inputs.getD pair.1.toNat default).argExists = true
        · rw [if_pos he] at hf
          by_cases hc : (UseCount st (Buffer st (inputs.getD pair.1.toNat default).id) == 1 &&
              SameSizeArg env (inputs.getD pair.1.toNat default) out) = true
          · rw [if_pos hc] at hf
            have hu : (inputs.getD pair.1.toNat default).id = u := by
              injection hf
            have hc' := hc
            rw [Bool.and_eq_true] at hc'
            have hss : SameSizeArg env (inputs.getD pair.1.toNat default) out = true :=
              hc'.2
            obtain ⟨hae, hoe, hs1, hs2⟩ := SameSizeArg_true_elim env _ _ hss
            have hr' := hr
            rw [Bool.and_eq_true] at hr'
            have hlen : pair.1.toNat < inputs.length := of_decide_eq_true hr'.2
            exact ⟨inputs.getD pair.1.toNat default, getD_mem _ _ _ hlen,
              hu, hae, hss, hs1, hs2, hoe⟩
          · rw [if_neg hc] at hf
            cases hf
        · rw [if_neg he] at hf
          cases hf
      · rw [if_neg hr] at hf
        cases hf
    · rw [if_neg h2] at hf
      cases hf
  · intro env st out u fl h
    rw [FindReusableTensor_eq] at h
    cases hs : env.getShape out with
    | none =>
      rw [hs] at h
      cases h
    | some reqS =>
      rw [hs] at h
      have h' : (match st.freelist.find?
          (freelistMatch env st reqS out.ty ((getPlan st out.id).location)) with
        | some e => some (e.mlValue,
            st.freelist.eraseP
              (freelistMatch env st reqS out.ty ((getPlan st out.id).location)))
        | none => (none : Option (OrtValueIndex × List FreeBufferInfo))) =
          some (u, fl) := h
      refine ⟨rfl, ?_⟩
      cases hfind : st.freelist.find?
          (freelistMatch env st reqS out.ty ((getPlan st out.id).location)) with
      | none =>
        rw [hfind] at h'
        cases h'
      | some e =>
        rw [hfind] at h'
        have hu : e.mlValue = u := by
          injection h' with h''
          exact congrArg Prod.fst h''
        have hmem := List.mem_of_find?_eq_some hfind
        have hpred := List.find?_some hfind
        unfold freelistMatch at hpred
        have hshape :
            (env.getShape ((getInfo st e.mlValue).pDefSite.getD default)).isSome = true := by
          rw [Bool.and_eq_true] at hpred
          obtain ⟨_, hsm⟩ := hpred
          cases hds : env.getShape ((getInfo st e.mlValue).pDefSite.getD default) with
          | none =>
            rw [hds] at hsm
            cases hsm
          | some _ => rfl
        refine ⟨e, hmem, hu, hshape, ?_⟩
        intro horacle
        by_cases hde : ((getInfo st e.mlValue).pDefSite.getD default).argExists = true
        · exact hde
        · have := horacle _ (Bool.eq_false_iff.mpr hde)
          rw [this] at hshape
          cases hshape

/-- A state in which value 0 has use count 1 and its own buffer: the
in-place search over `[tArg 0]` can select it. -/
def stInplace : PlannerState :=
  { ortValueInfo := [⟨some (tArg 0), 1, 0⟩, ⟨some (tArg 1), 1, 1⟩],
    allocationPlan := [{}, {}],
    freelist := [],
    executionPlan := [],
    toBeFreed := [],
    nodeHasFence := [] }

/-- A state whose freelist holds value 0, reusable for `tArg 1`. -/
def stFree : PlannerState :=
  { ortValueInfo := [⟨some (tArg 0), 0, 0⟩, ⟨some (tArg 1), 1, 1⟩],
    allocationPlan := [{}, {}],
    freelist := [⟨0, 0⟩],
    executionPlan := [],
    toBeFreed := [],
    nodeHasFence := [] }

/-- Witness for C10 at concrete arguments: an absent argument compares
unequal; a concrete in-place hit and a concrete freelist hit each come
with existence and known shapes. -/
theorem claimC10_witness :
    SameSizeArg envLoop ⟨false, 0, ⟨true, 4⟩⟩ (tArg 1) = false ∧
    (∃ arg ∈ [tArg 0], arg.id = 0 ∧ arg.argExists = true ∧
      SameSizeArg envLoop arg (tArg 1) = true ∧
      (envLoop.getShape arg).isSome = true ∧
      (envLoop.getShape (tArg 1)).isSome = true ∧ (tArg 1).argExists = true) ∧
    ((envLoop.getShape (tArg 1)).isSome = true ∧
      ∃ e ∈ stFree.freelist, e.mlValue = 0 ∧
        (envLoop.getShape ((getInfo stFree e.mlValue).pDefSite.getD default)).isSome
          = true ∧
        ((∀ a : NodeArg, a.argExists = false → envLoop.getShape a = none) →
          ((getInfo stFree e.mlValue).pDefSite.getD default).argExists = true)) :=
  ⟨claimC10_same_size_conservative.1 envLoop ⟨false, 0, ⟨true, 4⟩⟩ (tArg 1)
      (Or.inl rfl),
   claimC10_same_size_conservative.2.1 envLoop stInplace inplace00Kernel [tArg 0]
      (tArg 1) 0 0 (by decide),
   claimC10_same_size_conservative.2.2 envLoop stFree (tArg 1) 0 [] (by decide)⟩

theorem getPlan_ReuseValue_self (st : PlannerState) (r f : OrtValueIndex)
    (k : AllocKind) (hb : f < st.allocationPlan.length) :
    getPlan (ReuseValue st r f k) f =
      { getPlan st f with allocKind := k, reusedBuffer := Buffer st r } := by
  unfold ReuseValue
  rw [getPlan_setPlan_self]
  · rfl
  · exact hb

theorem planNodeOutput_loop_identity_share
    (env : PlanEnv) (node : Node) (argNum : Nat) (out : NodeArg)
    (st : PlannerState) (parent : Node)
    (hp : env.parentNode = some parent)
    (hl : parent.opType = "Loop")
    (hi : node.opType = "Identity")
    (hout : out ∈ env.graphOutputs)
    (hpre : (getPlan st (node.inputDefs.getD 0 default).id).allocKind =
      AllocKind.kPreExisting)
    (hne : (node.inputDefs.getD 0 default).id ≠ out.id)
    (hb : out.id < st.allocationPlan.length) :
    (getPlan (planNodeOutput env node argNum out st) out.id).allocKind =
      AllocKind.kShare ∧
    (getPlan (planNodeOutput env node argNum out st) out.id).reusedBuffer =
      Buffer st (node.inputDefs.getD 0 default).id := by
  have hc : env.graphOutputs.contains out = true := List.elem_iff.mpr hout
  have hil : (node.opType == "Identity" && parent.opType == "Loop") = true := by
    rw [hi, hl]
    rfl
  have hguard : (getPlan
      (setAllocKind (setValueType st out.id out.ty) out.id AllocKind.kAllocateOutput)
      (node.inputDefs.getD 0 default).id).allocKind = AllocKind.kPreExisting := by
    unfold setAllocKind setValueType
    rw [getPlan_setPlan_ne _ _ _ _ (fun h => hne h.symm),
      getPlan_setPlan_ne _ _ _ _ (fun h => hne h.symm)]
    exact hpre
  have hguard' : ((getPlan
      (setAllocKind (setValueType st out.id out.ty) out.id AllocKind.kAllocateOutput)
      (node.inputDefs.getD 0 default).id).allocKind == AllocKind.kPreExisting) = true := by
    rw [hguard]
    rfl
  have hb2 : out.id < (setAllocKind (setValueType st out.id out.ty) out.id
      AllocKind.kAllocateOutput).allocationPlan.length := by
    unfold setAllocKind setValueType
    rw [allocationPlan_length_setPlan, allocationPlan_length_setPlan]
    exact hb
  unfold planNodeOutput
  rw [hc]
  simp only [if_true, hp, hil, hguard']
  rw [getPlan_ReuseValue_self _ _ _ _ hb2]
  exact ⟨rfl, rfl⟩

/-- C7: when planning a subgraph whose parent node is a `Loop`, an
`Identity` node producing a declared graph output whose first input's plan
is pre-existing gets `Share` of that input (recording the input's root
buffer) instead of `GraphOutput`. -/
theorem claimC7_loop_identity_pass_through
    (env : PlanEnv) (node : Node) (argNum : Nat) (out : NodeArg)
    (st : PlannerState) (parent : Node)
    (hp : env.parentNode = some parent)
    (hl : parent.opType = "Loop")
    (hi : node.opType = "Identity")
    (hout : out ∈ env.graphOutputs)
    (hpre : (getPlan st (node.inputDefs.getD 0 default).id).allocKind =
      AllocKind.kPreExisting)
    (hne : (node.inputDefs.getD 0 default).id ≠ out.id)
    (hb : out.id < st.allocationPlan.length) :
    (getPlan (planNodeOutput env node argNum out st) out.id).allocKind =
      AllocKind.kShare ∧
    (getPlan (planNodeOutput env node argNum out st) out.id).reusedBuffer =
      Buffer st (node.inputDefs.getD 0 default).id :=
  planNodeOutput_loop_identity_share env node argNum out st parent hp hl hi hout
    hpre hne hb

/-- The planner state just before the `Identity` output of `envLoop` is
planned: value 0 is pre-existing with two uses, value 1 fresh. -/
def stLoopPre : PlannerState :=
  { ortValueInfo := [⟨some (tArg 0), 2, 0⟩, ⟨some (tArg 1), 2, 1⟩],
    allocationPlan := [{ allocKind := AllocKind.kPreExisting,
                         valueType := some (tArg 0).ty }, {}],
    freelist := [],
    executionPlan := [⟨0, 1, 0⟩],
    toBeFreed := [],
    nodeHasFence := [false] }

/-- Witness for C7 in the `envLoop` subgraph. -/
theorem claimC7_witness :
    (getPlan stLoopPre 0).allocKind = AllocKind.kPreExisting ∧
    (getPlan (planNodeOutput envLoop (getNodeD envLoop 0) 0 (tArg 1) stLoopPre) 1).allocKind
        = AllocKind.kShare ∧
    (getPlan (planNodeOutput envLoop (getNodeD envLoop 0) 0 (tArg 1) stLoopPre) 1).reusedBuffer
        = 0 :=
  ⟨by decide,
   (claimC7_loop_identity_pass_through envLoop (getNodeD envLoop 0) 0 (tArg 1)
      stLoopPre ⟨9, "Loop", [], [], []⟩ rfl rfl (by decide) (by decide) (by decide)
      (by decide) (by decide)).1,
   (claimC7_loop_identity_pass_through envLoop (getNodeD envLoop 0) 0 (tArg 1)
      stLoopPre ⟨9, "Loop", [], [], []⟩ rfl rfl (by decide) (by decide) (by decide)
      (by decide) (by decide)).2⟩

/-! Claim C4: the fence check. -/

/-- The claim's per-argument fence condition: the argument is present and
either its own `fence_flag` is set, or its allocation is a reuse and the
reused buffer's `fence_flag` is set. -/
def specArgFence (st : PlannerState) (w : NodeArg) : Prop :=
  w.argExists = true ∧
    ((getPlan st w.id).createFenceIfAsync = true ∨
      ((getPlan st w.id).allocKind = AllocKind.kReuse ∧
        (getPlan st (getPlan st w.id).reusedBuffer).createFenceIfAsync = true))

theorem HasFence_iff (st : PlannerState) (w : NodeArg) :
    HasFence st w = true ↔ specArgFence st w := by
  unfold HasFence specArgFence
  by_cases he : w.argExists = true
  · simp only [he, if_true, true_and]
    by_cases hk : (getPlan st w.id).allocKind = AllocKind.kReuse
    · have hk' : ((getPlan st w.id).allocKind == AllocKind.kReuse) = true := by
        rw [hk]
        rfl
      simp [hk', hk, Bool.or_eq_true]
    · have hk' : ((getPlan st w.id).allocKind == AllocKind.kReuse) = false := by
        cases hkk : (getPlan st w.id).allocKind <;> first
          | rfl
          | exact absurd hkk hk
      simp [hk', hk]
  · have he' : w.argExists = false := by
      cases hb : w.argExists
      · rfl
      · exact absurd hb he
    simp [he']

theorem foldl_or_any {α : Type} (l : List α) (p : α → Bool) (b : Bool) :
    l.foldl (fun acc a => acc || p a) b = (b || l.any p) := by
  induction l generalizing b with
  | nil => simp
  | cons x xs ih => simp [List.any_cons, ih, Bool.or_assoc]

theorem HasFence_congr (st1 st2 : PlannerState)
    (h : st1.allocationPlan = st2.allocationPlan) (w : NodeArg) :
    HasFence st1 w = HasFence st2 w := by
  unfold HasFence getPlan
  rw [h]

/-- The Boolean computed by a fence-check step for the node of `step`,
read on state `st`. -/
def stepFenceBool (env : PlanEnv) (st : PlannerState) (step : NodeExecutionPlan) : Bool :=
  ((getNodeD env step.nodeIndex).inputDefs ++
    (getNodeD env step.nodeIndex).implicitInputDefs ++
    (getNodeD env step.nodeIndex).outputDefs).any (HasFence st)

theorem computeFenceCheckNode_ok (env : PlanEnv) (st st' : PlannerState)
    (step : NodeExecutionPlan)
    (h : computeFenceCheckNode env st step = Except.ok st') :
    st' = { st with nodeHasFence :=
      st.nodeHasFence.set step.nodeIndex (stepFenceBool env st step) } := by
  unfold computeFenceCheckNode at h
  cases hn : getNode? env step.nodeIndex with
  | none =>
    rw [hn] at h
    cases h
  | some pnode =>
    rw [hn] at h
    have hpn : getNodeD env step.nodeIndex = pnode := by
      have hdef : getNodeD env step.nodeIndex = (getNode? env step.nodeIndex).getD default :=
        rfl
      rw [hdef, hn]
      rfl
    injection h with h'
    rw [← h']
    unfold stepFenceBool
    rw [hpn]
    rw [foldl_or_any, foldl_or_any, foldl_or_any]
    simp [List.any_append, Bool.or_assoc]

theorem fence_foldlM_spec (env : PlanEnv) (steps : List NodeExecutionPlan)
    (st st' : PlannerState)
    (h : steps.foldlM (computeFenceCheckNode env) st = Except.ok st') :
    st'.allocationPlan = st.allocationPlan ∧
    st'.nodeHasFence.length = st.nodeHasFence.length ∧
    (∀ i, i ∉ steps.map (fun s => s.nodeIndex) →
      st'.nodeHasFence.getD i false = st.nodeHasFence.getD i false) ∧
    ((steps.map (fun s => s.nodeIndex)).Nodup →
      ∀ step ∈ steps, step.nodeIndex < st.nodeHasFence.length →
        st'.nodeHasFence.getD step.nodeIndex false = stepFenceBool env st step) := by
  induction steps generalizing st with
  | nil =>
    cases h
    exact ⟨rfl, rfl, fun _ _ => rfl, fun _ step hs => absurd hs (List.not_mem_nil step)⟩
  | cons s ss ih =>
    rw [List.foldlM_cons] at h
    cases hstep : computeFenceCheckNode env st s with
    | error e =>
      rw [hstep] at h
      cases h
    | ok st1 =>
      rw [hstep] at h
      have h2 : ss.foldlM (computeFenceCheckNode env) st1 = Except.ok st' := h
      have hst1 := computeFenceCheckNode_ok env st st1 s hstep
      obtain ⟨ha, hlen, huntouched, hspec⟩ := ih st1 h2
      have hst1_alloc : st1.allocationPlan = st.allocationPlan := by rw [hst1]
      have hst1_len : st1.nodeHasFence.length = st.nodeHasFence.length := by
        rw [hst1]
        simp [List.length_set]
      refine ⟨by rw [ha, hst1_alloc], by rw [hlen, hst1_len], ?_, ?_⟩
      · intro i hi
        have hi_s : i ≠ s.nodeIndex := by
          intro hh
          exact hi (by rw [hh]; exact List.mem_cons_self _ _)
        have hi_ss : i ∉ ss.map (fun s => s.nodeIndex) := by
          intro hh
          exact hi (List.mem_cons_of_mem _ hh)
        rw [huntouched i hi_ss, hst1]
        exact getD_set_ne _ _ _ _ _ (fun hh => hi_s hh.symm)
      · intro hnodup step hmem hb
        rw [List.map_cons, List.nodup_cons] at hnodup
        rcases List.mem_cons.mp hmem with hcase | hcase
        · subst hcase
          have hnot : step.nodeIndex ∉ ss.map (fun s => s.nodeIndex) := hnodup.1
          rw [huntouched _ hnot, hst1]
          exact getD_set_self _ _ _ _ hb
        · have hb1 : step.nodeIndex < st1.nodeHasFence.length := by
            rw [hst1_len]
            exact hb
          rw [hspec hnodup.2 step hcase hb1]
          unfold stepFenceBool
          congr 1
          funext w
          exact HasFence_congr st1 st hst1_alloc w

/-- C4 amended: for every step of the execution plan (with the graph's
node indices unique and in range), the fence bit the planner records for
the step's node is set if and only if some input, implicit input, or
output `w` of the node satisfies: `fence_flag[w]` is set, or `alloc[w]` is
`Reuse(r)` and `fence_flag[r]` is set.  (The claim's parenthetical
reformulation through `FenceFlag(root_of(w))` is refuted by the
counterexample.) -/
theorem claimC4_amended_fence_iff (env : PlanEnv) (st st' : PlannerState)
    (h : ComputeFenceCheck env st = Except.ok st')
    (step : NodeExecutionPlan) (hmem : step ∈ st.executionPlan)
    (hnodup : (st.executionPlan.map (fun s => s.nodeIndex)).Nodup)
    (hb : step.nodeIndex < st.nodeHasFence.length) :
    (st'.nodeHasFence.getD step.nodeIndex false = true ↔
      ∃ w ∈ (getNodeD env step.nodeIndex).inputDefs ++
            (getNodeD env step.nodeIndex).implicitInputDefs ++
            (getNodeD env step.nodeIndex).outputDefs,
        specArgFence st w) := by
  obtain ⟨_, _, _, hspec⟩ := fence_foldlM_spec env st.executionPlan st st' h
  rw [hspec hnodup step hmem hb]
  unfold stepFenceBool
  rw [List.any_eq_true]
  constructor
  · rintro ⟨w, hw, hf⟩
    exact ⟨w, hw, (HasFence_iff st w).mp hf⟩
  · rintro ⟨w, hw, hf⟩
    exact ⟨w, hw, (HasFence_iff st w).mpr hf⟩

/-- A pre-fence-check state for `envDead` in which value 0 carries the
fence flag. -/
def stFenceIn : PlannerState :=
  { ortValueInfo := [⟨some (tArg 0), 1, 0⟩, ⟨some (tArg 1), 1, 1⟩],
    allocationPlan := [{ createFenceIfAsync := true }, {}],
    freelist := [],
    executionPlan := [⟨0, 1, 0⟩],
    toBeFreed := [],
    nodeHasFence := [false] }

/-- The fence-check result on `stFenceIn`. -/
def stFenceOut : PlannerState :=
  { stFenceIn with nodeHasFence := [true] }

/-- Witness for the amended C4 on a concrete state. -/
theorem claimC4_amended_witness :
    ComputeFenceCheck envDead stFenceIn = Except.ok stFenceOut ∧
    (stFenceOut.nodeHasFence.getD 0 false = true ↔
      ∃ w ∈ (getNodeD envDead 0).inputDefs ++
            (getNodeD envDead 0).implicitInputDefs ++
            (getNodeD envDead 0).outputDefs,
        specArgFence stFenceIn w) :=
  ⟨rfl, claimC4_amended_fence_iff envDead stFenceIn stFenceOut rfl ⟨0, 1, 0⟩
    (by decide) (by decide) (by decide)⟩

/-! Claim C1: the per-output decision procedure, stated as rules from the
spec and compared with the source's branch structure. -/

/-- The input indices that a kernel map pairs with output slot `i`, in map
order. -/
def slotPairs (m : List (Int × Int)) (i : Nat) : List Int :=
  (m.filter (fun p => p.2 == (i : Int))).map (fun p => p.1)

/-- Rule 3's candidate: an in-range, existing input at index `j`. -/
def aliasCandidate (inputs : List NodeArg) (j : Int) : Option OrtValueIndex :=
  if 0 ≤ j && j.toNat < inputs.length then
    if (inputs.getD j.toNat default).argExists then some (inputs.getD j.toNat default).id
    else none
  else none

/-- Rule 4's candidate: an in-range existing input at index `j` whose root
buffer has use count 1 and which has the same size as the output. -/
def inplaceCandidate (env : PlanEnv) (st : PlannerState) (inputs : List NodeArg)
    (out : NodeArg) (j : Int) : Option OrtValueIndex :=
  if 0 ≤ j && j.toNat < inputs.length then
    if (inputs.getD j.toNat default).argExists then
      if UseCount st (Buffer st (inputs.getD j.toNat default).id) == 1 &&
          SameSizeArg env (inputs.getD j.toNat default) out then
        some (inputs.getD j.toNat default).id
      else none
    else none
  else none

theorem findSome?_slot {β : Type} (m : List (Int × Int)) (i : Nat) (g : Int → Option β) :
    m.findSome? (fun pair => if pair.2 == (i : Int) then g pair.1 else none) =
      (slotPairs m i).findSome? g := by
  induction m with
  | nil => rfl
  | cons p rest ih =>
    by_cases h : (p.2 == (i : Int)) = true
    · rw [List.findSome?_cons]
      have hsp : slotPairs (p :: rest) i = p.1 :: slotPairs rest i := by
        simp [slotPairs, List.filter_cons, h]
      rw [hsp, List.findSome?_cons, if_pos h]
      cases g p.1 with
      | none => exact ih
      | some b => rfl
    · rw [List.findSome?_cons]
      have hsp : slotPairs (p :: rest) i = slotPairs rest i := by
        simp only [slotPairs, List.filter_cons]
        rw [if_neg h]
      rw [hsp, if_neg h, ih]

theorem findAliasInput_eq (kd : KernelDef) (inputs : List NodeArg) (i : Nat) :
    findAliasInput kd inputs i =
      (slotPairs kd.aliasMap i).findSome? (aliasCandidate inputs) :=
  findSome?_slot kd.aliasMap i (aliasCandidate inputs)

theorem findInplaceInput_eq (env : PlanEnv) (st : PlannerState) (kd : KernelDef)
    (inputs : List NodeArg) (out : NodeArg) (i : Nat) :
    findInplaceInput env st kd inputs out i =
      (slotPairs kd.mayInplace i).findSome? (inplaceCandidate env st inputs out) :=
  findSome?_slot kd.mayInplace i (inplaceCandidate env st inputs out)

/-- Rule 3, as the spec states it: the first alias-map pairing of an
existing input with output slot `i`, when the kernel is known. -/
def specAliasInput (env : PlanEnv) (node : Node) (argNum : Nat) : Option OrtValueIndex :=
  match env.searchKernel node with
  | none => none
  | some kd => (slotPairs kd.aliasMap argNum).findSome? (aliasCandidate node.inputDefs)

/-- Rule 4, as the spec states it: the first in-place pairing of an
existing input (on its last use, with matching size) with slot `i`. -/
def specInplaceInput (env : PlanEnv) (st : PlannerState) (node : Node)
    (argNum : Nat) : Option OrtValueIndex :=
  match env.searchKernel node with
  | none => none
  | some kd =>
    (slotPairs kd.mayInplace argNum).findSome?
      (inplaceCandidate env st node.inputDefs (node.outputDefs.getD argNum default))

/-- Rule 5, as the spec states it: the first freelist entry with equal
placement and the same element-size-weighted shape (when the output's
shape is known). -/
def specFreelistPick (env : PlanEnv) (st : PlannerState) (out : NodeArg) :
    Option OrtValueIndex :=
  match env.getShape out with
  | none => none
  | some reqS =>
    (st.freelist.find?
      (freelistMatch env st reqS out.ty ((getPlan st out.id).location))).map
      (fun e => e.mlValue)

/-- The outcome of the spec's first-matching-rule decision list. -/
inductive OutputDecision where
  | decideGraphOutput
  | decideShare (u : OrtValueIndex)
  | decideFresh
  | decideReuseAlias (u : OrtValueIndex)
  | decideReuseInplace (u : OrtValueIndex)
  | decideReuseFreelist (u : OrtValueIndex)
deriving DecidableEq, Repr

/-- The claim's decision procedure (amended): for output `v_i`, the first
matching rule of — (1) graph output (with the Loop-subgraph Identity
pass-through of a pre-existing first input yielding Share instead), (2)
fresh for non-tensors, (3) reuse of an aliased input, (4) reuse of an
in-place input on its last use with matching size, (5) in sequential mode
only, reuse of the first matching freelist entry, (6) fresh.  Rule 4
checks `use_count` on the input's recorded root buffer (`Buffer`), which
the collapse invariant equates with `root_of`. -/
def specAllocDecision (env : PlanEnv) (node : Node) (argNum : Nat) (out : NodeArg)
    (st : PlannerState) : OutputDecision :=
  if out ∈ env.graphOutputs then
    match env.parentNode with
    | some parent =>
      if node.opType == "Identity" && parent.opType == "Loop" &&
          ((getPlan st (node.inputDefs.getD 0 default).id).allocKind ==
            AllocKind.kPreExisting) then
        OutputDecision.decideShare (node.inputDefs.getD 0 default).id
      else OutputDecision.decideGraphOutput
    | none => OutputDecision.decideGraphOutput
  else if out.ty.isTensor = false then OutputDecision.decideFresh
  else
    match specAliasInput env node argNum with
    | some u => OutputDecision.decideReuseAlias u
    | none =>
      match specInplaceInput env st node argNum with
      | some u => OutputDecision.decideReuseInplace u
      | none =>
        if env.isParallel = false then
          match specFreelistPick env st out with
          | some u => OutputDecision.decideReuseFreelist u
          | none => OutputDecision.decideFresh
        else OutputDecision.decideFresh

/-- What the planner must have recorded for `out` if the decision list
yields the given outcome. -/
def decisionAgrees (env : PlanEnv) (node : Node) (argNum : Nat) (out : NodeArg)
    (st : PlannerState) : OutputDecision → Prop
  | OutputDecision.decideGraphOutput =>
      (getPlan (planNodeOutput env node argNum out st) out.id).allocKind =
        AllocKind.kAllocateOutput
  | OutputDecision.decideShare u =>
      (getPlan (planNodeOutput env node argNum out st) out.id).allocKind =
          AllocKind.kShare ∧
        (getPlan (planNodeOutput env node argNum out st) out.id).reusedBuffer =
          Buffer st u
  | OutputDecision.decideFresh =>
      (getPlan (planNodeOutput env node argNum out st) out.id).allocKind =
        AllocKind.kAllocate
  | OutputDecision.decideReuseAlias u =>
      (getPlan (planNodeOutput env node argNum out st) out.id).allocKind =
          AllocKind.kReuse ∧
        (getPlan (planNodeOutput env node argNum out st) out.id).reusedBuffer =
          Buffer st u
  | OutputDecision.decideReuseInplace u =>
      (getPlan (planNodeOutput env node argNum out st) out.id).allocKind =
          AllocKind.kReuse ∧
        (getPlan (planNodeOutput env node argNum out st) out.id).reusedBuffer =
          Buffer st u
  | OutputDecision.decideReuseFreelist u =>
      (getPlan (planNodeOutput env node argNum out st) out.id).allocKind =
          AllocKind.kReuse ∧
        (getPlan (planNodeOutput env node argNum out st) out.id).reusedBuffer =
          Buffer st u ∧
        ∃ reqS, env.getShape out = some reqS ∧
          (planNodeOutput env node argNum out st).freelist =
            st.freelist.eraseP
              (freelistMatch env st reqS out.ty ((getPlan st out.id).location))

theorem getPlan_setPlan_cases (st : PlannerState) (n : OrtValueIndex)
    (p : AllocPlanPerValue) (m : OrtValueIndex) :
    getPlan (setPlan st n p) m =
      if n = m ∧ n < st.allocationPlan.length then p else getPlan st m := by
  by_cases h1 : n = m
  · subst h1
    by_cases h2 : n < st.allocationPlan.length
    · rw [getPlan_setPlan_self _ _ _ h2, if_pos ⟨rfl, h2⟩]
    · rw [if_neg (fun hh => h2 hh.2)]
      unfold getPlan setPlan
      rw [List.set_eq_of_length_le (Nat.le_of_not_lt h2)]
  · rw [getPlan_setPlan_ne _ _ _ _ h1, if_neg (fun hh => h1 hh.1)]

theorem location_setValueType (st : PlannerState) (n : OrtValueIndex)
    (t : DataTypeInfo) (m : OrtValueIndex) :
    (getPlan (setValueType st n t) m).location = (getPlan st m).location := by
  unfold setValueType
  rw [getPlan_setPlan_cases]
  split
  · next h => rw [h.1]
  · rfl

theorem getInfo_setValueType (st : PlannerState) (n : OrtValueIndex)
    (t : DataTypeInfo) (m : OrtValueIndex) :
    getInfo (setValueType st n t) m = getInfo st m := rfl

theorem freelistMatch_setValueType (env : PlanEnv) (st : PlannerState)
    (n : OrtValueIndex) (t : DataTypeInfo) (reqS : TensorShapeProto)
    (reqT : DataTypeInfo) (reqM : MemInfo) :
    freelistMatch env (setValueType st n t) reqS reqT reqM =
      freelistMatch env st reqS reqT reqM := by
  funext e
  simp only [freelistMatch, location_setValueType, getInfo_setValueType]

theorem findReusableTensorScan_setValueType (env : PlanEnv) (st : PlannerState)
    (n : OrtValueIndex) (t : DataTypeInfo) (reqS : TensorShapeProto)
    (reqT : DataTypeInfo) (reqM : MemInfo) (l : List FreeBufferInfo) :
    findReusableTensorScan env (setValueType st n t) reqS reqT reqM l =
      findReusableTensorScan env st reqS reqT reqM l := by
  induction l with
  | nil => rfl
  | cons e rest ih =>
    simp only [findReusableTensorScan, getInfo_setValueType, location_setValueType, ih]

theorem FindReusableTensor_setValueType (env : PlanEnv) (st : PlannerState)
    (n : OrtValueIndex) (t : DataTypeInfo) (out : NodeArg) :
    FindReusableTensor env (setValueType st n t) out = FindReusableTensor env st out := by
  unfold FindReusableTensor
  simp only [location_setValueType, findReusableTensorScan_setValueType]
  rfl

theorem FindReusableInput_eq_spec (env : PlanEnv) (st : PlannerState)
    (node : Node) (argNum : Nat) :
    FindReusableInput env st node argNum =
      match specAliasInput env node argNum with
      | some u => some u
      | none => specInplaceInput env st node argNum := by
  cases hk : env.searchKernel node with
  | none => simp only [FindReusableInput, specAliasInput, specInplaceInput, hk]
  | some kd =>
    simp only [FindReusableInput, specAliasInput, specInplaceInput, hk,
      findAliasInput_eq, findInplaceInput_eq]

theorem specFreelistPick_eq (env : PlanEnv) (st : PlannerState) (out : NodeArg) :
    specFreelistPick env st out = (FindReusableTensor env st out).map Prod.fst := by
  cases hs : env.getShape out with
  | none => simp only [specFreelistPick, FindReusableTensor, hs]; rfl
  | some reqS =>
    simp only [specFreelistPick, hs, FindReusableTensor_eq]
    cases hfind : st.freelist.find?
        (freelistMatch env st reqS out.ty ((getPlan st out.id).location)) <;>
      simp [hfind]

theorem allocKind_setAllocKind_self (st : PlannerState) (n : OrtValueIndex)
    (k : AllocKind) (hb : n < st.allocationPlan.length) :
    (getPlan (setAllocKind st n k) n).allocKind = k := by
  unfold setAllocKind
  rw [getPlan_setPlan_self _ _ _ hb]

theorem FindReusableTensor_some (env : PlanEnv) (st : PlannerState) (out : NodeArg)
    (u : OrtValueIndex) (fl : List FreeBufferInfo)
    (h : FindReusableTensor env st out = some (u, fl)) :
    ∃ reqS, env.getShape out = some reqS ∧
      fl = st.freelist.eraseP
        (freelistMatch env st reqS out.ty ((getPlan st out.id).location)) := by
  rw [FindReusableTensor_eq] at h
  cases hs : env.getShape out with
  | none =>
    rw [hs] at h
    cases h
  | some reqS =>
    rw [hs] at h
    have h' : (match st.freelist.find?
        (freelistMatch env st reqS out.ty ((getPlan st out.id).location)) with
      | some e => some (e.mlValue,
          st.freelist.eraseP
            (freelistMatch env st reqS out.ty ((getPlan st out.id).location)))
      | none => (none : Option (OrtValueIndex × List FreeBufferInfo))) =
        some (u, fl) := h
    cases hfind : st.freelist.find?
        (freelistMatch env st reqS out.ty ((getPlan st out.id).location)) with
    | none =>
      rw [hfind] at h'
      cases h'
    | some e =>
      rw [hfind] at h'
      refine ⟨reqS, rfl, ?_⟩
      injection h' with h''
      exact (congrArg Prod.snd h'').symm

/-- C1 amended: every node output planned during reuse planning receives
the allocation dictated by the first matching rule of the spec's list,
with rule 1 amended by the Loop-subgraph Identity pass-through: a declared
graph output whose node is an `Identity` under a `Loop` parent with a
pre-existing first input gets `Share` of that input; otherwise graph
outputs get `GraphOutput`, non-tensors `Fresh`, then aliased-input reuse,
then in-place reuse on the last use with matching size, then (sequential
mode only) first-fit freelist reuse with the hit erased from the freelist,
then `Fresh`. -/
theorem claimC1_amended_first_match (env : PlanEnv) (node : Node) (argNum : Nat)
    (out : NodeArg) (st : PlannerState)
    (hpre : (getPlan st out.id).allocKind ≠ AllocKind.kPreExisting)
    (hb : out.id < st.allocationPlan.length) :
    decisionAgrees env node argNum out st (specAllocDecision env node argNum out st) := by
  have hb1 : out.id < (setValueType st out.id out.ty).allocationPlan.length := by
    unfold setValueType
    rw [allocationPlan_length_setPlan]
    exact hb
  have hfri : FindReusableInput env (setValueType st out.id out.ty) node argNum =
      FindReusableInput env st node argNum := rfl
  have hfrt := FindReusableTensor_setValueType env st out.id out.ty out
  by_cases hmem : out ∈ env.graphOutputs
  · have hc : env.graphOutputs.contains out = true := List.elem_iff.mpr hmem
    cases hpar : env.parentNode with
    | none =>
      have hdec : specAllocDecision env node argNum out st =
          OutputDecision.decideGraphOutput := by
        unfold specAllocDecision
        rw [if_pos hmem, hpar]
      rw [hdec]
      show (getPlan (planNodeOutput env node argNum out st) out.id).allocKind =
        AllocKind.kAllocateOutput
      unfold planNodeOutput
      rw [hc]
      simp only [if_true, hpar]
      exact allocKind_setAllocKind_self _ _ _ hb1
    | some parent =>
      by_cases hid : (node.opType == "Identity" && parent.opType == "Loop") = true
      · by_cases hguard : (getPlan st (node.inputDefs.getD 0 default).id).allocKind =
            AllocKind.kPreExisting
        · have hne : (node.inputDefs.getD 0 default).id ≠ out.id := by
            intro h
            exact hpre (by rw [← h]; exact hguard)
          have hguardb : ((getPlan st (node.inputDefs.getD 0 default).id).allocKind ==
              AllocKind.kPreExisting) = true := by
            rw [hguard]; rfl
          have hdec : specAllocDecision env node argNum out st =
              OutputDecision.decideShare (node.inputDefs.getD 0 default).id := by
            unfold specAllocDecision
            rw [if_pos hmem, hpar]
            simp only [hid, hguardb, Bool.true_and, Bool.and_true, if_true]
          rw [hdec]
          have h2 := hid
          rw [Bool.and_eq_true] at h2
          exact planNodeOutput_loop_identity_share env node argNum out st parent
            hpar (eq_of_beq h2.2) (eq_of_beq h2.1) hmem hguard hne hb
        · have hguardb : ((getPlan st (node.inputDefs.getD 0 default).id).allocKind ==
              AllocKind.kPreExisting) = false := by
            cases hkk : (getPlan st (node.inputDefs.getD 0 default).id).allocKind <;>
              first
              | rfl
              | exact absurd hkk hguard
          have hdec : specAllocDecision env node argNum out st =
              OutputDecision.decideGraphOutput := by
            unfold specAllocDecision
            rw [if_pos hmem, hpar]
            simp only [hguardb, Bool.and_false, Bool.false_eq_true, if_false]
          rw [hdec]
          show (getPlan (planNodeOutput env node argNum out st) out.id).allocKind =
            AllocKind.kAllocateOutput
          have hguard2 : ((getPlan
              (setAllocKind (setValueType st out.id out.ty) out.id
                AllocKind.kAllocateOutput)
              (node.inputDefs.getD 0 default).id).allocKind ==
                AllocKind.kPreExisting) = false := by
            by_cases hio : (node.inputDefs.getD 0 default).id = out.id
            · rw [hio]
              rw [show (getPlan
                  (setAllocKind (setValueType st out.id out.ty) out.id
                    AllocKind.kAllocateOutput) out.id).allocKind =
                  AllocKind.kAllocateOutput from
                allocKind_setAllocKind_self _ _ _ hb1]
              rfl
            · unfold setAllocKind setValueType
              rw [getPlan_setPlan_ne _ _ _ _ (fun h => hio h.symm),
                getPlan_setPlan_ne _ _ _ _ (fun h => hio h.symm)]
              exact hguardb
          unfold planNodeOutput
          rw [hc]
          simp only [if_true, hpar, hid, hguard2, Bool.false_eq_true, if_false,
            if_true]
          exact allocKind_setAllocKind_self _ _ _ hb1
      · have hidf : (node.opType == "Identity" && parent.opType == "Loop") = false :=
          Bool.eq_false_iff.mpr hid
        have hdec : specAllocDecision env node argNum out st =
            OutputDecision.decideGraphOutput := by
          unfold specAllocDecision
          rw [if_pos hmem, hpar]
          simp only [hidf, Bool.false_and, Bool.false_eq_true, if_false]
        rw [hdec]
        show (getPlan (planNodeOutput env node argNum out st) out.id).allocKind =
          AllocKind.kAllocateOutput
        unfold planNodeOutput
        rw [hc]
        simp only [if_true, hpar, hidf, Bool.false_eq_true, if_false]
        exact allocKind_setAllocKind_self _ _ _ hb1
  · have hc : env.graphOutputs.contains out = false :=
      Bool.eq_false_iff.mpr (fun h => hmem (List.elem_iff.mp h))
    by_cases ht : out.ty.isTensor = false
    · have hnt : IsNonTensor out = true := by
        unfold IsNonTensor
        rw [ht]
        rfl
      have hdec : specAllocDecision env node argNum out st =
          OutputDecision.decideFresh := by
        unfold specAllocDecision
        rw [if_neg hmem, if_pos ht]
      rw [hdec]
      show (getPlan (planNodeOutput env node argNum out st) out.id).allocKind =
        AllocKind.kAllocate
      unfold planNodeOutput
      rw [hc, hnt]
      simp only [Bool.false_eq_true, if_false, if_true]
      exact allocKind_setAllocKind_self _ _ _ hb1
    · have ht' : ¬out.ty.isTensor = false := ht
      have hnt : IsNonTensor out = false := by
        unfold IsNonTensor
        cases hbt : out.ty.isTensor
        · exact absurd hbt ht
        · rfl
      have hsplit := FindReusableInput_eq_spec env st node argNum
      cases hFRI : FindReusableInput env st node argNum with
      | some u =>
        rw [hFRI] at hsplit
        have hfinal :
            (getPlan (planNodeOutput env node argNum out st) out.id).allocKind =
              AllocKind.kReuse ∧
            (getPlan (planNodeOutput env node argNum out st) out.id).reusedBuffer =
              Buffer st u := by
          unfold planNodeOutput
          rw [hc, hnt]
          simp only [Bool.false_eq_true, if_false]
          rw [hfri, hFRI]
          rw [getPlan_ReuseValue_self _ _ _ _ hb1]
          exact ⟨rfl, rfl⟩
        cases hA : specAliasInput env node argNum with
        | some a =>
          rw [hA] at hsplit
          have hau : a = u := Option.some.inj hsplit.symm
          have hdec : specAllocDecision env node argNum out st =
              OutputDecision.decideReuseAlias u := by
            unfold specAllocDecision
            rw [if_neg hmem, if_neg ht', hA, hau]
          rw [hdec]
          exact hfinal
        | none =>
          rw [hA] at hsplit
          have hI : specInplaceInput env st node argNum = some u := hsplit.symm
          have hdec : specAllocDecision env node argNum out st =
              OutputDecision.decideReuseInplace u := by
            unfold specAllocDecision
            rw [if_neg hmem, if_neg ht', hA, hI]
          rw [hdec]
          exact hfinal
      | none =>
        rw [hFRI] at hsplit
        have hA : specAliasInput env node argNum = none := by
          cases hAx : specAliasInput env node argNum with
          | none => rfl
          | some a =>
            rw [hAx] at hsplit
            cases hsplit
        have hI : specInplaceInput env st node argNum = none := by
          rw [hA] at hsplit
          exact hsplit.symm
        by_cases hp5 : env.isParallel = false
        · have hp5b : (!env.isParallel) = true := by
            rw [hp5]
            rfl
          cases hft : FindReusableTensor env st out with
          | some pr =>
            obtain ⟨u, fl⟩ := pr
            have hpick : specFreelistPick env st out = some u := by
              rw [specFreelistPick_eq, hft]
              rfl
            have hdec : specAllocDecision env node argNum out st =
                OutputDecision.decideReuseFreelist u := by
              unfold specAllocDecision
              rw [if_neg hmem, if_neg ht', hA, hI, if_pos hp5, hpick]
            rw [hdec]
            obtain ⟨reqS, hs, hfl⟩ := FindReusableTensor_some env st out u fl hft
            have hb1' : out.id <
                ({ setValueType st out.id out.ty with
                    freelist := fl } : PlannerState).allocationPlan.length := hb1
            have hred : planNodeOutput env node argNum out st =
                ReuseValue
                  { setValueType st out.id out.ty with freelist := fl }
                  u out.id AllocKind.kReuse := by
              unfold planNodeOutput
              rw [hc, hnt]
              simp only [Bool.false_eq_true, if_false]
              rw [hfri, hFRI, hp5b]
              simp only [if_true]
              rw [hfrt, hft]
            refine ⟨?_, ?_, reqS, hs, ?_⟩
            · rw [hred, getPlan_ReuseValue_self _ _ _ _ hb1']
            · rw [hred, getPlan_ReuseValue_self _ _ _ _ hb1']
              rfl
            · rw [hred]
              show ({ setValueType st out.id out.ty with
                  freelist := fl } : PlannerState).freelist = _
              exact hfl
          | none =>
            have hpick : specFreelistPick env st out = none := by
              rw [specFreelistPick_eq, hft]
              rfl
            have hdec : specAllocDecision env node argNum out st =
                OutputDecision.decideFresh := by
              unfold specAllocDecision
              rw [if_neg hmem, if_neg ht', hA, hI, if_pos hp5, hpick]
            rw [hdec]
            show (getPlan (planNodeOutput env node argNum out st) out.id).allocKind =
              AllocKind.kAllocate
            unfold planNodeOutput
            rw [hc, hnt]
            simp only [Bool.false_eq_true, if_false]
            rw [hfri, hFRI, hp5b]
            simp only [if_true]
            rw [hfrt, hft]
            exact allocKind_setAllocKind_self _ _ _ hb1
        · have hp5b : (!env.isParallel) = false := by
            cases hpv : env.isParallel
            · exact absurd hpv hp5
            · rfl
          have hdec : specAllocDecision env node argNum out st =
              OutputDecision.decideFresh := by
            unfold specAllocDecision
            rw [if_neg hmem, if_neg ht', hA, hI, if_neg hp5]
          rw [hdec]
          show (getPlan (planNodeOutput env node argNum out st) out.id).allocKind =
            AllocKind.kAllocate
          unfold planNodeOutput
          rw [hc, hnt]
          simp only [Bool.false_eq_true, if_false]
          rw [hfri, hFRI, hp5b]
          simp only [Bool.false_eq_true, if_false]
          exact allocKind_setAllocKind_self _ _ _ hb1

/-- Witness for the amended C1 at a concrete output (rule 6 fires). -/
theorem claimC1_amended_witness :
    (getPlan stInplace 1).allocKind ≠ AllocKind.kPreExisting ∧
    decisionAgrees envChain (getNodeD envChain 0) 0 (tArg 1) stInplace
      (specAllocDecision envChain (getNodeD envChain 0) 0 (tArg 1) stInplace) :=
  ⟨by decide,
   claimC1_amended_first_match envChain (getNodeD envChain 0) 0 (tArg 1) stInplace
     (by decide) (by decide)⟩

/-! Claim C6: initializer placement. -/

/-- The location a consuming site wants, totalized (meaningful whenever
the kernel lookup that GeneratePlanForWeights performs succeeded). -/
def locForInputD (env : PlanEnv) (inputIndex : Nat) (node : Node) : MemInfo :=
  match env.searchKernel node with
  | none => env.defaultCpuMemoryInfo
  | some kd =>
    if kd.inputOnCpu inputIndex then env.defaultCpuMemoryInfo
    else env.allocInfo node OrtMemTypeDefault

/-- The site locations value `i` collects from the (slot, argument) pairs
of one node: one entry per present declared input carrying `i`. -/
def sitesFromPairs (env : PlanEnv) (node : Node) (i : OrtValueIndex)
    (ep : List (Nat × NodeArg)) : List MemInfo :=
  (ep.filter (fun p => p.2.argExists && p.2.id == i)).map
    (fun p => locForInputD env p.1 node)

/-- The spec's gathered site set for a value: for an initializer, every
node-site at which it is consumed as a present declared input, in node and
slot order; empty for non-initializers. -/
def specWeightSites (env : PlanEnv) (i : OrtValueIndex) : List MemInfo :=
  if env.initializers.any (fun w => w.id == i) then
    (env.nodesInTopologicalOrder.map
      (fun n => sitesFromPairs env n i n.inputDefs.enum)).flatten
  else []

theorem GetLocationForNodeInput_ok (env : PlanEnv) (inputIndex : Nat)
    (node : Node) (l : MemInfo)
    (h : GetLocationForNodeInput env inputIndex node = Except.ok l) :
    l = locForInputD env inputIndex node := by
  unfold GetLocationForNodeInput at h
  unfold locForInputD
  cases hk : env.searchKernel node with
  | none =>
    rw [hk] at h
    cases h
  | some kd =>
    rw [hk] at h
    have h2 : (if kd.inputOnCpu inputIndex = true then
        (pure env.defaultCpuMemoryInfo : Except String MemInfo)
      else pure (env.allocInfo node OrtMemTypeDefault)) = Except.ok l := h
    show l = if kd.inputOnCpu inputIndex = true then env.defaultCpuMemoryInfo
      else env.allocInfo node OrtMemTypeDefault
    by_cases hc : kd.inputOnCpu inputIndex = true
    · rw [if_pos hc] at h2
      rw [if_pos hc]
      injection h2 with h'
      exact h'.symm
    · rw [if_neg hc] at h2
      rw [if_neg hc]
      injection h2 with h'
      exact h'.symm

theorem pushLocation_length (locations : List (List MemInfo)) (i : Nat)
    (loc : MemInfo) : (pushLocation locations i loc).length = locations.length := by
  simp [pushLocation]

theorem pushLocation_getD_self (locations : List (List MemInfo)) (i : Nat)
    (loc : MemInfo) (h : i < locations.length) :
    (pushLocation locations i loc).getD i [] = locations.getD i [] ++ [loc] := by
  unfold pushLocation
  exact getD_set_self _ _ _ _ h

theorem pushLocation_getD_ne (locations : List (List MemInfo)) (i j : Nat)
    (loc : MemInfo) (h : i ≠ j) :
    (pushLocation locations i loc).getD j [] = locations.getD j [] := by
  unfold pushLocation
  exact getD_set_ne _ _ _ _ _ h

theorem gatherWeightPair_ok (env : PlanEnv) (node : Node)
    (locs locs' : List (List MemInfo)) (p : Nat × NodeArg)
    (h : gatherWeightPair env node locs p = Except.ok locs') :
    locs' = if p.2.argExists && env.initializers.any (fun w => w.id == p.2.id) then
      pushLocation locs p.2.id (locForInputD env p.1 node)
    else locs := by
  unfold gatherWeightPair at h
  by_cases he : p.2.argExists = true
  · rw [if_pos he] at h
    by_cases hw : env.initializers.any (fun w => w.id == p.2.id) = true
    · rw [if_pos hw] at h
      rw [he, hw]
      simp only [Bool.and_self, if_true]
      cases hloc : GetLocationForNodeInput env p.1 node with
      | error e =>
        rw [hloc] at h
        cases h
      | ok loc =>
        rw [hloc] at h
        have h2 : (pure (pushLocation locs p.2.id loc) :
            Except String (List (List MemInfo))) = Except.ok locs' := h
        injection h2 with h3
        rw [← h3, GetLocationForNodeInput_ok env p.1 node loc hloc]
    · have hw' : (env.initializers.any (fun w => w.id == p.2.id)) = false :=
        Bool.eq_false_iff.mpr hw
      rw [hw'] at h
      simp only [Bool.false_eq_true, if_false] at h
      rw [hw', Bool.and_false]
      simp only [Bool.false_eq_true, if_false]
      injection h with h3
      exact h3.symm
  · have he' : p.2.argExists = false := Bool.eq_false_iff.mpr he
    rw [he'] at h
    simp only [Bool.false_eq_true, if_false] at h
    rw [he', Bool.false_and]
    simp only [Bool.false_eq_true, if_false]
    injection h with h3
    exact h3.symm

theorem gatherWeightNode_fold_ok (env : PlanEnv) (node : Node) :
    ∀ (ep : List (Nat × NodeArg)) (locs locs' : List (List MemInfo)),
      ep.foldlM (gatherWeightPair env node) locs = Except.ok locs' →
      locs'.length = locs.length ∧
      ∀ i, i < locs.length →
        locs'.getD i [] = locs.getD i [] ++
          (if env.initializers.any (fun w => w.id == i) then
            sitesFromPairs env node i ep
          else []) := by
  intro ep
  induction ep with
  | nil =>
    intro locs locs' h
    cases h
    refine ⟨rfl, ?_⟩
    intro i _
    by_cases hw : env.initializers.any (fun w => w.id == i) = true
    · rw [if_pos hw]
      simp [sitesFromPairs]
    · rw [if_neg hw]
      simp
  | cons p rest ih =>
    intro locs locs' h
    rw [List.foldlM_cons] at h
    cases hp : gatherWeightPair env node locs p with
    | error e =>
      rw [hp] at h
      cases h
    | ok locs1 =>
      rw [hp] at h
      have h2 : rest.foldlM (gatherWeightPair env node) locs1 = Except.ok locs' := h
      have hl1 := gatherWeightPair_ok env node locs locs1 p hp
      obtain ⟨ihlen, ihget⟩ := ih locs1 locs' h2
      by_cases hcond : (p.2.argExists &&
          env.initializers.any (fun w => w.id == p.2.id)) = true
      · rw [if_pos hcond] at hl1
        have hlen1 : locs1.length = locs.length := by
          rw [hl1, pushLocation_length]
        refine ⟨by rw [ihlen, hlen1], ?_⟩
        intro i hi
        have hi1 : i < locs1.length := by rw [hlen1]; exact hi
        rw [ihget i hi1]
        rw [Bool.and_eq_true] at hcond
        by_cases hip : p.2.id = i
        · have hwin : env.initializers.any (fun w => w.id == i) = true := by
            rw [← hip]
            exact hcond.2
          rw [if_pos hwin, if_pos hwin]
          have hsp : sitesFromPairs env node i (p :: rest) =
              locForInputD env p.1 node :: sitesFromPairs env node i rest := by
            unfold sitesFromPairs
            rw [List.filter_cons]
            have : (p.2.argExists && p.2.id == i) = true := by
              rw [hcond.1, hip]
              simp
            rw [if_pos this, List.map_cons]
          rw [hsp, hl1, hip, pushLocation_getD_self _ _ _ hi]
          rw [List.append_assoc]
          rfl
        · have hloc1 : locs1.getD i [] = locs.getD i [] := by
            rw [hl1]
            exact pushLocation_getD_ne _ _ _ _ hip
          rw [hloc1]
          have hsp : sitesFromPairs env node i (p :: rest) =
              sitesFromPairs env node i rest := by
            unfold sitesFromPairs
            rw [List.filter_cons]
            have : (p.2.argExists && p.2.id == i) = false := by
              have : (p.2.id == i) = false := by
                cases hdec : (p.2.id == i)
                · rfl
                · exact absurd (eq_of_beq hdec) hip
              rw [this, Bool.and_false]
            rw [this]
            simp
          rw [hsp]
      · rw [if_neg hcond] at hl1
        subst hl1
        refine ⟨ihlen, ?_⟩
        intro i hi
        rw [ihget i hi]
        by_cases hwin : env.initializers.any (fun w => w.id == i) = true
        · rw [if_pos hwin, if_pos hwin]
          have hsp : sitesFromPairs env node i (p :: rest) =
              sitesFromPairs env node i rest := by
            unfold sitesFromPairs
            rw [List.filter_cons]
            have hpred : (p.2.argExists && p.2.id == i) = false := by
              by_cases hip : p.2.id = i
              · have hcond2 : (p.2.argExists &&
                    env.initializers.any (fun w => w.id == p.2.id)) = true ∨
                    p.2.argExists = false := by
                  cases hae : p.2.argExists
                  · exact Or.inr rfl
                  · refine Or.inl ?_
                    rw [Bool.true_and]
                    rw [hip]
                    exact hwin
                rcases hcond2 with hcc | hcc
                · exact absurd hcc hcond
                · rw [hcc, Bool.false_and]
              · have : (p.2.id == i) = false := by
                  cases hdec : (p.2.id == i)
                  · rfl
                  · exact absurd (eq_of_beq hdec) hip
                rw [this, Bool.and_false]
            rw [hpred]
            simp
          rw [hsp]
        · rw [if_neg hwin, if_neg hwin]

theorem gatherWeightLocations_fold_ok (env : PlanEnv) :
    ∀ (ns : List Node) (locs locs' : List (List MemInfo)),
      ns.foldlM (gatherWeightNode env) locs = Except.ok locs' →
      locs'.length = locs.length ∧
      ∀ i, i < locs.length →
        locs'.getD i [] = locs.getD i [] ++
          (if env.initializers.any (fun w => w.id == i) then
            (ns.map (fun n => sitesFromPairs env n i n.inputDefs.enum)).flatten
          else []) := by
  intro ns
  induction ns with
  | nil =>
    intro locs locs' h
    cases h
    refine ⟨rfl, ?_⟩
    intro i _
    by_cases hw : env.initializers.any (fun w => w.id == i) = true <;>
      simp [hw]
  | cons n rest ih =>
    intro locs locs' h
    rw [List.foldlM_cons] at h
    cases hn : gatherWeightNode env locs n with
    | error e =>
      rw [hn] at h
      cases h
    | ok locs1 =>
      rw [hn] at h
      have h2 : rest.foldlM (gatherWeightNode env) locs1 = Except.ok locs' := h
      obtain ⟨hlen1, hget1⟩ :=
        gatherWeightNode_fold_ok env n n.inputDefs.enum locs locs1 hn
      obtain ⟨ihlen, ihget⟩ := ih locs1 locs' h2
      refine ⟨by rw [ihlen, hlen1], ?_⟩
      intro i hi
      have hi1 : i < locs1.length := by rw [hlen1]; exact hi
      rw [ihget i hi1, hget1 i hi, List.map_cons, List.flatten_cons]
      by_cases hw : env.initializers.any (fun w => w.id == i) = true
      · rw [if_pos hw, if_pos hw, if_pos hw, List.append_assoc]
      · rw [if_neg hw, if_neg hw, if_neg hw]
        simp

theorem getD_replicate {α : Type} (n i : Nat) (d : α) :
    (List.replicate n d).getD i d = d := by
  induction n generalizing i with
  | zero => rfl
  | succ m ih =>
    cases i with
    | zero => rfl
    | succ j => exact ih j

theorem applyWeightStep_getPlan_ne (env : PlanEnv) (locs : List (List MemInfo))
    (s : PlannerState) (j i : Nat) (h : j ≠ i) :
    getPlan (applyWeightStep env locs s j) i = getPlan s i := by
  unfold applyWeightStep
  cases locs.getD j [] with
  | nil => rfl
  | cons l0 ls => exact getPlan_setPlan_ne _ _ _ _ h

theorem applyWeightStep_length (env : PlanEnv) (locs : List (List MemInfo))
    (s : PlannerState) (j : Nat) :
    (applyWeightStep env locs s j).allocationPlan.length =
      s.allocationPlan.length := by
  unfold applyWeightStep
  cases locs.getD j [] with
  | nil => rfl
  | cons l0 ls => exact allocationPlan_length_setPlan _ _ _

theorem applyFold_notmem (env : PlanEnv) (locs : List (List MemInfo)) :
    ∀ (idxs : List Nat) (s : PlannerState) (i : Nat), i ∉ idxs →
      getPlan (idxs.foldl (applyWeightStep env locs) s) i = getPlan s i := by
  intro idxs
  induction idxs with
  | nil => intro s i _; rfl
  | cons j rest ih =>
    intro s i hi
    rw [List.foldl_cons]
    rw [ih (applyWeightStep env locs s j) i (fun hh => hi (List.mem_cons_of_mem _ hh))]
    exact applyWeightStep_getPlan_ne env locs s j i
      (fun hh => hi (by rw [hh]; exact List.mem_cons_self _ _))

theorem applyFold_mem (env : PlanEnv) (locs : List (List MemInfo)) :
    ∀ (idxs : List Nat) (s : PlannerState) (i : Nat), idxs.Nodup → i ∈ idxs →
      i < s.allocationPlan.length →
      getPlan (idxs.foldl (applyWeightStep env locs) s) i =
        match locs.getD i [] with
        | [] => getPlan s i
        | l0 :: _ =>
          { getPlan s i with
            allocKind := AllocKind.kAllocateStatically,
            location :=
              if (locs.getD i []).any (fun l => !(l == l0)) then
                env.defaultCpuMemoryInfo
              else l0 } := by
  intro idxs
  induction idxs with
  | nil =>
    intro s i _ hi _
    cases hi
  | cons j rest ih =>
    intro s i hnodup hi hb
    rw [List.nodup_cons] at hnodup
    rw [List.foldl_cons]
    rcases List.mem_cons.mp hi with hcase | hcase
    · subst hcase
      rw [applyFold_notmem env locs rest _ i hnodup.1]
      unfold applyWeightStep
      cases hl : locs.getD i [] with
      | nil => rfl
      | cons l0 ls =>
        rw [getPlan_setPlan_self _ _ _ hb]
    · have hji : j ≠ i := by
        intro hh
        rw [hh] at hnodup
        exact hnodup.1 hcase
      have hb' : i < (applyWeightStep env locs s j).allocationPlan.length := by
        rw [applyWeightStep_length]
        exact hb
      rw [ih (applyWeightStep env locs s j) i hnodup.2 hcase hb']
      rw [applyWeightStep_getPlan_ne env locs s j i hji]

/-- C6 amended: for every value index, if the set of node-sites consuming
it as a present declared input of some node while being an initializer is
empty (in particular for initializers consumed only implicitly), its plan
entry is untouched by the weight pass; if that site set is non-empty, the
pass marks it allocate-statically and places it at the common site
location, falling back to the default CPU device when any two sites
disagree. -/
theorem claimC6_amended_weight_placement (env : PlanEnv) (st st' : PlannerState)
    (h : GeneratePlanForWeights env st = Except.ok st')
    (i : OrtValueIndex) (hi : i < st.allocationPlan.length) :
    (specWeightSites env i = [] → getPlan st' i = getPlan st i) ∧
    (∀ l0 ls, specWeightSites env i = l0 :: ls →
      (getPlan st' i).allocKind = AllocKind.kAllocateStatically ∧
      (getPlan st' i).location =
        (if (l0 :: ls).any (fun l => !(l == l0)) then env.defaultCpuMemoryInfo
         else l0)) := by
  unfold GeneratePlanForWeights at h
  cases hg : gatherWeightLocations env st with
  | error e =>
    rw [hg] at h
    cases h
  | ok locs =>
    rw [hg] at h
    have hst' : st' = applyWeightLocations env st locs := by
      have h2 : (pure (applyWeightLocations env st locs) :
          Except String PlannerState) = Except.ok st' := h
      injection h2 with h3
      exact h3.symm
    obtain ⟨hlen, hget⟩ := gatherWeightLocations_fold_ok env
      env.nodesInTopologicalOrder
      (List.replicate st.allocationPlan.length ([] : List MemInfo)) locs hg
    have hlen' : locs.length = st.allocationPlan.length := by
      rw [hlen, List.length_replicate]
    have hi' : i < (List.replicate st.allocationPlan.length
        ([] : List MemInfo)).length := by
      rw [List.length_replicate]
      exact hi
    have hgetI : locs.getD i [] = specWeightSites env i := by
      rw [hget i hi', getD_replicate, List.nil_append]
      unfold specWeightSites
      rfl
    have happly : getPlan st' i =
        match locs.getD i [] with
        | [] => getPlan st i
        | l0 :: _ =>
          { getPlan st i with
            allocKind := AllocKind.kAllocateStatically,
            location :=
              if (locs.getD i []).any (fun l => !(l == l0)) then
                env.defaultCpuMemoryInfo
              else l0 } := by
      rw [hst']
      unfold applyWeightLocations
      exact applyFold_mem env locs (List.range locs.length) st i
        (List.nodup_range _) (List.mem_range.mpr (by rw [hlen']; exact hi)) hi
    constructor
    · intro hempty
      rw [happly, hgetI, hempty]
    · intro l0 ls hcons
      rw [happly, hgetI, hcons]
      exact ⟨rfl, rfl⟩

/-- A graph whose initializer 0 is consumed as the declared input of one
node. -/
def envWeight2 : PlanEnv :=
  { numValues := 2,
    graphInputs := [],
    graphInputsIncludingInitializers := [tArg 0],
    outerScopeNodeArgs := [],
    initializers := [tArg 0],
    graphOutputs := [tArg 1],
    nodesInTopologicalOrder := [⟨0, "Gemm", [tArg 0], [], [tArg 1]⟩],
    maxNodeIndex := 1,
    searchKernel := fun _ => some plainKernel,
    getShape := fun a => if a.argExists then some shape4 else none,
    allocInfo := fun _ _ => 0,
    defaultCpuMemoryInfo := 0,
    isParallel := false,
    parentNode := none }

/-- The weight pass's result on the fresh state of `envWeight2`. -/
def stWeight2 : PlannerState :=
  (GeneratePlanForWeights envWeight2 (initializeState envWeight2)).toOption.getD
    (initializeState envWeight2)

/-- Witness for the amended C6 on a concrete initializer with one site. -/
theorem claimC6_amended_witness :
    (specWeightSites envWeight2 0 = [] →
      getPlan stWeight2 0 = getPlan (initializeState envWeight2) 0) ∧
    (∀ l0 ls, specWeightSites envWeight2 0 = l0 :: ls →
      (getPlan stWeight2 0).allocKind = AllocKind.kAllocateStatically ∧
      (getPlan stWeight2 0).location =
        (if (l0 :: ls).any (fun l => !(l == l0)) then
          envWeight2.defaultCpuMemoryInfo
        else l0)) :=
  claimC6_amended_weight_placement envWeight2 (initializeState envWeight2)
    stWeight2 rfl 0 (by decide)

/-! Well-formed graphs, and the reuse-plan invariant shared by claims C2
and C5. -/

/-- The ids of a node's present outputs, in declaration order. -/
def outIdsOf (n : Node) : List Nat :=
  (n.outputDefs.filter (fun a => a.argExists)).map (fun a => a.id)

/-- The ids of the present outputs of a list of nodes. -/
def outIds (ns : List Node) : List Nat := (ns.map outIdsOf).flatten

/-- The decrement events of one reuse-plan step, in the order the source
performs them: present inputs, then present implicit inputs, then present
outputs. -/
def decEvents (n : Node) : List Nat :=
  ((n.inputDefs.filter (fun a => a.argExists)) ++
    (n.implicitInputDefs.filter (fun a => a.argExists)) ++
    (n.outputDefs.filter (fun a => a.argExists))).map (fun a => a.id)

/-- All decrement events of a list of steps. -/
def allEvents (ns : List Node) : List Nat := (ns.map decEvents).flatten

/-- The ids carrying a sentinel use: graph inputs, outer-scope args,
initializers (one each at registration) and graph outputs (one each at
the end of the use-count pass), with multiplicity. -/
def sentinelIds (env : PlanEnv) : List Nat :=
  (env.graphInputs ++ env.outerScopeNodeArgs ++ env.initializers ++
    env.graphOutputs).map (fun a => a.id)

/-- The ids defined before any node runs. -/
def preIds (env : PlanEnv) : List Nat :=
  (env.graphInputs ++ env.outerScopeNodeArgs ++ env.initializers).map
    (fun a => a.id)

/-- Each node consumes only values defined before it (topological
consumption). -/
def consumedOkB (defined : List Nat) : List Node → Bool
  | [] => true
  | n :: rest =>
    ((n.inputDefs ++ n.implicitInputDefs).all
      (fun a => !a.argExists || defined.contains a.id)) &&
    consumedOkB (defined ++ outIdsOf n) rest

/-- Well-formedness of a planning instance: ids in range, single
definition per value, every value defined, topological consumption, and
unique node indices. -/
def wfEnv (env : PlanEnv) : Prop :=
  (∀ a ∈ env.graphInputs ++ env.outerScopeNodeArgs ++ env.initializers ++
      env.graphOutputs, a.id < env.numValues) ∧
  (∀ n ∈ env.nodesInTopologicalOrder,
    ∀ a ∈ n.inputDefs ++ n.implicitInputDefs ++ n.outputDefs,
      a.id < env.numValues) ∧
  (preIds env ++ outIds env.nodesInTopologicalOrder).Nodup ∧
  (∀ v ∈ List.range env.numValues,
    v ∈ preIds env ++ outIds env.nodesInTopologicalOrder) ∧
  consumedOkB (preIds env) env.nodesInTopologicalOrder = true ∧
  (env.nodesInTopologicalOrder.map (fun n => n.nodeIndex)).Nodup

/-- The number of entries of `l` whose root buffer in `st` is `v`. -/
def rootHits (st : PlannerState) (l : List Nat) (v : Nat) : Nat :=
  (l.filter (fun w => Buffer st w == v)).length

/-- The invariant maintained through reuse planning.  `F` lists the ids of
not-yet-planned ("future") outputs, `E` the remaining decrement events. -/
structure PlanInv (env : PlanEnv) (st : PlannerState) (F : List Nat)
    (E : List Nat) : Prop where
  lenInfo : st.ortValueInfo.length = env.numValues
  lenPlan : st.allocationPlan.length = env.numValues
  bufLt : ∀ v, v < env.numValues → Buffer st v < env.numValues
  bufRoot : ∀ v, v < env.numValues → Buffer st (Buffer st v) = Buffer st v
  reuseRec : ∀ v, v < env.numValues →
    ((getPlan st v).allocKind = AllocKind.kReuse ∨
      (getPlan st v).allocKind = AllocKind.kShare) →
    (getPlan st v).reusedBuffer = Buffer st v
  nodupF : F.Nodup
  freshLt : ∀ c ∈ F, c < env.numValues
  freshSelf : ∀ c ∈ F, Buffer st c = c
  freshOnly : ∀ c ∈ F, ∀ v, v < env.numValues → Buffer st v = c → v = c
  freeLt : ∀ e ∈ st.freelist, e.mlValue < env.numValues
  freeNotF : ∀ e ∈ st.freelist, e.mlValue ∉ F
  freeNotSent : ∀ e ∈ st.freelist, e.mlValue ∉ sentinelIds env
  preExNotF : ∀ v, (getPlan st v).allocKind = AllocKind.kPreExisting → v ∉ F
  countGe : ∀ v, v < env.numValues →
    (rootHits st (sentinelIds env) v : Int) + rootHits st E v ≤ UseCount st v

theorem rootHits_congr (st1 st2 : PlannerState) (l : List Nat) (v : Nat)
    (h : ∀ w ∈ l, Buffer st1 w = Buffer st2 w) :
    rootHits st1 l v = rootHits st2 l v := by
  unfold rootHits
  congr 1
  apply List.filter_congr
  intro w hw
  rw [h w hw]

theorem rootHits_cons (st : PlannerState) (w : Nat) (l : List Nat) (v : Nat) :
    rootHits st (w :: l) v =
      (if Buffer st w = v then 1 else 0) + rootHits st l v := by
  unfold rootHits
  rw [List.filter_cons]
  by_cases h : Buffer st w = v
  · have hb : (Buffer st w == v) = true := by rw [h]; simp
    rw [if_pos h, hb]
    simp [Nat.add_comm]
  · have hb : (Buffer st w == v) = false := by
      cases hd : (Buffer st w == v)
      · rfl
      · exact absurd (eq_of_beq hd) h
    rw [if_neg h, hb]
    simp

theorem rootHits_pos (st : PlannerState) (l : List Nat) (v : Nat)
    (hv : v ∈ l) (hroot : Buffer st v = v) : 0 < rootHits st l v := by
  unfold rootHits
  have : v ∈ l.filter (fun w => Buffer st w == v) := by
    rw [List.mem_filter]
    exact ⟨hv, by rw [hroot]; simp⟩
  exact List.length_pos.mpr (List.ne_nil_of_mem this)

/-- Splitting a root-hit count at the single id `c` whose buffer pointer
two states disagree on. -/
theorem rootHits_update (st1 st2 : PlannerState) (l : List Nat) (c : Nat)
    (h : ∀ w, w ≠ c → Buffer st1 w = Buffer st2 w) (v : Nat) :
    rootHits st1 l v + (if Buffer st2 c = v then l.count c else 0) =
      rootHits st2 l v + (if Buffer st1 c = v then l.count c else 0) := by
  induction l with
  | nil => simp [rootHits]
  | cons w rest ih =>
    by_cases hwc : w = c
    · subst hwc
      have ihh := ih
      by_cases h1 : Buffer st1 w = v <;> by_cases h2 : Buffer st2 w = v <;>
        simp [rootHits_cons, List.count_cons, h1, h2] at ihh ⊢ <;> omega
    · have hbeq : (c == w) = false := by
        cases hd : (c == w)
        · rfl
        · exact absurd (eq_of_beq hd).symm hwc
      have hbeq2 : (w == c) = false := by
        cases hd : (w == c)
        · rfl
        · exact absurd (eq_of_beq hd) hwc
      have ihh := ih
      rw [rootHits_cons, rootHits_cons, h w hwc]
      simp only [List.count_cons, hbeq, hbeq2, Bool.false_eq_true, if_false,
        Nat.add_zero]
      omega

theorem Buffer_setUseCount (st : PlannerState) (n : OrtValueIndex) (c : Int)
    (m : OrtValueIndex) : Buffer (setUseCount st n c) m = Buffer st m := by
  unfold setUseCount Buffer
  by_cases hn : n < st.ortValueInfo.length
  · by_cases hm : n = m
    · subst hm
      rw [getInfo_setInfo_self _ _ _ hn]
    · rw [getInfo_setInfo_ne _ _ _ _ hm]
  · unfold setInfo getInfo
    rw [List.set_eq_of_length_le (Nat.le_of_not_lt hn)]

theorem UseCount_setUseCount_self (st : PlannerState) (n : OrtValueIndex)
    (c : Int) (hn : n < st.ortValueInfo.length) :
    UseCount (setUseCount st n c) n = c := by
  unfold setUseCount UseCount
  rw [getInfo_setInfo_self _ _ _ hn]

theorem UseCount_setUseCount_ne (st : PlannerState) (n : OrtValueIndex)
    (c : Int) (m : OrtValueIndex) (hm : n ≠ m) :
    UseCount (setUseCount st n c) m = UseCount st m := by
  unfold setUseCount UseCount
  rw [getInfo_setInfo_ne _ _ _ _ hm]

theorem UseCount_setInfoReused (st : PlannerState) (f : OrtValueIndex)
    (r : OrtValueIndex) (m : OrtValueIndex) :
    UseCount (setInfo st f { getInfo st f with reusedBufferIndex := r }) m =
      UseCount st m := by
  unfold UseCount
  by_cases hf : f < st.ortValueInfo.length
  · by_cases hm : f = m
    · subst hm
      rw [getInfo_setInfo_self _ _ _ hf]
    · rw [getInfo_setInfo_ne _ _ _ _ hm]
  · unfold setInfo getInfo
    rw [List.set_eq_of_length_le (Nat.le_of_not_lt hf)]

theorem Buffer_setInfoReused_self (st : PlannerState) (f : OrtValueIndex)
    (r : OrtValueIndex) (hf : f < st.ortValueInfo.length) :
    Buffer (setInfo st f { getInfo st f with reusedBufferIndex := r }) f = r := by
  unfold Buffer
  rw [getInfo_setInfo_self _ _ _ hf]

theorem Buffer_setInfoReused_ne (st : PlannerState) (f : OrtValueIndex)
    (r : OrtValueIndex) (m : OrtValueIndex) (hm : f ≠ m) :
    Buffer (setInfo st f { getInfo st f with reusedBufferIndex := r }) m =
      Buffer st m := by
  unfold Buffer
  rw [getInfo_setInfo_ne _ _ _ _ hm]

theorem lenInfo_setInfo (st : PlannerState) (n : OrtValueIndex) (i : OrtValueInfo) :
    (setInfo st n i).ortValueInfo.length = st.ortValueInfo.length := by
  simp [setInfo]

theorem Buffer_ReuseValue (st : PlannerState) (r f : OrtValueIndex) (k : AllocKind)
    (m : OrtValueIndex) (hf : f < st.ortValueInfo.length) :
    Buffer (ReuseValue st r f k) m = if m = f then Buffer st r else Buffer st m := by
  unfold ReuseValue
  rw [Buffer_setPlan, Buffer_setUseCount]
  by_cases hm : m = f
  · subst hm
    rw [if_pos rfl]
    exact Buffer_setInfoReused_self st m (Buffer st r) hf
  · rw [if_neg hm]
    exact Buffer_setInfoReused_ne st f (Buffer st r) m (fun h => hm h.symm)

theorem UseCount_ReuseValue (st : PlannerState) (r f : OrtValueIndex)
    (k : AllocKind) (m : OrtValueIndex)
    (ho : Buffer st r < st.ortValueInfo.length) :
    UseCount (ReuseValue st r f k) m =
      if m = Buffer st r then UseCount st m + UseCount st f
      else UseCount st m := by
  unfold ReuseValue
  rw [UseCount_setPlan]
  have h1 : ∀ x, UseCount
      (setInfo st f { getInfo st f with reusedBufferIndex := Buffer st r }) x =
      UseCount st x := fun x => UseCount_setInfoReused st f (Buffer st r) x
  have hlen : (setInfo st f { getInfo st f with
      reusedBufferIndex := Buffer st r }).ortValueInfo.length =
      st.ortValueInfo.length := lenInfo_setInfo _ _ _
  by_cases hm : m = Buffer st r
  · subst hm
    rw [if_pos rfl]
    rw [UseCount_setUseCount_self _ _ _ (by rw [hlen]; exact ho)]
    rw [h1, h1]
  · rw [if_neg hm]
    rw [UseCount_setUseCount_ne _ _ _ _ (fun h => hm h.symm), h1]

theorem freelist_ReuseValue (st : PlannerState) (r f : OrtValueIndex)
    (k : AllocKind) : (ReuseValue st r f k).freelist = st.freelist := rfl

theorem lenInfo_ReuseValue (st : PlannerState) (r f : OrtValueIndex)
    (k : AllocKind) :
    (ReuseValue st r f k).ortValueInfo.length = st.ortValueInfo.length := by
  unfold ReuseValue setPlan setUseCount setInfo
  simp

theorem lenPlan_ReuseValue (st : PlannerState) (r f : OrtValueIndex)
    (k : AllocKind) :
    (ReuseValue st r f k).allocationPlan.length = st.allocationPlan.length := by
  unfold ReuseValue setPlan setUseCount setInfo
  simp

theorem getPlan_ReuseValue_ne (st : PlannerState) (r f : OrtValueIndex)
    (k : AllocKind) (m : OrtValueIndex) (hm : f ≠ m) :
    getPlan (ReuseValue st r f k) m = getPlan st m := by
  unfold ReuseValue
  rw [getPlan_setPlan_ne _ _ _ _ hm]
  rfl

theorem rootHits_of_fresh (st : PlannerState) (l : List Nat) (c : Nat)
    (h1 : Buffer st c = c) (h2 : ∀ w ∈ l, Buffer st w = c → w = c) :
    rootHits st l c = l.count c := by
  induction l with
  | nil => rfl
  | cons w rest ih =>
    rw [rootHits_cons, List.count_cons]
    have htail := ih (fun w hw => h2 w (List.mem_cons_of_mem _ hw))
    by_cases hwc : w = c
    · subst hwc
      rw [if_pos h1, htail]
      simp [Nat.add_comm]
    · have hb : Buffer st w ≠ c := fun hh => hwc (h2 w (List.mem_cons_self _ _) hh)
      have hbeq : (w == c) = false := by
        cases hd : (w == c)
        · rfl
        · exact absurd (eq_of_beq hd) hwc
      rw [if_neg hb, htail, hbeq]
      simp

theorem rootHits_zero (st : PlannerState) (l : List Nat) (v : Nat)
    (h : ∀ w ∈ l, Buffer st w ≠ v) : rootHits st l v = 0 := by
  induction l with
  | nil => rfl
  | cons w rest ih =>
    rw [rootHits_cons, if_neg (h w (List.mem_cons_self _ _)), Nat.zero_add]
    exact ih (fun w hw => h w (List.mem_cons_of_mem _ hw))

theorem ReuseValue_inv (env : PlanEnv) (st : PlannerState) (c : Nat)
    (F E : List Nat) (reused : Nat) (k : AllocKind)
    (hk : k = AllocKind.kReuse ∨ k = AllocKind.kShare)
    (hInv : PlanInv env st (c :: F) E)
    (hrlt : reused < env.numValues)
    (hrF : reused ∉ (c :: F))
    (hSentLt : ∀ w ∈ sentinelIds env, w < env.numValues)
    (hELt : ∀ w ∈ E, w < env.numValues) :
    PlanInv env (ReuseValue st reused c k) F E := by
  have hcN : c < env.numValues := hInv.freshLt c (List.mem_cons_self _ _)
  have hcF : c ∉ F := (List.nodup_cons.mp hInv.nodupF).1
  have hFnodup : F.Nodup := (List.nodup_cons.mp hInv.nodupF).2
  have hrN : Buffer st reused < env.numValues := hInv.bufLt reused hrlt
  have hrnotCF : Buffer st reused ∉ (c :: F) := by
    intro hmem
    have heq := hInv.freshOnly (Buffer st reused) hmem reused hrlt rfl
    exact hrF (by rw [heq]; exact hmem)
  have hrc : Buffer st reused ≠ c := by
    intro h
    exact hrnotCF (by rw [h]; exact List.mem_cons_self _ _)
  have hfInfo : c < st.ortValueInfo.length := by
    rw [hInv.lenInfo]
    exact hcN
  have hfPlan : c < st.allocationPlan.length := by
    rw [hInv.lenPlan]
    exact hcN
  have hBuf : ∀ m, Buffer (ReuseValue st reused c k) m =
      if m = c then Buffer st reused else Buffer st m :=
    fun m => Buffer_ReuseValue st reused c k m hfInfo
  have hCnt : ∀ m, UseCount (ReuseValue st reused c k) m =
      if m = Buffer st reused then UseCount st m + UseCount st c
      else UseCount st m :=
    fun m => UseCount_ReuseValue st reused c k m (by
      rw [hInv.lenInfo]
      exact hrN)
  have hPlanSelf : getPlan (ReuseValue st reused c k) c =
      { getPlan st c with allocKind := k, reusedBuffer := Buffer st reused } :=
    getPlan_ReuseValue_self st reused c k hfPlan
  have hBcc : Buffer st c = c := hInv.freshSelf c (List.mem_cons_self _ _)
  refine ⟨?_, ?_, ?_, ?_, ?_, hFnodup, ?_, ?_, ?_, ?_, ?_, ?_, ?_, ?_⟩
  · rw [lenInfo_ReuseValue]
    exact hInv.lenInfo
  · rw [lenPlan_ReuseValue]
    exact hInv.lenPlan
  · intro v hv
    rw [hBuf v]
    by_cases hvc : v = c
    · rw [if_pos hvc]
      exact hrN
    · rw [if_neg hvc]
      exact hInv.bufLt v hv
  · intro v hv
    rw [hBuf v]
    by_cases hvc : v = c
    · rw [if_pos hvc, hBuf (Buffer st reused), if_neg hrc]
      exact hInv.bufRoot reused hrlt
    · rw [if_neg hvc]
      have hbc : Buffer st v ≠ c := by
        intro hh
        exact hvc (hInv.freshOnly c (List.mem_cons_self _ _) v hv hh)
      rw [hBuf (Buffer st v), if_neg hbc]
      exact hInv.bufRoot v hv
  · intro v hv hkind
    by_cases hvc : v = c
    · subst hvc
      rw [hPlanSelf]
      rw [hBuf v, if_pos rfl]
    · rw [getPlan_ReuseValue_ne _ _ _ _ _ (fun h => hvc h.symm)] at hkind ⊢
      rw [hBuf v, if_neg hvc]
      exact hInv.reuseRec v hv hkind
  · intro c' h
    exact hInv.freshLt c' (List.mem_cons_of_mem _ h)
  · intro c' h
    have hc'c : c' ≠ c := fun heq => hcF (heq ▸ h)
    rw [hBuf c', if_neg hc'c]
    exact hInv.freshSelf c' (List.mem_cons_of_mem _ h)
  · intro c' h v hv hbv
    rw [hBuf v] at hbv
    by_cases hvc : v = c
    · rw [if_pos hvc] at hbv
      exact absurd (by rw [hbv]; exact List.mem_cons_of_mem _ h) hrnotCF
    · rw [if_neg hvc] at hbv
      exact hInv.freshOnly c' (List.mem_cons_of_mem _ h) v hv hbv
  · intro e he
    rw [freelist_ReuseValue] at he
    exact hInv.freeLt e he
  · intro e he
    rw [freelist_ReuseValue] at he
    exact fun hmem => hInv.freeNotF e he (List.mem_cons_of_mem _ hmem)
  · intro e he
    rw [freelist_ReuseValue] at he
    exact hInv.freeNotSent e he
  · intro v hkind
    by_cases hvc : v = c
    · subst hvc
      rw [hPlanSelf] at hkind
      rcases hk with hk | hk <;> rw [hk] at hkind <;> cases hkind
    · rw [getPlan_ReuseValue_ne _ _ _ _ _ (fun h => hvc h.symm)] at hkind
      exact fun hmem => hInv.preExNotF v hkind (List.mem_cons_of_mem _ hmem)
  · intro v hv
    rw [hCnt v]
    have hneq : ∀ w, w ≠ c →
        Buffer (ReuseValue st reused c k) w = Buffer st w := by
      intro w hw
      rw [hBuf w, if_neg hw]
    have hBc' : Buffer (ReuseValue st reused c k) c = Buffer st reused := by
      rw [hBuf c, if_pos rfl]
    have hS := rootHits_update (ReuseValue st reused c k) st
      (sentinelIds env) c hneq v
    have hE := rootHits_update (ReuseValue st reused c k) st E c hneq v
    rw [hBcc, hBc'] at hS hE
    have hgc := hInv.countGe c hcN
    have hgv := hInv.countGe v hv
    have hSc : rootHits st (sentinelIds env) c = (sentinelIds env).count c :=
      rootHits_of_fresh st _ c hBcc
        (fun w hw => hInv.freshOnly c (List.mem_cons_self _ _) w (hSentLt w hw))
    have hEc : rootHits st E c = E.count c :=
      rootHits_of_fresh st _ c hBcc
        (fun w hw => hInv.freshOnly c (List.mem_cons_self _ _) w (hELt w hw))
    by_cases hvr : v = Buffer st reused
    · rw [if_pos hvr]
      subst hvr
      rw [if_neg (fun h : c = Buffer st reused => hrc h.symm), if_pos rfl] at hS hE
      rw [hSc, hEc] at hgc
      omega
    · rw [if_neg hvr]
      by_cases hvc : v = c
      · have hvr' : Buffer st reused ≠ v := fun hh => hvr hh.symm
        have hz : rootHits (ReuseValue st reused c k) (sentinelIds env) v = 0 := by
          apply rootHits_zero
          intro w hw
          by_cases hwc : w = c
          · subst hwc
            rw [hBc']
            exact hvr'
          · rw [hneq w hwc]
            intro hh
            rw [hvc] at hh
            exact hwc (hInv.freshOnly c (List.mem_cons_self _ _) w (hSentLt w hw) hh)
        have hz2 : rootHits (ReuseValue st reused c k) E v = 0 := by
          apply rootHits_zero
          intro w hw
          by_cases hwc : w = c
          · subst hwc
            rw [hBc']
            exact hvr'
          · rw [hneq w hwc]
            intro hh
            rw [hvc] at hh
            exact hwc (hInv.freshOnly c (List.mem_cons_self _ _) w (hELt w hw) hh)
        rw [hz, hz2]
        omega
      · rw [if_neg (fun hh : c = v => hvc hh.symm), if_neg (fun hh :
          Buffer st reused = v => hvr hh.symm)] at hS hE
        omega

theorem PlanInv_setPlan (env : PlanEnv) (st : PlannerState) (F E : List Nat)
    (n : OrtValueIndex) (p : AllocPlanPerValue)
    (hInv : PlanInv env st F E)
    (hreu : (p.allocKind = AllocKind.kReuse ∨ p.allocKind = AllocKind.kShare) →
      p.reusedBuffer = Buffer st n)
    (hpre : p.allocKind = AllocKind.kPreExisting → n ∉ F) :
    PlanInv env (setPlan st n p) F E := by
  have hplan : ∀ m, getPlan (setPlan st n p) m =
      if n = m ∧ n < st.allocationPlan.length then p else getPlan st m :=
    fun m => getPlan_setPlan_cases st n p m
  refine ⟨hInv.lenInfo, ?_, hInv.bufLt, hInv.bufRoot, ?_, hInv.nodupF,
    hInv.freshLt, hInv.freshSelf, hInv.freshOnly, hInv.freeLt, hInv.freeNotF,
    hInv.freeNotSent, ?_, hInv.countGe⟩
  · rw [allocationPlan_length_setPlan]
    exact hInv.lenPlan
  · intro v hv hkind
    rw [hplan v] at hkind ⊢
    split at hkind
    · next hcase =>
      rw [if_pos hcase]
      have hB : Buffer (setPlan st n p) v = Buffer st v := rfl
      rw [hB, ← hcase.1]
      exact hreu hkind
    · next hcase =>
      rw [if_neg hcase]
      exact hInv.reuseRec v hv hkind
  · intro v hkind
    rw [hplan v] at hkind
    split at hkind
    · next hcase =>
      rw [← hcase.1]
      exact hpre hkind
    · exact hInv.preExNotF v hkind

theorem PlanInv_weaken_cons (env : PlanEnv) (st : PlannerState) (c : Nat)
    (F E : List Nat) (h : PlanInv env st (c :: F) E) : PlanInv env st F E :=
  ⟨h.lenInfo, h.lenPlan, h.bufLt, h.bufRoot, h.reuseRec,
   (List.nodup_cons.mp h.nodupF).2,
   fun c' hc => h.freshLt c' (List.mem_cons_of_mem _ hc),
   fun c' hc => h.freshSelf c' (List.mem_cons_of_mem _ hc),
   fun c' hc => h.freshOnly c' (List.mem_cons_of_mem _ hc),
   h.freeLt,
   fun e he hm => h.freeNotF e he (List.mem_cons_of_mem _ hm),
   h.freeNotSent,
   fun v hk hm => h.preExNotF v hk (List.mem_cons_of_mem _ hm),
   h.countGe⟩

theorem PlanInv_freelist (env : PlanEnv) (st : PlannerState) (F E : List Nat)
    (fl : List FreeBufferInfo) (h : PlanInv env st F E)
    (hsub : ∀ e ∈ fl, e ∈ st.freelist) :
    PlanInv env { st with freelist := fl } F E :=
  ⟨h.lenInfo, h.lenPlan, h.bufLt, h.bufRoot, h.reuseRec, h.nodupF, h.freshLt,
   h.freshSelf, h.freshOnly,
   fun e he => h.freeLt e (hsub e he),
   fun e he => h.freeNotF e (hsub e he),
   fun e he => h.freeNotSent e (hsub e he),
   h.preExNotF, h.countGe⟩

theorem lenInfo_setUseCount (st : PlannerState) (n : OrtValueIndex) (c : Int) :
    (setUseCount st n c).ortValueInfo.length = st.ortValueInfo.length := by
  simp [setUseCount, setInfo]

theorem PlanInv_freelist_cons (env : PlanEnv) (st : PlannerState) (F E : List Nat)
    (e : FreeBufferInfo) (h : PlanInv env st F E)
    (h1 : e.mlValue < env.numValues) (h2 : e.mlValue ∉ F)
    (h3 : e.mlValue ∉ sentinelIds env) :
    PlanInv env { st with freelist := e :: st.freelist } F E := by
  refine ⟨h.lenInfo, h.lenPlan, h.bufLt, h.bufRoot, h.reuseRec, h.nodupF,
    h.freshLt, h.freshSelf, h.freshOnly, ?_, ?_, ?_, h.preExNotF, h.countGe⟩
  · intro x hx
    rcases List.mem_cons.mp hx with hx | hx
    · rw [hx]
      exact h1
    · exact h.freeLt x hx
  · intro x hx
    rcases List.mem_cons.mp hx with hx | hx
    · rw [hx]
      exact h2
    · exact h.freeNotF x hx
  · intro x hx
    rcases List.mem_cons.mp hx with hx | hx
    · rw [hx]
      exact h3
    · exact h.freeNotSent x hx

theorem decrementUse_inv (env : PlanEnv) (st : PlannerState) (pc : Nat)
    (arg : NodeArg) (F E : List Nat)
    (hex : arg.argExists = true)
    (hlt : arg.id < env.numValues)
    (hnotF : arg.id ∉ F)
    (hInv : PlanInv env st F (arg.id :: E)) :
    PlanInv env (decrementUse st pc arg) F E := by
  have horigLt : Buffer st arg.id < env.numValues := hInv.bufLt arg.id hlt
  have hBroot : Buffer st (Buffer st arg.id) = Buffer st arg.id :=
    hInv.bufRoot arg.id hlt
  have hlenOrig : Buffer st arg.id < st.ortValueInfo.length := by
    rw [hInv.lenInfo]
    exact horigLt
  have hB1 : ∀ m, Buffer (setUseCount st (Buffer st arg.id)
      (UseCount st (Buffer st arg.id) - 1)) m = Buffer st m :=
    fun m => Buffer_setUseCount st _ _ m
  have hInv1 : PlanInv env (setUseCount st (Buffer st arg.id)
      (UseCount st (Buffer st arg.id) - 1)) F E := by
    refine ⟨?_, hInv.lenPlan, ?_, ?_, ?_, hInv.nodupF, hInv.freshLt, ?_, ?_,
      hInv.freeLt, hInv.freeNotF, hInv.freeNotSent, ?_, ?_⟩
    · rw [lenInfo_setUseCount]
      exact hInv.lenInfo
    · intro v hv
      rw [hB1 v]
      exact hInv.bufLt v hv
    · intro v hv
      rw [hB1 v, hB1 (Buffer st v)]
      exact hInv.bufRoot v hv
    · intro v hv hk
      have hk' : (getPlan st v).allocKind = AllocKind.kReuse ∨
          (getPlan st v).allocKind = AllocKind.kShare := hk
      rw [hB1 v]
      exact hInv.reuseRec v hv hk'
    · intro c hc
      rw [hB1 c]
      exact hInv.freshSelf c hc
    · intro c hc v hv hb
      rw [hB1 v] at hb
      exact hInv.freshOnly c hc v hv hb
    · intro v hk
      have hk' : (getPlan st v).allocKind = AllocKind.kPreExisting := hk
      exact hInv.preExNotF v hk'
    · intro v hv
      have hRH1 : rootHits (setUseCount st (Buffer st arg.id)
          (UseCount st (Buffer st arg.id) - 1)) (sentinelIds env) v =
          rootHits st (sentinelIds env) v :=
        rootHits_congr _ _ _ _ (fun w _ => hB1 w)
      have hRH2 : rootHits (setUseCount st (Buffer st arg.id)
          (UseCount st (Buffer st arg.id) - 1)) E v = rootHits st E v :=
        rootHits_congr _ _ _ _ (fun w _ => hB1 w)
      have hGe := hInv.countGe v hv
      rw [rootHits_cons] at hGe
      rw [hRH1, hRH2]
      by_cases hvo : v = Buffer st arg.id
      · rw [hvo] at hGe ⊢
        rw [UseCount_setUseCount_self st _ _ hlenOrig]
        rw [if_pos rfl] at hGe
        omega
      · rw [UseCount_setUseCount_ne st _ _ v (fun h => hvo h.symm)]
        split at hGe <;> omega
  have hred : decrementUse st pc arg =
      (if (UseCount st (Buffer st arg.id) - 1 == 0) = true then
        { setUseCount st (Buffer st arg.id) (UseCount st (Buffer st arg.id) - 1)
            with freelist := ⟨Buffer st arg.id, pc⟩ ::
              (setUseCount st (Buffer st arg.id)
                (UseCount st (Buffer st arg.id) - 1)).freelist }
       else setUseCount st (Buffer st arg.id)
         (UseCount st (Buffer st arg.id) - 1)) := by
    unfold decrementUse
    rw [hex]
    rfl
  rw [hred]
  by_cases hz : (UseCount st (Buffer st arg.id) - 1 == 0) = true
  · rw [if_pos hz]
    apply PlanInv_freelist_cons env _ F E _ hInv1 horigLt
    · intro hmem
      have heq := hInv.freshOnly (Buffer st arg.id) hmem arg.id hlt rfl
      exact hnotF (by rw [heq]; exact hmem)
    · intro hmem
      have hz' : UseCount st (Buffer st arg.id) = 1 := by
        have := eq_of_beq hz
        omega
      have hpos : 0 < rootHits st (sentinelIds env) (Buffer st arg.id) :=
        rootHits_pos st _ _ hmem hBroot
      have hGe := hInv.countGe (Buffer st arg.id) horigLt
      rw [rootHits_cons, if_pos rfl, hz'] at hGe
      omega
  · rw [if_neg hz]
    exact hInv1

theorem decrementUse_fold_inv (env : PlanEnv) (pc : Nat) (args : List NodeArg) :
    ∀ (st : PlannerState) (F E : List Nat),
    PlanInv env st F
      (((args.filter (fun a => a.argExists)).map (fun a => a.id)) ++ E) →
    (∀ a ∈ args, a.argExists = true → a.id < env.numValues) →
    (∀ a ∈ args, a.argExists = true → a.id ∉ F) →
    PlanInv env (args.foldl (fun s a => decrementUse s pc a) st) F E := by
  induction args with
  | nil =>
    intro st F E hInv _ _
    exact hInv
  | cons a rest ih =>
    intro st F E hInv hlt hnotF
    rw [List.foldl_cons]
    by_cases hex : a.argExists = true
    · have hfc : (a :: rest).filter (fun a => a.argExists) =
          a :: rest.filter (fun a => a.argExists) :=
        List.filter_cons_of_pos hex
      rw [hfc] at hInv
      have hInv' : PlanInv env st F
          (a.id :: (((rest.filter (fun a => a.argExists)).map
            (fun a => a.id)) ++ E)) := hInv
      exact ih (decrementUse st pc a) F E
        (decrementUse_inv env st pc a F _ hex
          (hlt a (List.mem_cons_self _ _) hex)
          (hnotF a (List.mem_cons_self _ _) hex) hInv')
        (fun b hb hbe => hlt b (List.mem_cons_of_mem _ hb) hbe)
        (fun b hb hbe => hnotF b (List.mem_cons_of_mem _ hb) hbe)
    · have hexf : a.argExists = false := by
        cases h : a.argExists
        · rfl
        · exact absurd h hex
      have hfc : (a :: rest).filter (fun a => a.argExists) =
          rest.filter (fun a => a.argExists) :=
        List.filter_cons_of_neg (by rw [hexf]; exact Bool.false_ne_true)
      rw [hfc] at hInv
      have hd : decrementUse st pc a = st := by
        unfold decrementUse
        rw [hexf]
        rfl
      rw [hd]
      exact ih st F E hInv
        (fun b hb hbe => hlt b (List.mem_cons_of_mem _ hb) hbe)
        (fun b hb hbe => hnotF b (List.mem_cons_of_mem _ hb) hbe)

theorem PlanInv_setValueType (env : PlanEnv) (st : PlannerState) (F E : List Nat)
    (n : OrtValueIndex) (t : DataTypeInfo) (hn : n < env.numValues)
    (hInv : PlanInv env st F E) :
    PlanInv env (setValueType st n t) F E := by
  apply PlanInv_setPlan env st F E n _ hInv
  · intro hk
    exact hInv.reuseRec n hn hk
  · intro hk
    exact hInv.preExNotF n hk

theorem PlanInv_setAllocKind (env : PlanEnv) (st : PlannerState) (F E : List Nat)
    (n : OrtValueIndex) (k : AllocKind)
    (hk1 : k ≠ AllocKind.kReuse) (hk2 : k ≠ AllocKind.kShare)
    (hk3 : k ≠ AllocKind.kPreExisting)
    (hInv : PlanInv env st F E) :
    PlanInv env (setAllocKind st n k) F E := by
  apply PlanInv_setPlan env st F E n _ hInv
  · intro hk
    rcases hk with h | h
    · exact absurd (show k = AllocKind.kReuse from h) hk1
    · exact absurd (show k = AllocKind.kShare from h) hk2
  · intro h
    exact absurd (show k = AllocKind.kPreExisting from h) hk3

theorem findAliasInput_mem (kd : KernelDef) (inputs : List NodeArg)
    (outputArgNum : Nat) (r : OrtValueIndex)
    (h : findAliasInput kd inputs outputArgNum = some r) :
    ∃ a ∈ inputs, a.argExists = true ∧ a.id = r := by
  obtain ⟨pair, _, hpair⟩ := List.exists_of_findSome?_eq_some h
  dsimp only at hpair
  split at hpair
  · split at hpair
    · split at hpair
      · next hcond hex =>
        have hlt : pair.1.toNat < inputs.length := by
          rw [Bool.and_eq_true] at hcond
          exact of_decide_eq_true hcond.2
        refine ⟨inputs.getD pair.1.toNat default, ?_, hex, Option.some.inj hpair⟩
        rw [List.getD_eq_getElem inputs default hlt]
        exact List.getElem_mem hlt
      · exact absurd hpair (by simp)
    · exact absurd hpair (by simp)
  · exact absurd hpair (by simp)

theorem findInplaceInput_mem (env : PlanEnv) (st : PlannerState) (kd : KernelDef)
    (inputs : List NodeArg) (pOutputArg : NodeArg) (outputArgNum : Nat)
    (r : OrtValueIndex)
    (h : findInplaceInput env st kd inputs pOutputArg outputArgNum = some r) :
    ∃ a ∈ inputs, a.argExists = true ∧ a.id = r := by
  obtain ⟨pair, _, hpair⟩ := List.exists_of_findSome?_eq_some h
  dsimp only at hpair
  split at hpair
  · split at hpair
    · split at hpair
      · next hcond hex =>
        split at hpair
        · have hlt : pair.1.toNat < inputs.length := by
            rw [Bool.and_eq_true] at hcond
            exact of_decide_eq_true hcond.2
          refine ⟨inputs.getD pair.1.toNat default, ?_, hex, Option.some.inj hpair⟩
          rw [List.getD_eq_getElem inputs default hlt]
          exact List.getElem_mem hlt
        · exact absurd hpair (by simp)
      · exact absurd hpair (by simp)
    · exact absurd hpair (by simp)
  · exact absurd hpair (by simp)

theorem FindReusableInput_mem (env : PlanEnv) (st : PlannerState) (node : Node)
    (outputArgNum : Nat) (r : OrtValueIndex)
    (h : FindReusableInput env st node outputArgNum = some r) :
    ∃ a ∈ node.inputDefs, a.argExists = true ∧ a.id = r := by
  unfold FindReusableInput at h
  split at h
  · exact absurd h (by simp)
  · dsimp only at h
    split at h
    · next halias =>
      exact findAliasInput_mem _ _ _ _ (by rw [halias, h])
    · exact findInplaceInput_mem env st _ _ _ _ _ h

theorem findReusableTensorScan_mem (env : PlanEnv) (st : PlannerState)
    (rs : TensorShapeProto) (rt : DataTypeInfo) (rm : MemInfo)
    (l : List FreeBufferInfo) (r : OrtValueIndex) (nf : List FreeBufferInfo)
    (h : findReusableTensorScan env st rs rt rm l = some (r, nf)) :
    (∃ e ∈ l, e.mlValue = r) ∧ (∀ x ∈ nf, x ∈ l) := by
  induction l generalizing r nf with
  | nil => exact absurd h (by rw [findReusableTensorScan]; simp)
  | cons e rest ih =>
    rw [findReusableTensorScan] at h
    dsimp only at h
    have hkeep : ∀ (hk : (match findReusableTensorScan env st rs rt rm rest with
        | some (rr, rest') => some (rr, e :: rest')
        | none => none) = some (r, nf)),
        (∃ x ∈ e :: rest, x.mlValue = r) ∧ (∀ x ∈ nf, x ∈ e :: rest) := by
      intro hk
      cases hrec : findReusableTensorScan env st rs rt rm rest with
      | none =>
        rw [hrec] at hk
        exact absurd hk (by simp)
      | some pr =>
        obtain ⟨rr, rest'⟩ := pr
        rw [hrec] at hk
        obtain ⟨hrr, hnf⟩ := Prod.mk.inj (Option.some.inj hk)
        obtain ⟨⟨x, hx, hxm⟩, hsub⟩ := ih rr rest' hrec
        refine ⟨⟨x, List.mem_cons_of_mem _ hx, by rw [hxm, hrr]⟩, ?_⟩
        intro y hy
        rw [← hnf] at hy
        rcases List.mem_cons.mp hy with hy | hy
        · rw [hy]
          exact List.mem_cons_self _ _
        · exact List.mem_cons_of_mem _ (hsub y hy)
    split at h
    · split at h
      · split at h
        · obtain ⟨h1, h2⟩ := Prod.mk.inj (Option.some.inj h)
          refine ⟨⟨e, List.mem_cons_self _ _, h1⟩, ?_⟩
          intro y hy
          rw [← h2] at hy
          exact List.mem_cons_of_mem _ hy
        · exact hkeep h
      · exact hkeep h
    · exact hkeep h

theorem FindReusableTensor_mem (env : PlanEnv) (st : PlannerState)
    (outputArg : NodeArg) (r : OrtValueIndex) (nf : List FreeBufferInfo)
    (h : FindReusableTensor env st outputArg = some (r, nf)) :
    (∃ e ∈ st.freelist, e.mlValue = r) ∧ (∀ x ∈ nf, x ∈ st.freelist) := by
  unfold FindReusableTensor at h
  split at h
  · exact absurd h (by simp)
  · exact findReusableTensorScan_mem env st _ _ _ _ _ _ h

theorem planNodeOutput_inv (env : PlanEnv) (node : Node) (argNum : Nat)
    (o : NodeArg) (st : PlannerState) (F E : List Nat)
    (hInv : PlanInv env st (o.id :: F) E)
    (hin : ∀ a ∈ node.inputDefs, a.argExists = true →
      a.id < env.numValues ∧ a.id ∉ (o.id :: F))
    (hSentLt : ∀ w ∈ sentinelIds env, w < env.numValues)
    (hELt : ∀ w ∈ E, w < env.numValues) :
    PlanInv env (planNodeOutput env node argNum o st) F E := by
  have hcN : o.id < env.numValues := hInv.freshLt _ (List.mem_cons_self _ _)
  have hInv1 : PlanInv env (setValueType st o.id o.ty) (o.id :: F) E :=
    PlanInv_setValueType env st _ E o.id o.ty hcN hInv
  by_cases hgo : env.graphOutputs.contains o = true
  · have hInv2 : PlanInv env
        (setAllocKind (setValueType st o.id o.ty) o.id AllocKind.kAllocateOutput)
        (o.id :: F) E :=
      PlanInv_setAllocKind env _ _ E o.id _ (by decide) (by decide) (by decide)
        hInv1
    cases hpn : env.parentNode with
    | none =>
      simp only [planNodeOutput, hgo, if_true, hpn]
      exact PlanInv_weaken_cons env _ o.id F E hInv2
    | some parent =>
      by_cases hid : (node.opType == "Identity" && parent.opType == "Loop") = true
      · by_cases hpre : ((getPlan (setAllocKind (setValueType st o.id o.ty) o.id
            AllocKind.kAllocateOutput)
            ((node.inputDefs.getD 0 default).id)).allocKind ==
            AllocKind.kPreExisting) = true
        · simp only [planNodeOutput, hgo, if_true, hpn, hid, hpre]
          have hpre' : (getPlan (setAllocKind (setValueType st o.id o.ty) o.id
              AllocKind.kAllocateOutput)
              ((node.inputDefs.getD 0 default).id)).allocKind =
              AllocKind.kPreExisting := eq_of_beq hpre
          have hnotCF : (node.inputDefs.getD 0 default).id ∉ (o.id :: F) :=
            hInv2.preExNotF _ hpre'
          have hltIn : (node.inputDefs.getD 0 default).id < env.numValues := by
            by_contra hge
            have hoob : getPlan (setAllocKind (setValueType st o.id o.ty) o.id
                AllocKind.kAllocateOutput)
                ((node.inputDefs.getD 0 default).id) = default := by
              apply getPlan_oob
              rw [hInv2.lenPlan]
              exact Nat.le_of_not_lt hge
            rw [hoob] at hpre'
            exact absurd hpre' (by decide)
          exact ReuseValue_inv env _ o.id F E _ AllocKind.kShare (Or.inr rfl)
            hInv2 hltIn hnotCF hSentLt hELt
        · have hpref : ((getPlan (setAllocKind (setValueType st o.id o.ty) o.id
              AllocKind.kAllocateOutput)
              ((node.inputDefs.getD 0 default).id)).allocKind ==
              AllocKind.kPreExisting) = false := by
            cases h : ((getPlan (setAllocKind (setValueType st o.id o.ty) o.id
                AllocKind.kAllocateOutput)
                ((node.inputDefs.getD 0 default).id)).allocKind ==
                AllocKind.kPreExisting)
            · rfl
            · exact absurd h hpre
          simp only [planNodeOutput, hgo, if_true, hpn, hid, hpref,
            Bool.false_eq_true, if_false]
          exact PlanInv_weaken_cons env _ o.id F E hInv2
      · have hidf : (node.opType == "Identity" && parent.opType == "Loop") =
            false := by
          cases h : (node.opType == "Identity" && parent.opType == "Loop")
          · rfl
          · exact absurd h hid
        simp only [planNodeOutput, hgo, if_true, hpn, hidf,
          Bool.false_eq_true, if_false]
        exact PlanInv_weaken_cons env _ o.id F E hInv2
  · have hgof : env.graphOutputs.contains o = false := by
      cases h : env.graphOutputs.contains o
      · rfl
      · exact absurd h hgo
    by_cases hnt : IsNonTensor o = true
    · simp only [planNodeOutput, hgof, Bool.false_eq_true, if_false, hnt,
        if_true]
      exact PlanInv_weaken_cons env _ o.id F E
        (PlanInv_setAllocKind env _ _ E o.id _ (by decide) (by decide)
          (by decide) hInv1)
    · have hntf : IsNonTensor o = false := by
        cases h : IsNonTensor o
        · rfl
        · exact absurd h hnt
      cases hfr : FindReusableInput env (setValueType st o.id o.ty) node argNum
        with
      | some reused =>
        simp only [planNodeOutput, hgof, Bool.false_eq_true, if_false, hntf,
          hfr]
        obtain ⟨a, ha, hae, haid⟩ :=
          FindReusableInput_mem env _ node argNum reused hfr
        obtain ⟨haN, haF⟩ := hin a ha hae
        rw [haid] at haN haF
        exact ReuseValue_inv env _ o.id F E reused AllocKind.kReuse (Or.inl rfl)
          hInv1 haN haF hSentLt hELt
      | none =>
        cases hpar : env.isParallel with
        | true =>
          simp only [planNodeOutput, hgof, Bool.false_eq_true, if_false, hntf,
            hfr, hpar, Bool.not_true]
          exact PlanInv_weaken_cons env _ o.id F E
            (PlanInv_setAllocKind env _ _ E o.id _ (by decide) (by decide)
              (by decide) hInv1)
        | false =>
          cases hft : FindReusableTensor env (setValueType st o.id o.ty) o with
          | none =>
            simp only [planNodeOutput, hgof, Bool.false_eq_true, if_false, hntf,
              hfr, hpar, Bool.not_false, if_true, hft]
            exact PlanInv_weaken_cons env _ o.id F E
              (PlanInv_setAllocKind env _ _ E o.id _ (by decide) (by decide)
                (by decide) hInv1)
          | some pr =>
            obtain ⟨reused, newFree⟩ := pr
            simp only [planNodeOutput, hgof, Bool.false_eq_true, if_false, hntf,
              hfr, hpar, Bool.not_false, if_true, hft]
            obtain ⟨⟨e, he, hme⟩, hsub⟩ :=
              FindReusableTensor_mem env _ o reused newFree hft
            have hInvF : PlanInv env
                { setValueType st o.id o.ty with freelist := newFree }
                (o.id :: F) E :=
              PlanInv_freelist env _ _ E newFree hInv1 hsub
            have hrN : reused < env.numValues := by
              rw [← hme]
              exact hInv1.freeLt e he
            have hrF : reused ∉ (o.id :: F) := by
              rw [← hme]
              exact hInv1.freeNotF e he
            exact ReuseValue_inv env _ o.id F E reused AllocKind.kReuse
              (Or.inl rfl) hInvF hrN hrF hSentLt hELt

theorem planNodeOutputsAux_inv (env : PlanEnv) (node : Node)
    (outs : List NodeArg) :
    ∀ (argNum : Nat) (st : PlannerState) (F E : List Nat),
    PlanInv env st
      (((outs.filter (fun a => a.argExists)).map (fun a => a.id)) ++ F) E →
    (∀ a ∈ node.inputDefs, a.argExists = true →
      a.id < env.numValues ∧
        a.id ∉ (((outs.filter (fun a => a.argExists)).map (fun a => a.id)) ++ F)) →
    (∀ w ∈ sentinelIds env, w < env.numValues) →
    (∀ w ∈ E, w < env.numValues) →
    PlanInv env (planNodeOutputsAux env node outs argNum st) F E := by
  induction outs with
  | nil =>
    intro argNum st F E hInv _ _ _
    exact hInv
  | cons o rest ih =>
    intro argNum st F E hInv hin hSentLt hELt
    by_cases hex : o.argExists = true
    · rw [List.filter_cons_of_pos hex] at hInv hin
      have hInv' : PlanInv env st
          (o.id :: (((rest.filter (fun a => a.argExists)).map
            (fun a => a.id)) ++ F)) E := hInv
      have hin' : ∀ a ∈ node.inputDefs, a.argExists = true →
          a.id < env.numValues ∧
            a.id ∉ (o.id :: (((rest.filter (fun a => a.argExists)).map
              (fun a => a.id)) ++ F)) := hin
      simp only [planNodeOutputsAux, hex, if_true]
      exact ih (argNum + 1) (planNodeOutput env node argNum o st) F E
        (planNodeOutput_inv env node argNum o st _ E hInv' hin' hSentLt hELt)
        (fun a ha hae => ⟨(hin' a ha hae).1,
          fun hmem => (hin' a ha hae).2 (List.mem_cons_of_mem _ hmem)⟩)
        hSentLt hELt
    · have hexf : o.argExists = false := by
        cases h : o.argExists
        · rfl
        · exact absurd h hex
      rw [List.filter_cons_of_neg
        (by rw [hexf]; exact Bool.false_ne_true)] at hInv hin
      simp only [planNodeOutputsAux, hexf, Bool.false_eq_true, if_false]
      exact ih argNum st F E hInv hin hSentLt hELt

theorem planStep_inv (env : PlanEnv) (pc : Nat) (node : Node)
    (st : PlannerState) (F E : List Nat)
    (hInv : PlanInv env st (outIdsOf node ++ F) (decEvents node ++ E))
    (hargLt : ∀ a ∈ node.inputDefs ++ node.implicitInputDefs ++ node.outputDefs,
      a.argExists = true → a.id < env.numValues)
    (hinNotF : ∀ a ∈ node.inputDefs ++ node.implicitInputDefs,
      a.argExists = true → a.id ∉ (outIdsOf node ++ F))
    (houtNotF : ∀ a ∈ node.outputDefs, a.argExists = true → a.id ∉ F)
    (hSentLt : ∀ w ∈ sentinelIds env, w < env.numValues)
    (hELt : ∀ w ∈ decEvents node ++ E, w < env.numValues) :
    PlanInv env (planStep env pc node st) F E := by
  have hE2 : decEvents node ++ E =
      ((node.inputDefs.filter (fun a => a.argExists)).map (fun a => a.id)) ++
        (((node.implicitInputDefs.filter (fun a => a.argExists)).map
          (fun a => a.id)) ++
          (((node.outputDefs.filter (fun a => a.argExists)).map
            (fun a => a.id)) ++ E)) := by
    rw [decEvents, List.map_append, List.map_append, List.append_assoc,
      List.append_assoc]
  have hInvA : PlanInv env st
      (((node.outputDefs.filter (fun a => a.argExists)).map (fun a => a.id)) ++ F)
      (((node.inputDefs.filter (fun a => a.argExists)).map (fun a => a.id)) ++
        (((node.implicitInputDefs.filter (fun a => a.argExists)).map
          (fun a => a.id)) ++
          (((node.outputDefs.filter (fun a => a.argExists)).map
            (fun a => a.id)) ++ E))) := by
    rw [← hE2]
    exact hInv
  have hELt2 : ∀ w ∈
      ((node.inputDefs.filter (fun a => a.argExists)).map (fun a => a.id)) ++
        (((node.implicitInputDefs.filter (fun a => a.argExists)).map
          (fun a => a.id)) ++
          (((node.outputDefs.filter (fun a => a.argExists)).map
            (fun a => a.id)) ++ E)), w < env.numValues := by
    rw [← hE2]
    exact hELt
  have hst1 : PlanInv env (planNodeOutputsAux env node node.outputDefs 0 st) F
      (((node.inputDefs.filter (fun a => a.argExists)).map (fun a => a.id)) ++
        (((node.implicitInputDefs.filter (fun a => a.argExists)).map
          (fun a => a.id)) ++
          (((node.outputDefs.filter (fun a => a.argExists)).map
            (fun a => a.id)) ++ E))) := by
    apply planNodeOutputsAux_inv env node node.outputDefs 0 st F _ hInvA _
      hSentLt hELt2
    intro a ha hae
    refine ⟨hargLt a (List.mem_append_left _ (List.mem_append_left _ ha)) hae,
      ?_⟩
    have := hinNotF a (List.mem_append_left _ ha) hae
    intro hmem
    apply this
    rw [outIdsOf]
    exact hmem
  have hst2 : PlanInv env
      (node.inputDefs.foldl (fun s a => decrementUse s pc a)
        (planNodeOutputsAux env node node.outputDefs 0 st)) F
      (((node.implicitInputDefs.filter (fun a => a.argExists)).map
        (fun a => a.id)) ++
        (((node.outputDefs.filter (fun a => a.argExists)).map
          (fun a => a.id)) ++ E)) := by
    apply decrementUse_fold_inv env pc node.inputDefs _ F _ hst1
    · intro a ha hae
      exact hargLt a (List.mem_append_left _ (List.mem_append_left _ ha)) hae
    · intro a ha hae
      intro hmem
      exact hinNotF a (List.mem_append_left _ ha) hae
        (List.mem_append_right _ hmem)
  have hst3 : PlanInv env
      (node.implicitInputDefs.foldl (fun s a => decrementUse s pc a)
        (node.inputDefs.foldl (fun s a => decrementUse s pc a)
          (planNodeOutputsAux env node node.outputDefs 0 st))) F
      (((node.outputDefs.filter (fun a => a.argExists)).map
        (fun a => a.id)) ++ E) := by
    apply decrementUse_fold_inv env pc node.implicitInputDefs _ F _ hst2
    · intro a ha hae
      exact hargLt a (List.mem_append_left _ (List.mem_append_right _ ha)) hae
    · intro a ha hae
      intro hmem
      exact hinNotF a (List.mem_append_right _ ha) hae
        (List.mem_append_right _ hmem)
  simp only [planStep]
  apply decrementUse_fold_inv env pc node.outputDefs _ F E hst3
  · intro a ha hae
    exact hargLt a (List.mem_append_right _ ha) hae
  · exact houtNotF

theorem find_by_index (l : List Node)
    (hnd : (l.map (fun n => n.nodeIndex)).Nodup)
    (n : Node) (hn : n ∈ l) :
    l.find? (fun m => m.nodeIndex == n.nodeIndex) = some n := by
  induction l with
  | nil => exact absurd hn (List.not_mem_nil n)
  | cons m rest ih =>
    rw [List.map_cons, List.nodup_cons] at hnd
    rcases List.mem_cons.mp hn with hn | hn
    · rw [hn]
      exact List.find?_cons_of_pos rest (by simp)
    · have hne : ¬(m.nodeIndex == n.nodeIndex) = true := by
        intro h
        apply hnd.1
        rw [eq_of_beq h]
        exact List.mem_map_of_mem _ hn
      rw [List.find?_cons_of_neg rest hne]
      exact ih hnd.2 hn

theorem getNodeD_roundtrip (env : PlanEnv)
    (hnd : (env.nodesInTopologicalOrder.map (fun n => n.nodeIndex)).Nodup)
    (n : Node) (hn : n ∈ env.nodesInTopologicalOrder) :
    getNodeD env n.nodeIndex = n := by
  rw [getNodeD, find_by_index env.nodesInTopologicalOrder hnd n hn]
  rfl

theorem decEvents_lt (env : PlanEnv)
    (hargLtG : ∀ n ∈ env.nodesInTopologicalOrder,
      ∀ a ∈ n.inputDefs ++ n.implicitInputDefs ++ n.outputDefs,
        a.id < env.numValues)
    (n : Node) (hn : n ∈ env.nodesInTopologicalOrder) :
    ∀ w ∈ decEvents n, w < env.numValues := by
  intro w hw
  rw [decEvents] at hw
  obtain ⟨a, ha, haw⟩ := List.mem_map.mp hw
  rw [← haw]
  apply hargLtG n hn
  rcases List.mem_append.mp ha with h | h
  · rcases List.mem_append.mp h with h | h
    · exact List.mem_append_left _
        (List.mem_append_left _ ((List.mem_filter.mp h).1))
    · exact List.mem_append_left _
        (List.mem_append_right _ ((List.mem_filter.mp h).1))
  · exact List.mem_append_right _ ((List.mem_filter.mp h).1)

theorem allEvents_lt (env : PlanEnv)
    (hargLtG : ∀ n ∈ env.nodesInTopologicalOrder,
      ∀ a ∈ n.inputDefs ++ n.implicitInputDefs ++ n.outputDefs,
        a.id < env.numValues)
    (ns : List Node) (hmem : ∀ n ∈ ns, n ∈ env.nodesInTopologicalOrder) :
    ∀ w ∈ allEvents ns, w < env.numValues := by
  intro w hw
  rw [allEvents] at hw
  obtain ⟨l, hl, hwl⟩ := List.mem_flatten.mp hw
  obtain ⟨n, hn, rfl⟩ := List.mem_map.mp hl
  exact decEvents_lt env hargLtG n (hmem n hn) w hwl

theorem computeReusePlanSteps_inv (env : PlanEnv)
    (hnd : (env.nodesInTopologicalOrder.map (fun n => n.nodeIndex)).Nodup)
    (hargLtG : ∀ n ∈ env.nodesInTopologicalOrder,
      ∀ a ∈ n.inputDefs ++ n.implicitInputDefs ++ n.outputDefs,
        a.id < env.numValues)
    (hSentLt : ∀ w ∈ sentinelIds env, w < env.numValues)
    (ns : List Node) :
    ∀ (D : List Nat) (pc : Nat) (st : PlannerState),
    (∀ n ∈ ns, n ∈ env.nodesInTopologicalOrder) →
    PlanInv env st (outIds ns) (allEvents ns) →
    consumedOkB D ns = true →
    (∀ v ∈ D, v ∉ outIds ns) →
    PlanInv env
      (computeReusePlanSteps env (ns.map (fun n =>
        ({ nodeIndex := n.nodeIndex } : NodeExecutionPlan))) pc st) [] [] := by
  induction ns with
  | nil =>
    intro D pc st _ hInv _ _
    exact hInv
  | cons n rest ih =>
    intro D pc st hmem hInv hcons hDdisj
    have houtEq : outIds (n :: rest) = outIdsOf n ++ outIds rest := by
      rw [outIds, List.map_cons, List.flatten_cons]
      rfl
    have hevEq : allEvents (n :: rest) = decEvents n ++ allEvents rest := by
      rw [allEvents, List.map_cons, List.flatten_cons]
      rfl
    rw [houtEq, hevEq] at hInv
    simp only [consumedOkB, Bool.and_eq_true] at hcons
    have hget : getNodeD env n.nodeIndex = n :=
      getNodeD_roundtrip env hnd n (hmem n (List.mem_cons_self _ _))
    rw [List.map_cons]
    simp only [computeReusePlanSteps, hget]
    have hdisjFn : (outIdsOf n).Disjoint (outIds rest) :=
      List.disjoint_of_nodup_append hInv.nodupF
    have hELt : ∀ w ∈ decEvents n ++ allEvents rest, w < env.numValues := by
      intro w hw
      rcases List.mem_append.mp hw with h | h
      · exact decEvents_lt env hargLtG n (hmem n (List.mem_cons_self _ _)) w h
      · exact allEvents_lt env hargLtG rest
          (fun m hm => hmem m (List.mem_cons_of_mem _ hm)) w h
    have hstep : PlanInv env (planStep env pc n st) (outIds rest)
        (allEvents rest) := by
      apply planStep_inv env pc n st _ _ hInv _ _ _ hSentLt hELt
      · intro a ha _
        exact hargLtG n (hmem n (List.mem_cons_self _ _)) a ha
      · intro a ha hae hmem2
        have hall := List.all_eq_true.mp hcons.1 a ha
        rw [hae] at hall
        simp only [Bool.not_true, Bool.false_or] at hall
        exact hDdisj a.id (List.elem_iff.mp hall) (by rw [houtEq]; exact hmem2)
      · intro a ha hae hmem2
        have haout : a.id ∈ outIdsOf n := by
          rw [outIdsOf]
          exact List.mem_map_of_mem _ (List.mem_filter.mpr ⟨ha, hae⟩)
        exact hdisjFn haout hmem2
    apply ih (D ++ outIdsOf n) (pc + 1) (planStep env pc n st)
      (fun m hm => hmem m (List.mem_cons_of_mem _ hm)) hstep hcons.2
    intro v hv
    rcases List.mem_append.mp hv with h | h
    · intro hmem2
      exact hDdisj v h (by rw [houtEq]; exact List.mem_append_right _ hmem2)
    · exact hdisjFn h

/-! The use-count pass invariant: `D` lists the ids whose definitions have
been registered so far (in order), `C` the use-count increments performed
so far (with multiplicity). -/

structure UCInv (env : PlanEnv) (st : PlannerState) (D C : List Nat) :
    Prop where
  lenInfo : st.ortValueInfo.length = env.numValues
  lenPlan : st.allocationPlan.length = env.numValues
  dLt : ∀ v ∈ D, v < env.numValues
  bufD : ∀ v ∈ D, Buffer st v = v
  infoND : ∀ v, v ∉ D → getInfo st v = default
  cntD : ∀ v ∈ D, UseCount st v = (C.count v : Int)
  cSub : ∀ v ∈ C, v ∈ D
  kindAll : ∀ v, (getPlan st v).allocKind = AllocKind.kAllocate
  fl : st.freelist = []
  ep : st.executionPlan = env.nodesInTopologicalOrder.map
    (fun n => ({ nodeIndex := n.nodeIndex } : NodeExecutionPlan))
  tbf : st.toBeFreed = []

theorem lenInfo_ProcessDef (st : PlannerState) (v : OrtValueIndex) (a : NodeArg) :
    (ProcessDef st v a).ortValueInfo.length = st.ortValueInfo.length := by
  simp [ProcessDef, setInfo]

theorem lenInfo_incUseCount (st : PlannerState) (v : OrtValueIndex) :
    (incUseCount st v).ortValueInfo.length = st.ortValueInfo.length := by
  simp [incUseCount, setInfo]

theorem getInfo_ProcessDef_ne (st : PlannerState) (v : OrtValueIndex)
    (a : NodeArg) (m : OrtValueIndex) (hm : v ≠ m) :
    getInfo (ProcessDef st v a) m = getInfo st m := by
  unfold ProcessDef
  rw [getInfo_setInfo_ne _ _ _ _ hm]

theorem Buffer_ProcessDef_self (st : PlannerState) (v : OrtValueIndex)
    (a : NodeArg) (hv : v < st.ortValueInfo.length) :
    Buffer (ProcessDef st v a) v = v := by
  unfold ProcessDef Buffer
  rw [getInfo_setInfo_self _ _ _ hv]

theorem UseCount_ProcessDef_self (st : PlannerState) (v : OrtValueIndex)
    (a : NodeArg) (hv : v < st.ortValueInfo.length) :
    UseCount (ProcessDef st v a) v = 0 := by
  unfold ProcessDef UseCount
  rw [getInfo_setInfo_self _ _ _ hv]

theorem getInfo_incUseCount_ne (st : PlannerState) (v m : OrtValueIndex)
    (hm : v ≠ m) : getInfo (incUseCount st v) m = getInfo st m := by
  unfold incUseCount
  rw [getInfo_setInfo_ne _ _ _ _ hm]

theorem Buffer_incUseCount (st : PlannerState) (v m : OrtValueIndex) :
    Buffer (incUseCount st v) m = Buffer st m := by
  unfold incUseCount Buffer
  by_cases hv : v < st.ortValueInfo.length
  · by_cases hm : v = m
    · rw [← hm, getInfo_setInfo_self _ _ _ hv]
    · rw [getInfo_setInfo_ne _ _ _ _ hm]
  · unfold setInfo getInfo
    rw [List.set_eq_of_length_le (Nat.le_of_not_lt hv)]

theorem UseCount_incUseCount_self (st : PlannerState) (v : OrtValueIndex)
    (hv : v < st.ortValueInfo.length) :
    UseCount (incUseCount st v) v = UseCount st v + 1 := by
  unfold incUseCount UseCount
  rw [getInfo_setInfo_self _ _ _ hv]

theorem UseCount_incUseCount_ne (st : PlannerState) (v m : OrtValueIndex)
    (hm : v ≠ m) : UseCount (incUseCount st v) m = UseCount st m := by
  unfold incUseCount UseCount
  rw [getInfo_setInfo_ne _ _ _ _ hm]

theorem UCInv_ProcessDef (env : PlanEnv) (st : PlannerState) (D C : List Nat)
    (v : OrtValueIndex) (a : NodeArg)
    (h : UCInv env st D C) (hv : v < env.numValues) (hvD : v ∉ D) :
    UCInv env (ProcessDef st v a) (D ++ [v]) C := by
  have hvlen : v < st.ortValueInfo.length := by
    rw [h.lenInfo]
    exact hv
  refine ⟨?_, h.lenPlan, ?_, ?_, ?_, ?_, ?_, h.kindAll, h.fl, h.ep, h.tbf⟩
  · rw [lenInfo_ProcessDef]
    exact h.lenInfo
  · intro w hw
    rcases List.mem_append.mp hw with hw | hw
    · exact h.dLt w hw
    · rw [List.mem_singleton.mp hw]
      exact hv
  · intro w hw
    rcases List.mem_append.mp hw with hw | hw
    · have hne : v ≠ w := fun he => hvD (he ▸ hw)
      unfold Buffer
      rw [getInfo_ProcessDef_ne _ _ _ _ hne]
      exact h.bufD w hw
    · rw [List.mem_singleton.mp hw]
      exact Buffer_ProcessDef_self st v a hvlen
  · intro w hw
    have hwD : w ∉ D := fun hmem => hw (List.mem_append_left _ hmem)
    have hne : v ≠ w := fun he => hw (List.mem_append_right _ (by rw [he]; exact List.mem_singleton_self _))
    rw [getInfo_ProcessDef_ne _ _ _ _ hne]
    exact h.infoND w hwD
  · intro w hw
    rcases List.mem_append.mp hw with hw | hw
    · have hne : v ≠ w := fun he => hvD (he ▸ hw)
      unfold UseCount
      rw [getInfo_ProcessDef_ne _ _ _ _ hne]
      exact h.cntD w hw
    · rw [List.mem_singleton.mp hw]
      rw [UseCount_ProcessDef_self st v a hvlen]
      have hvC : v ∉ C := fun hmem => hvD (h.cSub v hmem)
      rw [List.count_eq_zero.mpr hvC]
      rfl
  · intro w hw
    exact List.mem_append_left _ (h.cSub w hw)

theorem UCInv_inc (env : PlanEnv) (st : PlannerState) (D C : List Nat)
    (v : OrtValueIndex) (h : UCInv env st D C) (hvD : v ∈ D) :
    UCInv env (incUseCount st v) D (C ++ [v]) := by
  have hvlen : v < st.ortValueInfo.length := by
    rw [h.lenInfo]
    exact h.dLt v hvD
  refine ⟨?_, h.lenPlan, h.dLt, ?_, ?_, ?_, ?_, h.kindAll, h.fl, h.ep, h.tbf⟩
  · rw [lenInfo_incUseCount]
    exact h.lenInfo
  · intro w hw
    rw [Buffer_incUseCount]
    exact h.bufD w hw
  · intro w hw
    have hne : v ≠ w := fun he => hw (he ▸ hvD)
    rw [getInfo_incUseCount_ne _ _ _ hne]
    exact h.infoND w hw
  · intro w hw
    rw [List.count_append]
    by_cases hwv : v = w
    · rw [← hwv] at hw ⊢
      rw [UseCount_incUseCount_self _ _ hvlen, h.cntD v hvD]
      have h1 : List.count v [v] = 1 := List.count_singleton_self v
      rw [h1]
      push_cast
      ring
    · rw [UseCount_incUseCount_ne _ _ _ hwv, h.cntD w hw]
      have h0 : List.count w [v] = 0 := by
        rw [List.count_eq_zero]
        intro hmem
        exact hwv (List.mem_singleton.mp hmem).symm
      rw [h0]
      push_cast
      ring
  · intro w hw
    rcases List.mem_append.mp hw with hw | hw
    · exact h.cSub w hw
    · rw [List.mem_singleton.mp hw]
      exact hvD

theorem UCInv_setPlanKind (env : PlanEnv) (st : PlannerState) (D C : List Nat)
    (n : OrtValueIndex) (p : AllocPlanPerValue)
    (h : UCInv env st D C) (hp : p.allocKind = AllocKind.kAllocate) :
    UCInv env (setPlan st n p) D C := by
  refine ⟨h.lenInfo, ?_, h.dLt, h.bufD, h.infoND, h.cntD, h.cSub, ?_, h.fl,
    h.ep, h.tbf⟩
  · rw [allocationPlan_length_setPlan]
    exact h.lenPlan
  · intro v
    rw [getPlan_setPlan_cases]
    split
    · exact hp
    · exact h.kindAll v

theorem ucProcessInput_one (env : PlanEnv) (node : Node) (kd : KernelDef)
    (st : PlannerState) (D C : List Nat) (input : NodeArg) (argIdx : Nat)
    (h : UCInv env st D C) (hin : input.id ∈ D) :
    UCInv env (processInput env node kd st input argIdx) D (C ++ [input.id]) := by
  have h1 := UCInv_inc env st D C input.id h hin
  by_cases hc : (env.graphInputsIncludingInitializers.any
      (fun g => g.id == input.id) ||
      env.outerScopeNodeArgs.any (fun v => v.id == input.id)) = true
  · simp only [processInput, hc, if_true]
    exact UCInv_setPlanKind env _ D _ input.id _ h1 (h1.kindAll input.id)
  · have hcf : (env.graphInputsIncludingInitializers.any
        (fun g => g.id == input.id) ||
        env.outerScopeNodeArgs.any (fun v => v.id == input.id)) = false := by
      cases hx : (env.graphInputsIncludingInitializers.any
          (fun g => g.id == input.id) ||
          env.outerScopeNodeArgs.any (fun v => v.id == input.id))
      · rfl
      · exact absurd hx hc
    simp only [processInput, hcf, Bool.false_eq_true, if_false]
    exact h1

theorem ucProcessInputs_fold (env : PlanEnv) (node : Node) (kd : KernelDef)
    (l : List NodeArg) :
    ∀ (k : Nat) (st : PlannerState) (D C : List Nat),
    UCInv env st D C →
    (∀ a ∈ l, a.argExists = true → a.id ∈ D) →
    UCInv env ((l.enumFrom k).foldl
      (fun s p => if p.2.argExists then processInput env node kd s p.2 p.1
        else s) st)
      D (C ++ (l.filter (fun a => a.argExists)).map (fun a => a.id)) := by
  induction l with
  | nil =>
    intro k st D C h _
    simpa using h
  | cons a rest ih =>
    intro k st D C h hD
    rw [List.enumFrom_cons, List.foldl_cons]
    by_cases hex : a.argExists = true
    · rw [List.filter_cons_of_pos hex, List.map_cons]
      have hCassoc : C ++ (a.id :: (rest.filter (fun a => a.argExists)).map
          (fun a => a.id)) =
          (C ++ [a.id]) ++ (rest.filter (fun a => a.argExists)).map
            (fun a => a.id) := by
        rw [List.append_assoc]
        rfl
      rw [hCassoc]
      simp only [hex, if_true]
      exact ih (k + 1) (processInput env node kd st a k) D (C ++ [a.id])
        (ucProcessInput_one env node kd st D C a k h
          (hD a (List.mem_cons_self _ _) hex))
        (fun b hb hbe => hD b (List.mem_cons_of_mem _ hb) hbe)
    · have hexf : a.argExists = false := by
        cases hx : a.argExists
        · rfl
        · exact absurd hx hex
      rw [List.filter_cons_of_neg (by rw [hexf]; exact Bool.false_ne_true)]
      simp only [hexf, Bool.false_eq_true, if_false]
      exact ih (k + 1) st D C h
        (fun b hb hbe => hD b (List.mem_cons_of_mem _ hb) hbe)

theorem ucForEach_processInput (env : PlanEnv) (node : Node) (kd : KernelDef)
    (l : List NodeArg) (st : PlannerState) (D C : List Nat)
    (h : UCInv env st D C)
    (hD : ∀ a ∈ l, a.argExists = true → a.id ∈ D) :
    UCInv env (forEachWithIndex l st (processInput env node kd)) D
      (C ++ (l.filter (fun a => a.argExists)).map (fun a => a.id)) := by
  rw [forEachWithIndex, List.enum_eq_enumFrom]
  exact ucProcessInputs_fold env node kd l 0 st D C h hD

theorem ucOutputs_fold (env : PlanEnv) (node : Node) (kd : KernelDef)
    (l : List NodeArg) :
    ∀ (k : Nat) (st : PlannerState) (D C : List Nat),
    UCInv env st D C →
    (∀ a ∈ l, a.argExists = true → a.id < env.numValues) →
    (∀ a ∈ l, a.argExists = true → a.id ∉ D) →
    ((l.filter (fun a => a.argExists)).map (fun a => a.id)).Nodup →
    UCInv env ((l.enumFrom k).foldl
      (fun s p =>
        if p.2.argExists then
          let s := ProcessDef s p.2.id p.2
          let s := incUseCount s p.2.id
          setLocation s p.2.id (env.allocInfo node (kd.outputMemType p.1))
        else s) st)
      (D ++ (l.filter (fun a => a.argExists)).map (fun a => a.id))
      (C ++ (l.filter (fun a => a.argExists)).map (fun a => a.id)) := by
  induction l with
  | nil =>
    intro k st D C h _ _ _
    simpa using h
  | cons a rest ih =>
    intro k st D C h hLt hND hNodup
    rw [List.enumFrom_cons, List.foldl_cons]
    by_cases hex : a.argExists = true
    · rw [List.filter_cons_of_pos hex, List.map_cons] at hNodup ⊢
      rw [List.nodup_cons] at hNodup
      have hDassoc : D ++ (a.id :: (rest.filter (fun a => a.argExists)).map
          (fun a => a.id)) =
          (D ++ [a.id]) ++ (rest.filter (fun a => a.argExists)).map
            (fun a => a.id) := by
        rw [List.append_assoc]
        rfl
      have hCassoc : C ++ (a.id :: (rest.filter (fun a => a.argExists)).map
          (fun a => a.id)) =
          (C ++ [a.id]) ++ (rest.filter (fun a => a.argExists)).map
            (fun a => a.id) := by
        rw [List.append_assoc]
        rfl
      rw [hDassoc, hCassoc]
      simp only [hex, if_true]
      have h1 := UCInv_ProcessDef env st D C a.id a h
        (hLt a (List.mem_cons_self _ _) hex) (hND a (List.mem_cons_self _ _) hex)
      have h2 := UCInv_inc env _ (D ++ [a.id]) C a.id h1
        (List.mem_append_right _ (List.mem_singleton_self _))
      have h3 := UCInv_setPlanKind env _ (D ++ [a.id]) (C ++ [a.id]) a.id
        { getPlan (incUseCount (ProcessDef st a.id a) a.id) a.id with
          location := env.allocInfo node (kd.outputMemType k) } h2
        (h2.kindAll a.id)
      have h3' : UCInv env (setLocation (incUseCount (ProcessDef st a.id a)
          a.id) a.id (env.allocInfo node (kd.outputMemType k)))
          (D ++ [a.id]) (C ++ [a.id]) := h3
      apply ih (k + 1) _ (D ++ [a.id]) (C ++ [a.id]) h3'
      · intro b hb hbe
        exact hLt b (List.mem_cons_of_mem _ hb) hbe
      · intro b hb hbe hmem
        rcases List.mem_append.mp hmem with hmem | hmem
        · exact hND b (List.mem_cons_of_mem _ hb) hbe hmem
        · apply hNodup.1
          rw [← List.mem_singleton.mp hmem]
          exact List.mem_map_of_mem _ (List.mem_filter.mpr ⟨hb, hbe⟩)
      · exact hNodup.2
    · have hexf : a.argExists = false := by
        cases hx : a.argExists
        · rfl
        · exact absurd hx hex
      rw [List.filter_cons_of_neg (by rw [hexf]; exact Bool.false_ne_true)]
      simp only [hexf, Bool.false_eq_true, if_false]
      exact ih (k + 1) st D C h
        (fun b hb hbe => hLt b (List.mem_cons_of_mem _ hb) hbe)
        (fun b hb hbe => hND b (List.mem_cons_of_mem _ hb) hbe)
        (by rw [List.filter_cons_of_neg
          (by rw [hexf]; exact Bool.false_ne_true)] at hNodup; exact hNodup)

theorem ucFence_fold (env : PlanEnv) (l : List NodeArg) :
    ∀ (st : PlannerState) (D C : List Nat), UCInv env st D C →
    UCInv env (l.foldl
      (fun s a => if a.argExists then setCreateFence s a.id else s) st) D C := by
  induction l with
  | nil =>
    intro st D C h
    exact h
  | cons a rest ih =>
    intro st D C h
    rw [List.foldl_cons]
    by_cases hex : a.argExists = true
    · simp only [hex, if_true]
      exact ih _ D C (UCInv_setPlanKind env st D C a.id _ h (h.kindAll a.id))
    · have hexf : a.argExists = false := by
        cases hx : a.argExists
        · rfl
        · exact absurd hx hex
      simp only [hexf, Bool.false_eq_true, if_false]
      exact ih _ D C h

theorem ucIncs_fold (env : PlanEnv) (l : List NodeArg) :
    ∀ (st : PlannerState) (D C : List Nat), UCInv env st D C →
    (∀ a ∈ l, a.id ∈ D) →
    UCInv env (l.foldl (fun s a => incUseCount s a.id) st) D
      (C ++ l.map (fun a => a.id)) := by
  induction l with
  | nil =>
    intro st D C h _
    simpa using h
  | cons a rest ih =>
    intro st D C h hD
    rw [List.foldl_cons, List.map_cons]
    have hCassoc : C ++ (a.id :: rest.map (fun a => a.id)) =
        (C ++ [a.id]) ++ rest.map (fun a => a.id) := by
      rw [List.append_assoc]
      rfl
    rw [hCassoc]
    exact ih _ D (C ++ [a.id])
      (UCInv_inc env st D C a.id h (hD a (List.mem_cons_self _ _)))
      (fun b hb => hD b (List.mem_cons_of_mem _ hb))

theorem ucPre_fold (env : PlanEnv) (l : List NodeArg) :
    ∀ (st : PlannerState) (D C : List Nat), UCInv env st D C →
    (∀ a ∈ l, a.id < env.numValues) →
    (∀ a ∈ l, a.id ∉ D) →
    (l.map (fun a => a.id)).Nodup →
    UCInv env (l.foldl
      (fun s gi => incUseCount (ProcessDef s gi.id gi) gi.id) st)
      (D ++ l.map (fun a => a.id)) (C ++ l.map (fun a => a.id)) := by
  induction l with
  | nil =>
    intro st D C h _ _ _
    simpa using h
  | cons a rest ih =>
    intro st D C h hLt hND hNodup
    rw [List.map_cons] at hNodup ⊢
    rw [List.nodup_cons] at hNodup
    rw [List.foldl_cons]
    have hDassoc : D ++ (a.id :: rest.map (fun a => a.id)) =
        (D ++ [a.id]) ++ rest.map (fun a => a.id) := by
      rw [List.append_assoc]
      rfl
    have hCassoc : C ++ (a.id :: rest.map (fun a => a.id)) =
        (C ++ [a.id]) ++ rest.map (fun a => a.id) := by
      rw [List.append_assoc]
      rfl
    rw [hDassoc, hCassoc]
    have h1 := UCInv_ProcessDef env st D C a.id a h
      (hLt a (List.mem_cons_self _ _)) (hND a (List.mem_cons_self _ _))
    have h2 := UCInv_inc env _ (D ++ [a.id]) C a.id h1
      (List.mem_append_right _ (List.mem_singleton_self _))
    apply ih _ (D ++ [a.id]) (C ++ [a.id]) h2
    · intro b hb
      exact hLt b (List.mem_cons_of_mem _ hb)
    · intro b hb hmem
      rcases List.mem_append.mp hmem with hmem | hmem
      · exact hND b (List.mem_cons_of_mem _ hb) hmem
      · apply hNodup.1
        rw [← List.mem_singleton.mp hmem]
        exact List.mem_map_of_mem _ hb
    · exact hNodup.2

theorem ucNode_one (env : PlanEnv) (n : Node) (st st' : PlannerState)
    (D C : List Nat)
    (hnd : (env.nodesInTopologicalOrder.map (fun m => m.nodeIndex)).Nodup)
    (hn : n ∈ env.nodesInTopologicalOrder)
    (h : UCInv env st D C)
    (hcons : ((n.inputDefs ++ n.implicitInputDefs).all
      (fun a => !a.argExists || D.contains a.id)) = true)
    (hoLt : ∀ a ∈ n.outputDefs, a.argExists = true → a.id < env.numValues)
    (hoND : ∀ a ∈ n.outputDefs, a.argExists = true → a.id ∉ D)
    (hoNodup : (outIdsOf n).Nodup)
    (hok : computeUseCountsNode env st { nodeIndex := n.nodeIndex } =
      Except.ok st') :
    UCInv env st' (D ++ outIdsOf n) (C ++ decEvents n) := by
  have hget : getNode? env n.nodeIndex = some n := by
    rw [getNode?]
    exact find_by_index _ hnd n hn
  have hmemD : ∀ a ∈ n.inputDefs ++ n.implicitInputDefs, a.argExists = true →
      a.id ∈ D := by
    intro a ha hae
    have hall := List.all_eq_true.mp hcons a ha
    rw [hae] at hall
    simp only [Bool.not_true, Bool.false_or] at hall
    exact List.elem_iff.mp hall
  cases hkd : env.searchKernel n with
  | none =>
    simp only [computeUseCountsNode, hget, hkd] at hok
    exact Except.noConfusion hok
  | some kd =>
    simp only [computeUseCountsNode, hget, hkd] at hok
    have hstEq : _ = st' :=
      Except.ok.inj (show Except.ok _ = Except.ok st' from hok)
    rw [← hstEq]
    have h1 := ucForEach_processInput env n kd n.inputDefs st D C h
      (fun a ha hae => hmemD a (List.mem_append_left _ ha) hae)
    have h2 := ucForEach_processInput env n kd n.implicitInputDefs _ D _ h1
      (fun a ha hae => hmemD a (List.mem_append_right _ ha) hae)
    have h3pre := ucOutputs_fold env n kd n.outputDefs 0 _ D _ h2 hoLt hoND
      (by rw [outIdsOf] at hoNodup; exact hoNodup)
    have hCeq : (((C ++ (n.inputDefs.filter (fun a => a.argExists)).map
        (fun a => a.id)) ++ (n.implicitInputDefs.filter
          (fun a => a.argExists)).map (fun a => a.id)) ++
        (n.outputDefs.filter (fun a => a.argExists)).map (fun a => a.id)) =
        C ++ decEvents n := by
      simp only [decEvents, List.map_append, List.append_assoc]
    rw [← hCeq]
    have hDeq : (D ++ (n.outputDefs.filter (fun a => a.argExists)).map
        (fun a => a.id)) = D ++ outIdsOf n := by
      rw [outIdsOf]
    rw [← hDeq]
    rw [List.enum_eq_enumFrom]
    by_cases hq : (kd.execQueueId != 0) = true
    · rw [if_pos hq]
      exact ucFence_fold env _ _ _ _ h3pre
    · rw [if_neg hq]
      exact h3pre

theorem ucNodePass (env : PlanEnv)
    (hnd : (env.nodesInTopologicalOrder.map (fun m => m.nodeIndex)).Nodup)
    (hargLtG : ∀ n ∈ env.nodesInTopologicalOrder,
      ∀ a ∈ n.inputDefs ++ n.implicitInputDefs ++ n.outputDefs,
        a.id < env.numValues)
    (ns : List Node) :
    ∀ (st : PlannerState) (D C : List Nat) (stB : PlannerState),
    (∀ n ∈ ns, n ∈ env.nodesInTopologicalOrder) →
    UCInv env st D C →
    consumedOkB D ns = true →
    (∀ v ∈ outIds ns, v ∉ D) →
    (outIds ns).Nodup →
    ((ns.map (fun n => ({ nodeIndex := n.nodeIndex } : NodeExecutionPlan))).foldlM
        (computeUseCountsNode env) st = Except.ok stB) →
    UCInv env stB (D ++ outIds ns) (C ++ allEvents ns) := by
  induction ns with
  | nil =>
    intro st D C stB _ h _ _ _ hok
    have hstEq : st = stB := Except.ok.inj hok
    rw [← hstEq]
    have he1 : D ++ outIds [] = D := by
      rw [outIds]
      simp
    have he2 : C ++ allEvents [] = C := by
      rw [allEvents]
      simp
    rw [he1, he2]
    exact h
  | cons n rest ih =>
    intro st D C stB hmem h hcons hND hNodup hok
    have houtEq : outIds (n :: rest) = outIdsOf n ++ outIds rest := by
      rw [outIds, List.map_cons, List.flatten_cons]
      rfl
    have hevEq : allEvents (n :: rest) = decEvents n ++ allEvents rest := by
      rw [allEvents, List.map_cons, List.flatten_cons]
      rfl
    rw [houtEq] at hND hNodup
    simp only [consumedOkB, Bool.and_eq_true] at hcons
    rw [List.map_cons, List.foldlM_cons] at hok
    cases hstep : computeUseCountsNode env st { nodeIndex := n.nodeIndex } with
    | error e =>
      rw [hstep] at hok
      exact Except.noConfusion hok
    | ok st1 =>
      rw [hstep] at hok
      have hok2 : (rest.map (fun n =>
          ({ nodeIndex := n.nodeIndex } : NodeExecutionPlan))).foldlM
          (computeUseCountsNode env) st1 = Except.ok stB := hok
      have h1 : UCInv env st1 (D ++ outIdsOf n) (C ++ decEvents n) :=
        ucNode_one env n st st1 D C hnd (hmem n (List.mem_cons_self _ _)) h
          hcons.1
          (fun a ha hae => hargLtG n (hmem n (List.mem_cons_self _ _)) a
            (List.mem_append_right _ ha))
          (fun a ha hae hmemD => hND a.id
            (List.mem_append_left _ (by
              rw [outIdsOf]
              exact List.mem_map_of_mem _ (List.mem_filter.mpr ⟨ha, hae⟩)))
            hmemD)
          (by
            rcases List.nodup_append.mp hNodup with ⟨h1, _, _⟩
            exact h1)
          hstep
      have hdisj : (outIdsOf n).Disjoint (outIds rest) :=
        List.disjoint_of_nodup_append hNodup
      have h2 := ih st1 (D ++ outIdsOf n) (C ++ decEvents n) stB
        (fun m hm => hmem m (List.mem_cons_of_mem _ hm)) h1 hcons.2
        (by
          intro v hv hmemD
          rcases List.mem_append.mp hmemD with hx | hx
          · exact hND v (List.mem_append_right _ hv) hx
          · exact hdisj hx hv)
        (hNodup.of_append_right) hok2
      rw [houtEq, hevEq]
      rw [← List.append_assoc, ← List.append_assoc]
      exact h2

theorem ComputeUseCounts_inv (env : PlanEnv) (hwf : wfEnv env)
    (st0 stB : PlannerState)
    (h0 : UCInv env st0 [] [])
    (hok : ComputeUseCounts env st0 = Except.ok stB) :
    UCInv env stB (preIds env ++ outIds env.nodesInTopologicalOrder)
      ((preIds env ++ allEvents env.nodesInTopologicalOrder) ++
        env.graphOutputs.map (fun a => a.id)) := by
  obtain ⟨hwf1, hwf2, hwf3, hwf4, hwf5, hwf6⟩ := hwf
  simp only [ComputeUseCounts] at hok
  rw [← List.foldl_append, ← List.foldl_append] at hok
  have hmapEq : (env.graphInputs ++ (env.outerScopeNodeArgs ++
      env.initializers)).map (fun a => a.id) = preIds env := by
    rw [preIds, List.append_assoc]
  have hpreNodup : ((env.graphInputs ++ (env.outerScopeNodeArgs ++
      env.initializers)).map (fun a => a.id)).Nodup := by
    rw [hmapEq]
    exact hwf3.of_append_left
  have h3 := ucPre_fold env
    (env.graphInputs ++ (env.outerScopeNodeArgs ++ env.initializers)) st0 [] []
    h0
    (fun a ha => hwf1 a (List.mem_append_left _
      (by rw [List.append_assoc]; exact ha)))
    (fun a _ hmem => absurd hmem (List.not_mem_nil _))
    hpreNodup
  rw [hmapEq] at h3
  have h3' : UCInv env
      ((env.graphInputs ++ (env.outerScopeNodeArgs ++ env.initializers)).foldl
        (fun s gi => incUseCount (ProcessDef s gi.id gi) gi.id) st0)
      (preIds env) (preIds env) := h3
  rw [h3'.ep] at hok
  cases hB : (env.nodesInTopologicalOrder.map (fun n =>
      ({ nodeIndex := n.nodeIndex } : NodeExecutionPlan))).foldlM
      (computeUseCountsNode env)
      ((env.graphInputs ++ (env.outerScopeNodeArgs ++ env.initializers)).foldl
        (fun s gi => incUseCount (ProcessDef s gi.id gi) gi.id) st0) with
  | error e =>
    rw [hB] at hok
    exact Except.noConfusion hok
  | ok st4 =>
    rw [hB] at hok
    have hEq : env.graphOutputs.foldl (fun s go => incUseCount s go.id) st4 =
        stB := Except.ok.inj hok
    have hdisj : (preIds env).Disjoint (outIds env.nodesInTopologicalOrder) :=
      List.disjoint_of_nodup_append hwf3
    have h4 := ucNodePass env hwf6 hwf2 env.nodesInTopologicalOrder _
      (preIds env) (preIds env) st4 (fun _ hm => hm) h3' hwf5
      (fun v hv hmem => hdisj hmem hv) (hwf3.of_append_right) hB
    have h5 := ucIncs_fold env env.graphOutputs st4
      (preIds env ++ outIds env.nodesInTopologicalOrder)
      (preIds env ++ allEvents env.nodesInTopologicalOrder) h4
      (fun a ha => hwf4 a.id
        (List.mem_range.mpr (hwf1 a (List.mem_append_right _ ha))))
    rw [← hEq]
    exact h5

theorem outIds_lt (env : PlanEnv)
    (hargLtG : ∀ n ∈ env.nodesInTopologicalOrder,
      ∀ a ∈ n.inputDefs ++ n.implicitInputDefs ++ n.outputDefs,
        a.id < env.numValues)
    (ns : List Node) (hmem : ∀ n ∈ ns, n ∈ env.nodesInTopologicalOrder) :
    ∀ w ∈ outIds ns, w < env.numValues := by
  intro w hw
  rw [outIds] at hw
  obtain ⟨l, hl, hwl⟩ := List.mem_flatten.mp hw
  obtain ⟨n, hn, rfl⟩ := List.mem_map.mp hl
  rw [outIdsOf] at hwl
  obtain ⟨a, ha, rfl⟩ := List.mem_map.mp hwl
  exact hargLtG n (hmem n hn) a
    (List.mem_append_right _ ((List.mem_filter.mp ha).1))

theorem sentinelIds_eq (env : PlanEnv) :
    sentinelIds env = preIds env ++ env.graphOutputs.map (fun a => a.id) := by
  rw [sentinelIds, List.map_append, preIds]

theorem UCInv_to_PlanInv (env : PlanEnv) (hwf : wfEnv env) (stB : PlannerState)
    (h : UCInv env stB (preIds env ++ outIds env.nodesInTopologicalOrder)
      ((preIds env ++ allEvents env.nodesInTopologicalOrder) ++
        env.graphOutputs.map (fun a => a.id))) :
    PlanInv env stB (outIds env.nodesInTopologicalOrder)
      (allEvents env.nodesInTopologicalOrder) := by
  obtain ⟨hwf1, hwf2, hwf3, hwf4, hwf5, hwf6⟩ := hwf
  have hbuf : ∀ v, v < env.numValues → Buffer stB v = v :=
    fun v hv => h.bufD v (hwf4 v (List.mem_range.mpr hv))
  refine ⟨h.lenInfo, h.lenPlan, ?_, ?_, ?_, ?_, ?_, ?_, ?_, ?_, ?_, ?_, ?_, ?_⟩
  · intro v hv
    rw [hbuf v hv]
    exact hv
  · intro v hv
    rw [hbuf v hv]
    exact hbuf v hv
  · intro v hv hk
    have hka := h.kindAll v
    rcases hk with hk | hk <;> rw [hka] at hk <;> exact absurd hk (by decide)
  · exact hwf3.of_append_right
  · intro c hc
    exact outIds_lt env hwf2 _ (fun _ hm => hm) c hc
  · intro c hc
    exact h.bufD c (List.mem_append_right _ hc)
  · intro c hc v hv hb
    rw [hbuf v hv] at hb
    exact hb
  · intro e he
    rw [h.fl] at he
    exact absurd he (List.not_mem_nil _)
  · intro e he
    rw [h.fl] at he
    exact absurd he (List.not_mem_nil _)
  · intro e he
    rw [h.fl] at he
    exact absurd he (List.not_mem_nil _)
  · intro v hk
    rw [h.kindAll v] at hk
    exact absurd hk (by decide)
  · intro v hv
    have hcnt := h.cntD v (hwf4 v (List.mem_range.mpr hv))
    have hS : rootHits stB (sentinelIds env) v = (sentinelIds env).count v := by
      apply rootHits_of_fresh stB _ v (hbuf v hv)
      intro w hw hb
      rw [sentinelIds] at hw
      obtain ⟨a, ha, rfl⟩ := List.mem_map.mp hw
      rw [hbuf a.id (hwf1 a ha)] at hb
      exact hb
    have hE : rootHits stB (allEvents env.nodesInTopologicalOrder) v =
        (allEvents env.nodesInTopologicalOrder).count v := by
      apply rootHits_of_fresh stB _ v (hbuf v hv)
      intro w hw hb
      rw [hbuf w (allEvents_lt env hwf2 _ (fun _ hm => hm) w hw)] at hb
      exact hb
    rw [hS, hE, hcnt, sentinelIds_eq env, List.count_append,
      List.count_append, List.count_append]
    push_cast
    omega

theorem foldl_pres {α : Type} (P : PlannerState → Prop)
    (f : PlannerState → α → PlannerState) :
    ∀ (l : List α), (∀ s a, a ∈ l → P s → P (f s a)) →
    ∀ s, P s → P (l.foldl f s) := by
  intro l
  induction l with
  | nil =>
    intro _ s h
    exact h
  | cons a rest ih =>
    intro hstep s h
    rw [List.foldl_cons]
    exact ih (fun s b hb hp => hstep s b (List.mem_cons_of_mem _ hb) hp) _
      (hstep s a (List.mem_cons_self _ _) h)

theorem Except_bind_ok_inv {ε α β : Type} (x : Except ε α)
    (f : α → Except ε β) (b : β) (h : (x >>= f) = Except.ok b) :
    ∃ a, x = Except.ok a ∧ f a = Except.ok b := by
  cases x with
  | error e => exact Except.noConfusion h
  | ok a => exact ⟨a, rfl, h⟩

theorem decrementUse_toBeFreed (st : PlannerState) (pc : Nat) (arg : NodeArg) :
    (decrementUse st pc arg).toBeFreed = st.toBeFreed := by
  simp only [decrementUse]
  split
  · split
    · rfl
    · rfl
  · rfl

theorem planNodeOutput_toBeFreed (env : PlanEnv) (node : Node) (argNum : Nat)
    (o : NodeArg) (st : PlannerState) :
    (planNodeOutput env node argNum o st).toBeFreed = st.toBeFreed := by
  simp only [planNodeOutput]
  repeat' split
  all_goals rfl

theorem planNodeOutputsAux_toBeFreed (env : PlanEnv) (node : Node)
    (outs : List NodeArg) :
    ∀ (argNum : Nat) (st : PlannerState),
    (planNodeOutputsAux env node outs argNum st).toBeFreed = st.toBeFreed := by
  induction outs with
  | nil =>
    intro argNum st
    rfl
  | cons o rest ih =>
    intro argNum st
    by_cases hex : o.argExists = true
    · simp only [planNodeOutputsAux, hex, if_true]
      rw [ih, planNodeOutput_toBeFreed]
    · have hexf : o.argExists = false := by
        cases hx : o.argExists
        · rfl
        · exact absurd hx hex
      simp only [planNodeOutputsAux, hexf, Bool.false_eq_true, if_false]
      exact ih argNum st

theorem foldl_decrement_toBeFreed (pc : Nat) (l : List NodeArg) :
    ∀ st : PlannerState,
    (l.foldl (fun s a => decrementUse s pc a) st).toBeFreed = st.toBeFreed := by
  induction l with
  | nil =>
    intro st
    rfl
  | cons a rest ih =>
    intro st
    rw [List.foldl_cons, ih, decrementUse_toBeFreed]

theorem planStep_toBeFreed (env : PlanEnv) (pc : Nat) (node : Node)
    (st : PlannerState) : (planStep env pc node st).toBeFreed = st.toBeFreed := by
  simp only [planStep]
  rw [foldl_decrement_toBeFreed, foldl_decrement_toBeFreed,
    foldl_decrement_toBeFreed, planNodeOutputsAux_toBeFreed]

theorem computeReusePlanSteps_toBeFreed (env : PlanEnv)
    (steps : List NodeExecutionPlan) :
    ∀ (pc : Nat) (st : PlannerState),
    (computeReusePlanSteps env steps pc st).toBeFreed = st.toBeFreed := by
  induction steps with
  | nil =>
    intro pc st
    rfl
  | cons s rest ih =>
    intro pc st
    simp only [computeReusePlanSteps]
    rw [ih, planStep_toBeFreed]

theorem computeFenceCheckNode_frame (env : PlanEnv) (st st' : PlannerState)
    (step : NodeExecutionPlan)
    (h : computeFenceCheckNode env st step = Except.ok st') :
    st'.ortValueInfo = st.ortValueInfo ∧
      st'.allocationPlan = st.allocationPlan ∧
      st'.freelist = st.freelist ∧ st'.toBeFreed = st.toBeFreed := by
  unfold computeFenceCheckNode at h
  split at h
  · exact Except.noConfusion h
  · have h2 : _ = st' := Except.ok.inj (show Except.ok _ = Except.ok st' from h)
    rw [← h2]
    exact ⟨rfl, rfl, rfl, rfl⟩

theorem ComputeFenceCheck_fold_frame (env : PlanEnv)
    (l : List NodeExecutionPlan) :
    ∀ (st st' : PlannerState),
    l.foldlM (computeFenceCheckNode env) st = Except.ok st' →
    st'.ortValueInfo = st.ortValueInfo ∧
      st'.allocationPlan = st.allocationPlan ∧
      st'.freelist = st.freelist ∧ st'.toBeFreed = st.toBeFreed := by
  induction l with
  | nil =>
    intro st st' h
    have h2 : st = st' := Except.ok.inj h
    rw [← h2]
    exact ⟨rfl, rfl, rfl, rfl⟩
  | cons s rest ih =>
    intro st st' h
    rw [List.foldlM_cons] at h
    cases hstep : computeFenceCheckNode env st s with
    | error e =>
      rw [hstep] at h
      exact Except.noConfusion h
    | ok st1 =>
      rw [hstep] at h
      have h2 : rest.foldlM (computeFenceCheckNode env) st1 = Except.ok st' := h
      obtain ⟨e1, e2, e3, e4⟩ := computeFenceCheckNode_frame env st st1 s hstep
      obtain ⟨f1, f2, f3, f4⟩ := ih st1 st' h2
      exact ⟨f1.trans e1, f2.trans e2, f3.trans e3, f4.trans e4⟩

theorem ComputeFenceCheck_frame (env : PlanEnv) (st st' : PlannerState)
    (h : ComputeFenceCheck env st = Except.ok st') :
    st'.ortValueInfo = st.ortValueInfo ∧
      st'.allocationPlan = st.allocationPlan ∧
      st'.freelist = st.freelist ∧ st'.toBeFreed = st.toBeFreed :=
  ComputeFenceCheck_fold_frame env st.executionPlan st st' h

theorem gdpStep_frame (acc : Bool × Nat × Int × PlannerState)
    (e : FreeBufferInfo) :
    ((gdpStep acc e).2.2.2).ortValueInfo = acc.2.2.2.ortValueInfo ∧
      ((gdpStep acc e).2.2.2).allocationPlan = acc.2.2.2.allocationPlan ∧
      ((gdpStep acc e).2.2.2).toBeFreed = acc.2.2.2.toBeFreed ++ [e.mlValue] := by
  simp only [gdpStep]
  split
  · split
    · exact ⟨rfl, rfl, rfl⟩
    · exact ⟨rfl, rfl, rfl⟩
  · exact ⟨rfl, rfl, rfl⟩

theorem gdp_fold_frame (l : List FreeBufferInfo) :
    ∀ acc : Bool × Nat × Int × PlannerState,
    ((l.foldl gdpStep acc).2.2.2).ortValueInfo = acc.2.2.2.ortValueInfo ∧
      ((l.foldl gdpStep acc).2.2.2).allocationPlan =
        acc.2.2.2.allocationPlan ∧
      ((l.foldl gdpStep acc).2.2.2).toBeFreed =
        acc.2.2.2.toBeFreed ++ l.map (fun e => e.mlValue) := by
  induction l with
  | nil =>
    intro acc
    exact ⟨rfl, rfl, (List.append_nil _).symm⟩
  | cons e rest ih =>
    intro acc
    rw [List.foldl_cons, List.map_cons]
    obtain ⟨i1, i2, i3⟩ := ih (gdpStep acc e)
    obtain ⟨g1, g2, g3⟩ := gdpStep_frame acc e
    refine ⟨i1.trans g1, i2.trans g2, ?_⟩
    rw [i3, g3, List.append_assoc]
    rfl

theorem GenerateDeallocationPlan_props (st : PlannerState) :
    (GenerateDeallocationPlan st).ortValueInfo = st.ortValueInfo ∧
      (GenerateDeallocationPlan st).allocationPlan = st.allocationPlan ∧
      (GenerateDeallocationPlan st).toBeFreed =
        st.toBeFreed ++ st.freelist.reverse.map (fun e => e.mlValue) := by
  simp only [GenerateDeallocationPlan]
  obtain ⟨g1, g2, g3⟩ := gdp_fold_frame st.freelist.reverse (false, 0, (0 : Int), st)
  split
  · exact ⟨g1, g2, g3⟩
  · exact ⟨g1, g2, g3⟩

theorem ComputeReusePlan_inv (env : PlanEnv) (hwf : wfEnv env)
    (stB stC : PlannerState)
    (hInvB : PlanInv env stB (outIds env.nodesInTopologicalOrder)
      (allEvents env.nodesInTopologicalOrder))
    (hepB : stB.executionPlan = env.nodesInTopologicalOrder.map
      (fun n => ({ nodeIndex := n.nodeIndex } : NodeExecutionPlan)))
    (htbfB : stB.toBeFreed = [])
    (hok : ComputeReusePlan env stB = Except.ok stC) :
    PlanInv env stC [] [] ∧ stC.toBeFreed = [] := by
  obtain ⟨hwf1, hwf2, hwf3, hwf4, hwf5, hwf6⟩ := hwf
  have hSentLt : ∀ w ∈ sentinelIds env, w < env.numValues := by
    intro w hw
    rw [sentinelIds] at hw
    obtain ⟨a, ha, rfl⟩ := List.mem_map.mp hw
    exact hwf1 a ha
  have hdisj : (preIds env).Disjoint (outIds env.nodesInTopologicalOrder) :=
    List.disjoint_of_nodup_append hwf3
  have hsetupStep : ∀ (l : List NodeArg), (∀ a ∈ l, a.id ∈ preIds env) →
      ∀ s : PlannerState,
      (PlanInv env s (outIds env.nodesInTopologicalOrder)
        (allEvents env.nodesInTopologicalOrder) ∧
        s.executionPlan = env.nodesInTopologicalOrder.map
          (fun n => ({ nodeIndex := n.nodeIndex } : NodeExecutionPlan)) ∧
        s.toBeFreed = []) →
      (PlanInv env (l.foldl setupPreexisting s)
        (outIds env.nodesInTopologicalOrder)
        (allEvents env.nodesInTopologicalOrder) ∧
        (l.foldl setupPreexisting s).executionPlan =
          env.nodesInTopologicalOrder.map
            (fun n => ({ nodeIndex := n.nodeIndex } : NodeExecutionPlan)) ∧
        (l.foldl setupPreexisting s).toBeFreed = []) := by
    intro l hl
    apply foldl_pres (fun s =>
      PlanInv env s (outIds env.nodesInTopologicalOrder)
        (allEvents env.nodesInTopologicalOrder) ∧
      s.executionPlan = env.nodesInTopologicalOrder.map
        (fun n => ({ nodeIndex := n.nodeIndex } : NodeExecutionPlan)) ∧
      s.toBeFreed = []) setupPreexisting l
    intro s a ha hp
    refine ⟨?_, hp.2.1, hp.2.2⟩
    apply PlanInv_setPlan env s _ _ a.id _ hp.1
    · intro hk
      rcases hk with hk | hk <;>
        exact absurd (show AllocKind.kPreExisting = _ from hk) (by decide)
    · intro _
      exact fun hmem => hdisj (hl a ha) hmem
  have hweightStep : ∀ (locs : List (List MemInfo)) (s : PlannerState),
      (PlanInv env s (outIds env.nodesInTopologicalOrder)
        (allEvents env.nodesInTopologicalOrder) ∧
        s.executionPlan = env.nodesInTopologicalOrder.map
          (fun n => ({ nodeIndex := n.nodeIndex } : NodeExecutionPlan)) ∧
        s.toBeFreed = []) →
      (PlanInv env (applyWeightLocations env s locs)
        (outIds env.nodesInTopologicalOrder)
        (allEvents env.nodesInTopologicalOrder) ∧
        (applyWeightLocations env s locs).executionPlan =
          env.nodesInTopologicalOrder.map
            (fun n => ({ nodeIndex := n.nodeIndex } : NodeExecutionPlan)) ∧
        (applyWeightLocations env s locs).toBeFreed = []) := by
    intro locs s hp
    rw [applyWeightLocations]
    apply foldl_pres (fun s =>
      PlanInv env s (outIds env.nodesInTopologicalOrder)
        (allEvents env.nodesInTopologicalOrder) ∧
      s.executionPlan = env.nodesInTopologicalOrder.map
        (fun n => ({ nodeIndex := n.nodeIndex } : NodeExecutionPlan)) ∧
      s.toBeFreed = []) (applyWeightStep env locs) (List.range locs.length) _
      s hp
    intro s' i _ hp'
    simp only [applyWeightStep]
    split
    · exact hp'
    · refine ⟨?_, hp'.2.1, hp'.2.2⟩
      apply PlanInv_setPlan env s' _ _ i _ hp'.1
      · intro hk
        rcases hk with hk | hk <;>
          exact absurd (show AllocKind.kAllocateStatically = _ from hk)
            (by decide)
      · intro hk
        exact absurd (show AllocKind.kAllocateStatically = _ from hk) (by decide)
  simp only [ComputeReusePlan, GeneratePlanForWeights] at hok
  obtain ⟨st3, hGPW, hok⟩ := Except_bind_ok_inv _ _ _ hok
  obtain ⟨locs, hgather, hGPW2⟩ := Except_bind_ok_inv _ _ _ hGPW
  have h3eq : _ = st3 := Except.ok.inj hGPW2
  have hCeq : _ = stC := Except.ok.inj hok
  have hP1 := hsetupStep env.graphInputs
    (fun a ha => List.mem_map_of_mem _
      (List.mem_append_left _ (List.mem_append_left _ ha)))
    stB ⟨hInvB, hepB, htbfB⟩
  have hP2 := hsetupStep env.outerScopeNodeArgs
    (fun a ha => List.mem_map_of_mem _
      (List.mem_append_left _ (List.mem_append_right _ ha)))
    _ hP1
  have hP3pre := hweightStep locs _ hP2
  rw [h3eq] at hP3pre
  rw [hP3pre.2.1] at hCeq
  have hfinal := computeReusePlanSteps_inv env hwf6 hwf2 hSentLt
    env.nodesInTopologicalOrder (preIds env) 0 st3 (fun _ hm => hm) hP3pre.1
    hwf5 (fun v hv hmem => hdisj hv hmem)
  rw [hCeq] at hfinal
  refine ⟨hfinal, ?_⟩
  rw [← hCeq, computeReusePlanSteps_toBeFreed]
  exact hP3pre.2.2

theorem PlanInv_transport (env : PlanEnv) (s1 s2 : PlannerState)
    (F E : List Nat) (h : PlanInv env s1 F E)
    (hinfo : s2.ortValueInfo = s1.ortValueInfo)
    (hplan : s2.allocationPlan = s1.allocationPlan)
    (hfree : s2.freelist = s1.freelist) :
    PlanInv env s2 F E := by
  have hB : ∀ v, Buffer s2 v = Buffer s1 v := by
    intro v
    unfold Buffer getInfo
    rw [hinfo]
  have hU : ∀ v, UseCount s2 v = UseCount s1 v := by
    intro v
    unfold UseCount getInfo
    rw [hinfo]
  have hG : ∀ v, getPlan s2 v = getPlan s1 v := by
    intro v
    unfold getPlan
    rw [hplan]
  refine ⟨?_, ?_, ?_, ?_, ?_, h.nodupF, h.freshLt, ?_, ?_, ?_, ?_, ?_, ?_, ?_⟩
  · rw [hinfo]
    exact h.lenInfo
  · rw [hplan]
    exact h.lenPlan
  · intro v hv
    rw [hB v]
    exact h.bufLt v hv
  · intro v hv
    rw [hB v, hB (Buffer s1 v)]
    exact h.bufRoot v hv
  · intro v hv hk
    rw [hG v] at hk ⊢
    rw [hB v]
    exact h.reuseRec v hv hk
  · intro c hc
    rw [hB c]
    exact h.freshSelf c hc
  · intro c hc v hv hb
    rw [hB v] at hb
    exact h.freshOnly c hc v hv hb
  · intro e he
    rw [hfree] at he
    exact h.freeLt e he
  · intro e he
    rw [hfree] at he
    exact h.freeNotF e he
  · intro e he
    rw [hfree] at he
    exact h.freeNotSent e he
  · intro v hk
    rw [hG v] at hk
    exact h.preExNotF v hk
  · intro v hv
    have hRH1 : rootHits s2 (sentinelIds env) v =
        rootHits s1 (sentinelIds env) v :=
      rootHits_congr _ _ _ _ (fun w _ => hB w)
    have hRH2 : rootHits s2 E v = rootHits s1 E v :=
      rootHits_congr _ _ _ _ (fun w _ => hB w)
    rw [hRH1, hRH2, hU v]
    exact h.countGe v hv

theorem CreatePlan_master (env : PlanEnv) (hwf : wfEnv env) (st : PlannerState)
    (hok : CreatePlan env = Except.ok st) :
    ∃ stD : PlannerState, PlanInv env stD [] [] ∧
      st.ortValueInfo = stD.ortValueInfo ∧
      st.allocationPlan = stD.allocationPlan ∧
      st.toBeFreed = stD.freelist.reverse.map (fun e => e.mlValue) := by
  have h0 : UCInv env
      { initializeState env with
        executionPlan := env.nodesInTopologicalOrder.map
          (fun n => ({ nodeIndex := n.nodeIndex } : NodeExecutionPlan)) }
      [] [] := by
    refine ⟨?_, ?_, ?_, ?_, ?_, ?_, ?_, ?_, rfl, rfl, rfl⟩
    · exact List.length_replicate _ _
    · exact List.length_replicate _ _
    · intro v hv
      exact absurd hv (List.not_mem_nil _)
    · intro v hv
      exact absurd hv (List.not_mem_nil _)
    · intro v _
      exact getD_replicate _ _ _
    · intro v hv
      exact absurd hv (List.not_mem_nil _)
    · intro v hv
      exact absurd hv (List.not_mem_nil _)
    · intro v
      have hdef : getPlan
          { initializeState env with
            executionPlan := env.nodesInTopologicalOrder.map
              (fun n => ({ nodeIndex := n.nodeIndex } : NodeExecutionPlan)) }
          v = default :=
        getD_replicate _ _ _
      rw [hdef]
      rfl
  simp only [CreatePlan] at hok
  obtain ⟨stB, hB, hok⟩ := Except_bind_ok_inv _ _ _ hok
  obtain ⟨stC, hC, hok⟩ := Except_bind_ok_inv _ _ _ hok
  obtain ⟨stD, hD, hok⟩ := Except_bind_ok_inv _ _ _ hok
  have hfinal : GenerateDeallocationPlan stD = st := Except.ok.inj hok
  have hUC := ComputeUseCounts_inv env hwf _ stB h0 hB
  have hPlanB := UCInv_to_PlanInv env hwf stB hUC
  obtain ⟨hPlanC, htbfC⟩ := ComputeReusePlan_inv env hwf stB stC hPlanB
    hUC.ep hUC.tbf hC
  obtain ⟨hfi, hfp, hff, hft⟩ := ComputeFenceCheck_frame env stC stD hD
  have hPlanD : PlanInv env stD [] [] :=
    PlanInv_transport env stC stD [] [] hPlanC hfi hfp hff
  obtain ⟨hg1, hg2, hg3⟩ := GenerateDeallocationPlan_props stD
  refine ⟨stD, hPlanD, ?_, ?_, ?_⟩
  · rw [← hfinal]
    exact hg1
  · rw [← hfinal]
    exact hg2
  · rw [← hfinal, hg3, hft, htbfC]
    rfl

theorem rootOf_eq_Buffer (st : PlannerState) (v : Nat)
    (hroot : Buffer st (Buffer st v) = Buffer st v)
    (hvlen : v < st.ortValueInfo.length) :
    rootOf st v = Buffer st v := by
  unfold rootOf
  obtain ⟨k, hk⟩ : ∃ k, st.ortValueInfo.length = k + 1 :=
    ⟨st.ortValueInfo.length - 1, by omega⟩
  rw [hk]
  simp only [rootOfAux]
  by_cases hb : (Buffer st v == v) = true
  · rw [if_pos hb]
    exact (eq_of_beq hb).symm
  · rw [if_neg hb]
    cases k with
    | zero => rfl
    | succ k2 =>
      simp only [rootOfAux]
      rw [hroot, if_pos (beq_self_eq_true _)]

/-- C2, amended: for every value `v` that the final plan marks as
`alloc_kind = kReuse` with recorded buffer `u = reused_buffer[v]`, the
record `u` is already a root (`reused_buffer` chains are collapsed to
depth at most one), `u` is exactly `Buffer v`, and `root_of v =
root_of u`.  The claim's further assertion that `v` and `u` share the
same placement is refuted separately by
`claimC2_counterexample_alias_placement`. -/
theorem claimC2_amended_collapsed_chains (env : PlanEnv) (st : PlannerState)
    (hwf : wfEnv env) (hok : CreatePlan env = Except.ok st)
    (v : Nat) (hv : v < env.numValues)
    (hk : (getPlan st v).allocKind = AllocKind.kReuse) :
    Buffer st ((getPlan st v).reusedBuffer) = (getPlan st v).reusedBuffer ∧
    (getPlan st v).reusedBuffer = Buffer st v ∧
    rootOf st v = rootOf st ((getPlan st v).reusedBuffer) := by
  obtain ⟨stD, hInv, hinfo, hplan, _⟩ := CreatePlan_master env hwf st hok
  have hG : getPlan st v = getPlan stD v := by
    unfold getPlan
    rw [hplan]
  have hBv : ∀ w, Buffer st w = Buffer stD w := by
    intro w
    unfold Buffer getInfo
    rw [hinfo]
  have hkD : (getPlan stD v).allocKind = AllocKind.kReuse := by
    rw [← hG]
    exact hk
  have hrec := hInv.reuseRec v hv (Or.inl hkD)
  have hrootst : Buffer st (Buffer st v) = Buffer st v := by
    rw [hBv v, hBv (Buffer stD v)]
    exact hInv.bufRoot v hv
  have hu : (getPlan st v).reusedBuffer = Buffer st v := by
    rw [hG, hBv v]
    exact hrec
  have hvlen : v < st.ortValueInfo.length := by
    rw [hinfo, hInv.lenInfo]
    exact hv
  have hBuu : Buffer st ((getPlan st v).reusedBuffer) =
      (getPlan st v).reusedBuffer := by
    rw [hu, hrootst]
  refine ⟨hBuu, hu, ?_⟩
  have hulen : (getPlan st v).reusedBuffer < st.ortValueInfo.length := by
    rw [hu, hBv v, hinfo, hInv.lenInfo]
    exact hInv.bufLt v hv
  have h1 : rootOf st v = Buffer st v := rootOf_eq_Buffer st v hrootst hvlen
  have h2 : rootOf st ((getPlan st v).reusedBuffer) =
      Buffer st ((getPlan st v).reusedBuffer) :=
    rootOf_eq_Buffer st _ (by rw [hBuu, hBuu]) hulen
  rw [h1, h2, hBuu, hu]

/-- Witness for C2 (amended) on the four-node chain `envFence`: value 3 is
planned `kReuse` and its recorded buffer is the root 1 (not its direct
source 2), with collapsed chains and equal roots. -/
theorem claimC2_amended_witness :
    ((getPlan (planOf envFence) 3).allocKind = AllocKind.kReuse ∧
      (getPlan (planOf envFence) 3).reusedBuffer = 1) ∧
    Buffer (planOf envFence) ((getPlan (planOf envFence) 3).reusedBuffer) =
      (getPlan (planOf envFence) 3).reusedBuffer ∧
    (getPlan (planOf envFence) 3).reusedBuffer = Buffer (planOf envFence) 3 ∧
    rootOf (planOf envFence) 3 =
      rootOf (planOf envFence) ((getPlan (planOf envFence) 3).reusedBuffer) :=
  ⟨⟨by decide, by decide⟩,
   claimC2_amended_collapsed_chains envFence (planOf envFence)
     ⟨by decide, by decide, by decide, by decide, by decide, by decide⟩ rfl
     3 (by decide) (by decide)⟩

/-- C5: on any well-formed graph whose planning succeeds, no graph input,
outer-scope reference, or graph output id ever appears in the final
`to_be_freed` sequence — the sentinel uses keep their counts positive, so
those values are never pushed onto the freelist. -/
theorem claimC5_sentinels_never_freed (env : PlanEnv) (st : PlannerState)
    (hwf : wfEnv env) (hok : CreatePlan env = Except.ok st) :
    ∀ v ∈ st.toBeFreed,
      v ∉ (env.graphInputs ++ env.outerScopeNodeArgs ++ env.graphOutputs).map
        (fun a => a.id) := by
  obtain ⟨stD, hInv, _, _, htb⟩ := CreatePlan_master env hwf st hok
  intro v hv hmem
  rw [htb] at hv
  obtain ⟨e, he, rfl⟩ := List.mem_map.mp hv
  have heF : e ∈ stD.freelist := List.mem_reverse.mp he
  apply hInv.freeNotSent e heF
  obtain ⟨a, ha, haeq⟩ := List.mem_map.mp hmem
  rw [sentinelIds]
  apply List.mem_map.mpr
  refine ⟨a, ?_, haeq⟩
  rcases List.mem_append.mp ha with h | h
  · exact List.mem_append_left _ (List.mem_append_left _ h)
  · exact List.mem_append_right _ h

/-- Witness for C5 on the two-node chain `envChain`: value 1 is actually
released into `to_be_freed`, and it is none of the graph inputs,
outer-scope args, or graph outputs. -/
theorem claimC5_witness :
    1 ∈ (planOf envChain).toBeFreed ∧
    1 ∉ (envChain.graphInputs ++ envChain.outerScopeNodeArgs ++
      envChain.graphOutputs).map (fun a => a.id) :=
  ⟨by decide,
   claimC5_sentinels_never_freed envChain (planOf envChain)
     ⟨by decide, by decide, by decide, by decide, by decide, by decide⟩ rfl
     1 (by decide)⟩

end OnnxPlan
